import Mathlib

/-!
# ConSymTab: a concurrent symbol table (symtab.c) and its word-count drivers

A shallow embedding of `symtab.c`, `mostUsed.c` and `uniqueCount.c`.

Conventions of the embedding.

* A C string is the list of its `char` values before the terminating NUL, each
  with the value it has after promotion to `int` (so the embedding does not fix
  whether `char` is signed).
* A `void *` value is a natural number; `NULL` is `0`.  The drivers store
  counters directly in the pointer bits, which this representation follows.
* A bucket chain (`struct Node` linked through `next`) is the list of its nodes
  from the head; a pointer into a chain is the suffix that starts at the node
  pointed to, and `NULL` is the empty list.
* A call is run by one thread with no other thread active.  A call that can
  only proceed when another thread releases a coordinator therefore never
  returns: its outcome is `Outcome.blocks`.
* `malloc`, `pthread_mutex_init`, `pthread_cond_init`, `pthread_mutex_lock`
  (on a free mutex) and `pthread_mutex_unlock` are taken to succeed, so the
  `exit(-1)` branches that follow their failure are not part of the embedding.
  The one exception is `symtabCreateMalloc`, which takes the result of every
  allocation of `symtabCreate` as an input.
* The reader/writer protocol of one group is also given as a step function on
  the counters (`Monitor`, `step`), one step for each section of code that
  runs under the mutex of the group; there any number of threads may be active.
* A character stream is the list of the values `fgetc` returns before `EOF`.
* A callback is a function on `void *` values.  `symtabUpdateEvents` is
  `symtabUpdate` for a callback with a state of its own; it also records the
  invocations of the callback and the `pthread_cond_signal` calls, which
  `symtabUpdate` leaves out because they change nothing in the table.
-/

namespace ConSymTab

/-! ## Data model -/

/-- A C string: the `char` values before the terminator. -/
abbrev Symbol := List Int

/-- The C string of an ASCII text. -/
def cstr (s : String) : Symbol := s.toList.map (fun ch => (ch.toNat : Int))

/-- The value `NULL` of a `void *`. -/
def NULL : Nat := 0

/-- Number of mutexes, thin locks and reader/writer records: `#define MUTEX_NUM 16`. -/
def MUTEX_NUM : Nat := 16

def SYMTAB_NO_LOCKING : Int := 0
def SYMTAB_SINGLE_LOCK : Int := 1
def SYMTAB_LOCK_BUCKET_GROUPS : Int := 2
def SYMTAB_ALLOW_CONCURRENT_READS : Int := 3
def SYMTAB_USE_THIN_LOCKS : Int := 4

/-- The fields `symbol` and `data` of `struct Node`; `next` is the rest of the chain. -/
structure Node where
  symbol : Symbol
  data : Nat
deriving DecidableEq, Repr

/-- The counters of `struct InnerStruct` (the two condition variables carry no
state when a single thread runs). -/
structure InnerStruct where
  readers : Int
  writers : Int
  waitingReaders : Int
  waitingWriters : Int
deriving DecidableEq, Repr

/-- The table, `struct Control`.  A mutex is `true` when locked.  `mu`, `thins`
and `inner` are the 16-slot arrays of the struct. -/
structure Control where
  length : Nat
  backbone : List (List Node)
  concurrencySupport : Int
  mu : List Bool
  smu : Bool
  thins : List Int
  inner : List InnerStruct
deriving DecidableEq, Repr

/-- The cursor, `struct Iterator`. -/
structure Iterator where
  controlpointer : Control
  index : Nat
  nextnode : List Node
deriving DecidableEq, Repr

/-- How a call ends when one thread runs alone. -/
inductive Outcome (α : Type) where
  /-- the call returns -/
  | returns (a : α)
  /-- the call waits for ever on a coordinator nobody will release -/
  | blocks
  /-- undefined behaviour: division by zero or a NULL dereference -/
  | faults
  /-- the process ends through `exit(-1)` -/
  | exits
deriving DecidableEq, Repr

/-- Sequencing of calls and of the steps inside a call. -/
def Outcome.bind {α β : Type} (o : Outcome α) (f : α → Outcome β) : Outcome β :=
  match o with
  | .returns a => f a
  | .blocks => .blocks
  | .faults => .faults
  | .exits => .exits

/-! ## hash (symtab.c 66-83) -/

/-- The `while(*str)` loop of `hash`: `hash = (hash ^ *str) * p` in `unsigned int`. -/
def hashLoop (hash : Nat) : Symbol → Nat
  | [] => hash
  | c :: str => hashLoop (((hash ^^^ (c % 4294967296).toNat) * 16777619) % 4294967296) str

/-- The function `hash` of symtab.c. -/
def hash (str : Symbol) : Nat :=
  let hash := hashLoop 2166136261 str
  let hash := (hash + (hash <<< 13) % 4294967296) % 4294967296
  let hash := hash ^^^ (hash >>> 7)
  let hash := (hash + (hash <<< 3) % 4294967296) % 4294967296
  let hash := hash ^^^ (hash >>> 17)
  let hash := (hash + (hash <<< 5) % 4294967296) % 4294967296
  hash

/-! ## lookup (symtab.c 91-110) -/

/-- The `while( cur != NULL )` loop of `lookup`: the first node of the chain whose
symbol compares equal under `strcmp`. -/
def lookupChain (symbol : Symbol) : List Node → Option Node
  | [] => none
  | cur :: next => if cur.symbol = symbol then some cur else lookupChain symbol next

/-- The static function `lookup`: the node found in bucket `hash(symbol) % length`. -/
def lookup (symbol : Symbol) (array : Control) : Option Node :=
  let hashed := hash symbol
  let level := hashed % array.length
  lookupChain symbol (array.backbone.getD level [])

/-- The chain after the assignment `looked->data = data`, where `looked` is the node
that `lookupChain symbol` returns. -/
def storeChain (symbol : Symbol) (data : Nat) : List Node → List Node
  | [] => []
  | cur :: next =>
    if cur.symbol = symbol then { cur with data := data } :: next
    else cur :: storeChain symbol data next

/-! ## symtabCreate (symtab.c 121-208) -/

/-- The function `symtabCreate` when every allocation succeeds.  `raw` is the content of
the block `malloc` returned for the control structure: the fields the code does not
write keep whatever that block held. -/
def symtabCreate (raw : Control) (sizeHint : Nat) (concurrencySupport : Int) : Control :=
  let control : Control :=
    { raw with length := sizeHint, concurrencySupport := concurrencySupport }
  let control : Control :=
    if concurrencySupport = SYMTAB_SINGLE_LOCK then { control with smu := false } else control
  let control : Control :=
    if concurrencySupport = SYMTAB_LOCK_BUCKET_GROUPS ∨
        concurrencySupport = SYMTAB_ALLOW_CONCURRENT_READS then
      { control with
        mu := List.replicate MUTEX_NUM false
        inner := List.replicate MUTEX_NUM
          { readers := 0, writers := 0, waitingReaders := 0, waitingWriters := 0 } }
    else control
  let control : Control :=
    if concurrencySupport = SYMTAB_USE_THIN_LOCKS then
      { control with thins := List.replicate MUTEX_NUM 0 }
    else control
  { control with backbone := List.replicate control.length [] }

/-! ## Coordinators -/

/-- Modelled from the spec: `thinLock` is declared at symtab.c line 21 and defined outside
the sources.  Spec 4.4: a flag that is free (0) is flipped to held by a compare-and-set
and the call reports success; on a held flag all `tryCount` attempts fail and the call
reports 0.  The result is the pair (return value, flag afterwards). -/
def thinLock (lock : Int) (_tryCount : Nat) : Int × Int :=
  if lock = 0 then (1, 1) else (0, lock)

/-- A call of `pthread_mutex_lock`: a locked mutex is never released by the calling
thread itself, so the call blocks. -/
def pthread_mutex_lock (m : Bool) : Outcome Bool :=
  if m then .blocks else .returns true

/-- A call of `pthread_mutex_unlock`. -/
def pthread_mutex_unlock (_m : Bool) : Bool := false

/-- The record `inner[g]`. -/
def Control.innerAt (c : Control) (g : Nat) : InnerStruct :=
  c.inner.getD g { readers := 0, writers := 0, waitingReaders := 0, waitingWriters := 0 }

/-- Entry protocol of `symtabUpdate`, symtab.c 258-308. -/
def updateAcquire (cstruct : Control) (hashed : Nat) : Outcome Control :=
  let g := hashed % MUTEX_NUM
  -- SYMTAB_SINGLE_LOCK (258-263)
  (if cstruct.concurrencySupport = SYMTAB_SINGLE_LOCK then
    (pthread_mutex_lock cstruct.smu).bind fun m => Outcome.returns { cstruct with smu := m }
   else Outcome.returns cstruct).bind fun cstruct =>
  -- SYMTAB_LOCK_BUCKET_GROUPS (265-272)
  (if cstruct.concurrencySupport = SYMTAB_LOCK_BUCKET_GROUPS then
    (pthread_mutex_lock (cstruct.mu.getD g false)).bind fun m =>
      Outcome.returns { cstruct with mu := cstruct.mu.set g m }
   else Outcome.returns cstruct).bind fun cstruct =>
  -- SYMTAB_USE_THIN_LOCKS (274-288): the loop repeats for ever on a held flag
  (if cstruct.concurrencySupport = SYMTAB_USE_THIN_LOCKS then
    let thinTest := thinLock (cstruct.thins.getD g 0) 10000
    if thinTest.1 = 0 then Outcome.blocks
    else Outcome.returns { cstruct with thins := cstruct.thins.set g thinTest.2 }
   else Outcome.returns cstruct).bind fun cstruct =>
  -- SYMTAB_ALLOW_CONCURRENT_READS, writer's entry (290-308): `pthread_cond_wait`
  -- is never signalled
  if cstruct.concurrencySupport = SYMTAB_ALLOW_CONCURRENT_READS then
    (pthread_mutex_lock (cstruct.mu.getD g false)).bind fun m =>
      let cstruct := { cstruct with mu := cstruct.mu.set g m }
      if (cstruct.innerAt g).readers > 0 ∨ (cstruct.innerAt g).writers > 0 then Outcome.blocks
      else
        let is := cstruct.innerAt g
        let cstruct := { cstruct with inner := cstruct.inner.set g { is with writers := is.writers + 1 } }
        Outcome.returns { cstruct with mu := cstruct.mu.set g (pthread_mutex_unlock (cstruct.mu.getD g false)) }
  else Outcome.returns cstruct

/-- Exit protocol of `symtabUpdate`: symtab.c 325-366, repeated at 412-446.  The
`pthread_cond_signal` calls change no state. -/
def updateRelease (cstruct : Control) (hashed : Nat) : Outcome Control :=
  let g := hashed % MUTEX_NUM
  let cstruct : Control :=
    if cstruct.concurrencySupport = SYMTAB_SINGLE_LOCK then
      { cstruct with smu := pthread_mutex_unlock cstruct.smu }
    else cstruct
  let cstruct : Control :=
    if cstruct.concurrencySupport = SYMTAB_LOCK_BUCKET_GROUPS then
      { cstruct with mu := cstruct.mu.set g (pthread_mutex_unlock (cstruct.mu.getD g false)) }
    else cstruct
  let cstruct : Control :=
    if cstruct.concurrencySupport = SYMTAB_USE_THIN_LOCKS then
      { cstruct with thins := cstruct.thins.set g 0 }
    else cstruct
  if cstruct.concurrencySupport = SYMTAB_ALLOW_CONCURRENT_READS then
    (pthread_mutex_lock (cstruct.mu.getD g false)).bind fun m =>
      let cstruct := { cstruct with mu := cstruct.mu.set g m }
      let is := cstruct.innerAt g
      let cstruct := { cstruct with inner := cstruct.inner.set g { is with writers := is.writers - 1 } }
      Outcome.returns { cstruct with mu := cstruct.mu.set g (pthread_mutex_unlock (cstruct.mu.getD g false)) }
  else Outcome.returns cstruct

/-! ## symtabUpdate (symtab.c 253-453) -/

/-- The function `symtabUpdate`.  The result is the returned `int` and the table after
the call. -/
def symtabUpdate (cstruct : Control) (symbol : Symbol) (func : Nat → Nat) :
    Outcome (Int × Control) :=
  if cstruct.length = 0 then .faults
  else
    let hashed := hash symbol % cstruct.length
    (updateAcquire cstruct hashed).bind fun cstruct =>
    -- `passedFunction = malloc(..)` is not NULL, so the test at 318 never fires
    match lookup symbol cstruct with
    | some looked =>
      let chain := cstruct.backbone.getD hashed []
      let cstruct :=
        { cstruct with backbone := cstruct.backbone.set hashed (storeChain symbol (func looked.data) chain) }
      (updateRelease cstruct hashed).bind fun cstruct => .returns (1, cstruct)
    | none =>
      let passedFunction := func NULL
      if passedFunction = NULL then .returns (0, cstruct)
      else
        let newNode : Node := { symbol := symbol, data := func NULL }
        let old := cstruct.backbone.getD hashed []
        let cstruct := { cstruct with backbone := cstruct.backbone.set hashed (newNode :: old) }
        (updateRelease cstruct hashed).bind fun cstruct => .returns (1, cstruct)

/-! ## symtabLookup (symtab.c 460-562) -/

/-- Entry protocol of `symtabLookup`, symtab.c 466-510. -/
def lookupAcquire (cont : Control) (hashed : Nat) : Outcome Control :=
  let g := hashed % MUTEX_NUM
  -- SYMTAB_SINGLE_LOCK (466-471)
  (if cont.concurrencySupport = SYMTAB_SINGLE_LOCK then
    (pthread_mutex_lock cont.smu).bind fun m => Outcome.returns { cont with smu := m }
   else Outcome.returns cont).bind fun cont =>
  -- SYMTAB_LOCK_BUCKET_GROUPS (473-478)
  (if cont.concurrencySupport = SYMTAB_LOCK_BUCKET_GROUPS then
    (pthread_mutex_lock (cont.mu.getD g false)).bind fun m =>
      Outcome.returns { cont with mu := cont.mu.set g m }
   else Outcome.returns cont).bind fun cont =>
  -- SYMTAB_USE_THIN_LOCKS (480-493)
  (if cont.concurrencySupport = SYMTAB_USE_THIN_LOCKS then
    let thinTest := thinLock (cont.thins.getD g 0) 10000
    if thinTest.1 = 0 then Outcome.blocks
    else Outcome.returns { cont with thins := cont.thins.set g thinTest.2 }
   else Outcome.returns cont).bind fun cont =>
  -- SYMTAB_ALLOW_CONCURRENT_READS, reader's entry (497-510)
  if cont.concurrencySupport = SYMTAB_ALLOW_CONCURRENT_READS then
    (pthread_mutex_lock (cont.mu.getD g false)).bind fun m =>
      let cont := { cont with mu := cont.mu.set g m }
      if (cont.innerAt g).writers > 0 then Outcome.blocks
      else
        let is := cont.innerAt g
        let cont := { cont with inner := cont.inner.set g { is with readers := is.readers + 1 } }
        Outcome.returns { cont with mu := cont.mu.set g (pthread_mutex_unlock (cont.mu.getD g false)) }
  else Outcome.returns cont

/-- Exit protocol of `symtabLookup`, symtab.c 514-550.  The inner `hashed` of line 534
is the same value as the outer one. -/
def lookupRelease (cont : Control) (hashed : Nat) : Outcome Control :=
  let g := hashed % MUTEX_NUM
  let cont : Control :=
    if cont.concurrencySupport = SYMTAB_SINGLE_LOCK then
      { cont with smu := pthread_mutex_unlock cont.smu }
    else cont
  let cont : Control :=
    if cont.concurrencySupport = SYMTAB_LOCK_BUCKET_GROUPS then
      { cont with mu := cont.mu.set g (pthread_mutex_unlock (cont.mu.getD g false)) }
    else cont
  let cont : Control :=
    if cont.concurrencySupport = SYMTAB_USE_THIN_LOCKS then
      { cont with thins := cont.thins.set g 0 }
    else cont
  if cont.concurrencySupport = SYMTAB_ALLOW_CONCURRENT_READS then
    (pthread_mutex_lock (cont.mu.getD g false)).bind fun m =>
      let cont := { cont with mu := cont.mu.set g m }
      let is := cont.innerAt g
      let cont := { cont with inner := cont.inner.set g { is with readers := is.readers - 1 } }
      Outcome.returns { cont with mu := cont.mu.set g (pthread_mutex_unlock (cont.mu.getD g false)) }
  else Outcome.returns cont

/-- The end of `symtabLookup` (553-561): NULL when `lookup` found no node, the node's data
otherwise. -/
def nodeData : Option Node → Nat
  | none => NULL
  | some node => node.data

/-- The function `symtabLookup`.  The result is the returned `void *` and the table after
the call. -/
def symtabLookup (symtabHandle : Control) (symbol : Symbol) : Outcome (Nat × Control) :=
  let cont := symtabHandle
  if cont.length = 0 then .faults
  else
    let hashed := hash symbol % cont.length
    (lookupAcquire cont hashed).bind fun cont =>
    let node := lookup symbol cont
    (lookupRelease cont hashed).bind fun cont =>
    .returns (nodeData node, cont)

/-! ## Iterator (symtab.c 570-650) -/

/-- The scan `for( i = index; i < size; i++ )` for the first bucket that is not NULL, used
at 587-602 and at 638-647; `fuel` is the number of indices still to visit. -/
def firstBucket (backbone : List (List Node)) : Nat → Nat → Option (Nat × List Node)
  | 0, _ => none
  | fuel + 1, index =>
    match backbone.getD index [] with
    | [] => firstBucket backbone fuel (index + 1)
    | curBackBone :: next => some (index, curBackBone :: next)

/-- The function `symtabCreateIterator` (the allocation of the iterator succeeds); `none`
is the returned NULL. -/
def symtabCreateIterator (symtabHandle : Control) : Option Iterator :=
  let control := symtabHandle
  let size := control.length
  match firstBucket control.backbone size 0 with
  | some (index, curBackBone) =>
    some { controlpointer := control, index := index, nextnode := curBackBone }
  | none => none

/-- The function `symtabNext`.  `returnData` is the content of the location the second
argument points to; the result is the returned symbol (`none` for NULL), the content of
that location after the call, and the iterator after the call. -/
def symtabNext (iteratorHandle : Option Iterator) (returnData : Nat) :
    Outcome (Option Symbol × Nat × Iterator) :=
  match iteratorHandle with
  | none => .faults
  | some iter =>
    match iter.nextnode with
    | [] => .returns (none, returnData, iter)
    | iternode :: next =>
      let symbol := iternode.symbol
      let returnData := iternode.data
      let iter := { iter with nextnode := [] }
      if next ≠ [] then .returns (some symbol, returnData, { iter with nextnode := next })
      else
        let cplength := iter.controlpointer.length
        match firstBucket iter.controlpointer.backbone (cplength - (iter.index + 1))
            (iter.index + 1) with
        | some (i, curBackBone) =>
          .returns (some symbol, returnData, { iter with nextnode := curBackBone, index := i })
        | none => .returns (some symbol, returnData, iter)

/-- The drain loop of the drivers (mostUsed.c 202-233, uniqueCount.c 192-197): call
`symtabNext` until it returns NULL, recording the pairs received.  `fuel` bounds the
number of calls; the result is `none` when that many calls were made and none of them
returned NULL. -/
def drain : Nat → Option Iterator → Nat → Outcome (Option (List (Symbol × Nat)))
  | 0, _, _ => .returns none
  | fuel + 1, iterator, out =>
    (symtabNext iterator out).bind fun r =>
      match r.1 with
      | none => .returns (some [])
      | some p =>
        (drain fuel (some r.2.2) r.2.1).bind fun rest =>
          .returns (rest.map fun l => (p, r.2.1) :: l)

/-! ## mostUsed.c -/

namespace MostUsed

/-- The callback `updateCallback` of mostUsed.c (96-107): the count lives in the low 32
bits of the pointer. -/
def updateCallback (data : Nat) : Nat :=
  if data = NULL then 1
  else
    let oldCount := data % 4294967296
    (oldCount + 1) % 4294967296

/-- The loop of `processFile` in mostUsed.c (120-133) over the words `getWord` delivers. -/
def processFile (symtab : Control) : List Symbol → Outcome Control
  | [] => .returns symtab
  | word :: rest =>
    (symtabUpdate symtab word updateCallback).bind fun r =>
      if r.1 = 0 then .exits else processFile r.2 rest

end MostUsed

/-! ## uniqueCount.c -/

namespace UniqueCount

/-- The callback `updateCallback` of uniqueCount.c (98-101). -/
def updateCallback (_data : Nat) : Nat := 1

end UniqueCount

/-! ## Tables a single thread can reach -/

/-- The tables reachable from a freshly created one by calls of `symtabUpdate` and
`symtabLookup` that return. -/
inductive Reachable : Control → Prop where
  | create (raw : Control) (sizeHint : Nat) (concurrencySupport : Int) :
      Reachable (symtabCreate raw sizeHint concurrencySupport)
  | update {c c' : Control} (symbol : Symbol) (func : Nat → Nat) (r : Int) :
      Reachable c → symtabUpdate c symbol func = .returns (r, c') → Reachable c'
  | lookup {c c' : Control} (symbol : Symbol) (v : Nat) :
      Reachable c → symtabLookup c symbol = .returns (v, c') → Reachable c'

/-- All entries of the table: the chains of buckets 0, 1, ... one after the other. -/
def Control.entries (c : Control) : List Node := c.backbone.flatten

/-- The coordinator `symtabUpdate` acquires for group `g` is free. -/
def Control.writeFree (c : Control) (g : Nat) : Prop :=
  (c.concurrencySupport = SYMTAB_SINGLE_LOCK → c.smu = false) ∧
  (c.concurrencySupport = SYMTAB_LOCK_BUCKET_GROUPS → c.mu.getD g false = false) ∧
  (c.concurrencySupport = SYMTAB_USE_THIN_LOCKS → c.thins.getD g 0 = 0) ∧
  (c.concurrencySupport = SYMTAB_ALLOW_CONCURRENT_READS →
    c.mu.getD g false = false ∧ (c.innerAt g).readers ≤ 0 ∧ (c.innerAt g).writers ≤ 0)

/-- The coordinator `symtabLookup` acquires for group `g` is free. -/
def Control.readFree (c : Control) (g : Nat) : Prop :=
  (c.concurrencySupport = SYMTAB_SINGLE_LOCK → c.smu = false) ∧
  (c.concurrencySupport = SYMTAB_LOCK_BUCKET_GROUPS → c.mu.getD g false = false) ∧
  (c.concurrencySupport = SYMTAB_USE_THIN_LOCKS → c.thins.getD g 0 = 0) ∧
  (c.concurrencySupport = SYMTAB_ALLOW_CONCURRENT_READS →
    c.mu.getD g false = false ∧ (c.innerAt g).writers ≤ 0)

/-- The group of a symbol: `(hash(symbol) % length) % MUTEX_NUM`. -/
def Control.group (c : Control) (symbol : Symbol) : Nat :=
  (hash symbol % c.length) % MUTEX_NUM

/-- Shape of the chains: every node sits in the bucket its hash selects and no chain
holds a symbol twice. -/
def Control.WF (c : Control) : Prop :=
  c.backbone.length = c.length ∧
  ∀ i chain, c.backbone[i]? = some chain →
    (∀ node ∈ chain, hash node.symbol % c.length = i) ∧ (chain.map Node.symbol).Nodup

/-- All coordinators of the table are free. -/
def Control.idle (c : Control) : Prop := ∀ g, c.writeFree g

/-! ## Sample inputs -/

/-- A block of memory whose fields are all zero, as a value for the uninitialised block
`symtabCreate` starts from. -/
def rawBlock : Control :=
  { length := 0, backbone := [], concurrencySupport := 0, mu := [], smu := false, thins := [],
    inner := [] }

/-- A callback that rejects every request: it returns NULL whatever it is given. -/
def rejectAll (_data : Nat) : Nat := NULL

/-- The word stream of the counting scenario. -/
def colours : List Symbol :=
  [cstr "yellow", cstr "yellow", cstr "orange", cstr "purple", cstr "orange", cstr "yellow"]

/-- The table as a counting map: what `lookup` finds agrees with the number of
occurrences in `seen`. -/
def Counts (c : Control) (seen : List Symbol) : Prop :=
  ∀ w, lookup w c = if seen.count w = 0 then none else some { symbol := w, data := seen.count w }

/-- A table with four buckets in reader/writer mode that holds yellow:1, as left by one
`symtabUpdate` on a fresh table. -/
def yellowTable : Control :=
  { symtabCreate rawBlock 4 SYMTAB_ALLOW_CONCURRENT_READS with
    backbone := [[], [], [], [{ symbol := cstr "yellow", data := 1 }]] }

/-- A fresh table with four buckets under the single lock. -/
def singleLockTable : Control := symtabCreate rawBlock 4 SYMTAB_SINGLE_LOCK

/-- A table with four buckets and no locking that holds yellow:1. -/
def noLockTable : Control :=
  { symtabCreate rawBlock 4 SYMTAB_NO_LOCKING with
    backbone := [[], [], [], [{ symbol := cstr "yellow", data := 1 }]] }

/-- The call `symtabLookup(t, symbol)` made `n` times in a row; the results in order and
the table after the last call. -/
def repeatLookup : Nat → Control → Symbol → Outcome (List Nat × Control)
  | 0, c, _ => .returns ([], c)
  | n + 1, c, symbol =>
    (symtabLookup c symbol).bind fun r =>
      (repeatLookup n r.2 symbol).bind fun rest => .returns (r.1 :: rest.1, rest.2)

/-- The nodes a cursor has still to deliver: the rest of the current chain and the chains
of the buckets after `index`. -/
def Iterator.remaining (iter : Iterator) : List Node :=
  match iter.nextnode with
  | [] => []
  | node :: next => node :: next ++ (iter.controlpointer.backbone.drop (iter.index + 1)).flatten

/-- The (symbol, data) pair `symtabNext` hands out for a node. -/
def Node.pair (node : Node) : Symbol × Nat := (node.symbol, node.data)

/-- The table with four buckets and thin locks that the counting scenario leaves: orange
and yellow share bucket 3, purple is in bucket 0. -/
def coloursTable : Control :=
  { symtabCreate rawBlock 4 SYMTAB_USE_THIN_LOCKS with
    backbone := [[{ symbol := cstr "purple", data := 1 }], [], [],
      [{ symbol := cstr "orange", data := 2 }, { symbol := cstr "yellow", data := 3 }]] }

/-- The value a call hands back, without the state it leaves. -/
def Outcome.value {α β : Type} : Outcome (α × β) → Outcome α
  | .returns r => .returns r.1
  | .blocks => .blocks
  | .faults => .faults
  | .exits => .exits

/-- A call on `other` uses the coordinator that a call on `symbol` acquires: always under
the single lock, and in the three per-group modes when both symbols are in the same
group. -/
def Control.sharesCoordinator (c : Control) (symbol other : Symbol) : Prop :=
  c.concurrencySupport = SYMTAB_SINGLE_LOCK ∨
  ((c.concurrencySupport = SYMTAB_LOCK_BUCKET_GROUPS ∨
      c.concurrencySupport = SYMTAB_ALLOW_CONCURRENT_READS ∨
      c.concurrencySupport = SYMTAB_USE_THIN_LOCKS) ∧
    c.group other = c.group symbol)

/-- The call `symtabNext(iterator, &out)` made `k` times in a row on an iterator that is not
NULL: the returned symbols in order, the content of `out` after the last call and the
iterator after the last call. -/
def symtabNextN : Nat → Iterator → Nat → Outcome (List (Option Symbol) × Nat × Iterator)
  | 0, iter, out => .returns ([], out, iter)
  | k + 1, iter, out =>
    (symtabNext (some iter) out).bind fun r =>
      (symtabNextN k r.2.2 r.2.1).bind fun rest => .returns (r.1 :: rest.1, rest.2)

/-! ## getWord (mostUsed.c 44-86, the same text in uniqueCount.c 42-84) -/

def MAX_WORD : Nat := 50
def MIN_WORD : Nat := 6

/-- The value `EOF` that `getc` returns at the end of the file. -/
def EOF : Int := -1

/-- The C library `isalpha` in the "C" locale, which is in force since the drivers never
call `setlocale`: the 52 ASCII letters. -/
def isalpha (c : Int) : Bool := (65 ≤ c ∧ c ≤ 90) ∨ (97 ≤ c ∧ c ≤ 122)

/-- The C library `tolower` in the "C" locale. -/
def tolower (c : Int) : Int := if 65 ≤ c ∧ c ≤ 90 then c + 32 else c

/-- The first loop of `getWord` (51-59): read until a letter or EOF is seen.  The file is
the list of the bytes not yet read.  `none` is the `return NULL` at EOF; otherwise the
letter in `c` and the file after it. -/
def skipToLetter : List Nat → Option (Int × List Nat)
  | [] => none
  | b :: fp => if isalpha b then some (b, fp) else skipToLetter fp

/-- The second loop of `getWord` (62-71), entered with the character `c` just read: the
content of `buf`, the counter `i` and the file when the loop ends.  The character that
ends the loop has been read from the file. -/
def readLetters (buf : List Int) (i : Nat) : Int → List Nat → List Int × Nat × List Nat
  | c, [] =>
    if isalpha c then ((if i < MAX_WORD then buf ++ [tolower c] else buf), i + 1, [])
    else (buf, i, [])
  | c, b :: fp =>
    if isalpha c then readLetters (if i < MAX_WORD then buf ++ [tolower c] else buf) (i + 1) b fp
    else (buf, i, b :: fp)

/-- The function `getWord`: the returned word (`none` for NULL) and the file after the
call.  `fuel` bounds the depth of the recursion at line 77; the result is `none` when it
runs out. -/
def getWord : Nat → List Nat → Option (Option Symbol × List Nat)
  | 0, _ => none
  | fuel + 1, fp =>
    match skipToLetter fp with
    | none => some (none, [])
    | some (c, fp) =>
      let r := readLetters [] 0 c fp
      if r.2.1 < MIN_WORD ∨ r.2.1 > MAX_WORD then getWord fuel r.2.2
      else some (some r.1, r.2.2)

/-- The words that the loop of `processFile` (mostUsed.c 120-133, uniqueCount.c 114-130)
receives: `getWord` is called until it returns NULL.  `fuel` bounds the number of calls
and the depth of each; the result is `none` when it runs out. -/
def getWords : Nat → List Nat → Option (List Symbol)
  | 0, _ => none
  | fuel + 1, fp =>
    match getWord (fuel + 1) fp with
    | none => none
    | some (none, _) => some []
    | some (some word, fp) => (getWords fuel fp).map fun rest => word :: rest

/-- The bytes of an ASCII text, as a file content. -/
def bytes (s : String) : List Nat := s.toList.map Char.toNat

namespace UniqueCount

/-- The loop of `processFile` in uniqueCount.c (114-130) over the words `getWord`
delivers: look the word up and install it only when the lookup returns NULL. -/
def processFile (symtab : Control) : List Symbol → Outcome Control
  | [] => .returns symtab
  | word :: rest =>
    (symtabLookup symtab word).bind fun l =>
      if l.1 = NULL then
        (symtabUpdate l.2 word updateCallback).bind fun r =>
          if r.1 = 0 then .exits else processFile r.2 rest
      else processFile l.2 rest

/-- The counting loop of `main` in uniqueCount.c (192-197); `count` is the `int` counter,
whose overflow is undefined behaviour.  `fuel` bounds the number of calls of `symtabNext`;
the result is `none` when that many calls were made and none returned NULL. -/
def countLoop : Nat → Option Iterator → Nat → Int → Outcome (Option Int)
  | 0, _, _, _ => .returns none
  | fuel + 1, iterator, out, count =>
    (symtabNext iterator out).bind fun r =>
      match r.1 with
      | none => .returns (some count)
      | some _ =>
        if 2147483647 < count + 1 then .faults
        else countLoop fuel (some r.2.2) r.2.1 (count + 1)

/-- The end of `main` in uniqueCount.c (186-200): create the iterator, count the entries;
the result is the number printed.  `out` is the content of the uninitialised variable. -/
def mainCount (fuel : Nat) (symtab : Control) (out : Nat) : Outcome (Option Int) :=
  let iterator := symtabCreateIterator symtab
  countLoop fuel iterator out 0

end UniqueCount

/-! ## symtabCreate and the results of malloc (symtab.c 121-208) -/

/-- The results of the calls of `malloc` made by `symtabCreate`: `control` is the block
returned for the control structure (`none` is NULL), `backbone` and `inner` tell whether the
two arrays were allocated, and `is i` whether the record of group `i` was. -/
structure Mallocs where
  control : Option Control
  backbone : Bool
  inner : Bool
  is : Nat → Bool

/-- The loop at 151-181 over the groups `i`, `i + 1`, ...: each round allocates the record
`is`, writes its four counters and stores it in `control->inner[i]`, checking neither
pointer.  The result is the array `inner` after the loop. -/
def initGroups (heap : Mallocs) : Nat → Nat → List InnerStruct → Outcome (List InnerStruct)
  | 0, _, inner => .returns inner
  | fuel + 1, i, inner =>
    -- `is->readers = 0` writes through `is`
    if heap.is i = false then .faults
    -- `control->inner[i] = is` writes through `control->inner`
    else if heap.inner = false then .faults
    else
      initGroups heap fuel (i + 1)
        (inner ++ [{ readers := 0, writers := 0, waitingReaders := 0, waitingWriters := 0 }])

/-- The function `symtabCreate` with the result of every allocation given by `heap`; `none`
is the returned NULL.  An array that was not allocated holds no element. -/
def symtabCreateMalloc (heap : Mallocs) (sizeHint : Nat) (concurrencySupport : Int) :
    Outcome (Option Control) :=
  match heap.control with
  | none => .exits
  | some raw =>
    let control : Control :=
      { raw with
        length := sizeHint
        inner := if heap.inner then raw.inner else []
        concurrencySupport := concurrencySupport }
    let control : Control :=
      if concurrencySupport = SYMTAB_SINGLE_LOCK then { control with smu := false } else control
    (if concurrencySupport = SYMTAB_LOCK_BUCKET_GROUPS ∨
        concurrencySupport = SYMTAB_ALLOW_CONCURRENT_READS then
      (initGroups heap MUTEX_NUM 0 []).bind fun inner =>
        Outcome.returns { control with mu := List.replicate MUTEX_NUM false, inner := inner }
     else Outcome.returns control).bind fun control =>
    let control : Control :=
      if concurrencySupport = SYMTAB_USE_THIN_LOCKS then
        { control with thins := List.replicate MUTEX_NUM 0 }
      else control
    -- `control->backbone[i] = NULL` for every `i < control->length`, before the test at 201
    if heap.backbone = false then
      if 0 < control.length then .faults
      else .returns none
    else .returns (some { control with backbone := List.replicate control.length [] })

/-- Every allocation succeeds and the block for the control structure holds `raw`. -/
def allGranted (raw : Control) : Mallocs :=
  { control := some raw, backbone := true, inner := true, is := fun _ => true }

/-! ## The digest in the words of the specification -/

/-- The byte that stores a `char` value. -/
def byteOf (c : Int) : Nat := (c % 256).toNat

/-- The value of a `char` after the conversion to `unsigned int` that `hash ^ *str` applies. -/
def toUnsigned (c : Int) : Nat := (c % 4294967296).toNat

/-- Accumulation of the reference digest: for each byte `b` in order,
`h := ((h XOR b) * 16777619) mod 2^32`. -/
def referenceLoop (h : Nat) : List Nat → Nat
  | [] => h
  | b :: rest => referenceLoop (((h ^^^ b) * 16777619) % 4294967296) rest

/-- The reference digest of a list of bytes: the accumulation from 2166136261, then
`h += h << 13; h ^= h >> 7; h += h << 3; h ^= h >> 17; h += h << 5`, all mod 2^32. -/
def referenceHash (key : List Nat) : Nat :=
  let h := referenceLoop 2166136261 key
  let h := (h + h <<< 13) % 4294967296
  let h := (h ^^^ (h >>> 7)) % 4294967296
  let h := (h + h <<< 3) % 4294967296
  let h := (h ^^^ (h >>> 17)) % 4294967296
  let h := (h + h <<< 5) % 4294967296
  h

/-! ## The reader/writer monitor of one group

The counters of `inner[g]` are read and written only between `pthread_mutex_lock` and
`pthread_mutex_unlock` (or `pthread_cond_wait`) on `mu[g]`, so each of these sections is
one step of the monitor, whatever the number of threads. -/

/-- The state of one group under SYMTAB_ALLOW_CONCURRENT_READS: the counters of
`inner[g]` and where the threads that run a call on the group stand: `reading` threads
are between the reader's entry and the reader's exit of `symtabLookup`, `writing` threads
between the writer's entry of `symtabUpdate` and the end of that call, and the threads
asleep sit in `pthread_cond_wait` on `readerCv` or on `writerCv`. -/
structure Monitor where
  inner : InnerStruct
  reading : Nat
  writing : Nat
  readersAsleep : Nat
  writersAsleep : Nat
deriving DecidableEq, Repr

/-- The steps a thread can take on the monitor. -/
inductive Action where
  /-- `symtabLookup` locks the mutex and tests its loop condition (499-509) -/
  | acquireRead
  /-- a thread leaves `pthread_cond_wait` on `readerCv` and tests again (504-509) -/
  | wakeReader
  /-- the reader's exit (536-549) -/
  | releaseRead
  /-- `symtabUpdate` locks the mutex and tests its loop condition (293-307) -/
  | acquireWrite
  /-- a thread leaves `pthread_cond_wait` on `writerCv` and tests again (299-307) -/
  | wakeWriter
  /-- the writer's exit (356-366 and 436-446) -/
  | releaseWrite
  /-- the `return 0` at 375 of a rejected install, which runs no exit code -/
  | rejectedReturn
deriving DecidableEq, Repr

/-- The test `while( writers > 0 )` at 501 and what follows it: the thread goes to sleep
after `waitingReaders += 1`, or passes with `readers += 1`. -/
def readerTest (s : Monitor) : Monitor :=
  if s.inner.writers > 0 then
    { s with
      inner := { s.inner with waitingReaders := s.inner.waitingReaders + 1 }
      readersAsleep := s.readersAsleep + 1 }
  else
    { s with
      inner := { s.inner with readers := s.inner.readers + 1 }
      reading := s.reading + 1 }

/-- The test `while( readers > 0 || writers > 0 )` at 296-297 and what follows it. -/
def writerTest (s : Monitor) : Monitor :=
  if s.inner.readers > 0 ∨ s.inner.writers > 0 then
    { s with
      inner := { s.inner with waitingWriters := s.inner.waitingWriters + 1 }
      writersAsleep := s.writersAsleep + 1 }
  else
    { s with
      inner := { s.inner with writers := s.inner.writers + 1 }
      writing := s.writing + 1 }

/-- One step of the monitor; `none` when no thread stands where the step starts. -/
def step (s : Monitor) : Action → Option Monitor
  | .acquireRead => some (readerTest s)
  | .wakeReader =>
    if s.readersAsleep = 0 then none
    else
      some (readerTest
        { s with
          inner := { s.inner with waitingReaders := s.inner.waitingReaders - 1 }
          readersAsleep := s.readersAsleep - 1 })
  | .releaseRead =>
    if s.reading = 0 then none
    else
      some
        { s with
          inner := { s.inner with readers := s.inner.readers - 1 }
          reading := s.reading - 1 }
  | .acquireWrite => some (writerTest s)
  | .wakeWriter =>
    if s.writersAsleep = 0 then none
    else
      some (writerTest
        { s with
          inner := { s.inner with waitingWriters := s.inner.waitingWriters - 1 }
          writersAsleep := s.writersAsleep - 1 })
  | .releaseWrite =>
    if s.writing = 0 then none
    else
      some
        { s with
          inner := { s.inner with writers := s.inner.writers - 1 }
          writing := s.writing - 1 }
  | .rejectedReturn =>
    if s.writing = 0 then none else some { s with writing := s.writing - 1 }

/-- The monitor after a sequence of steps. -/
def run (s : Monitor) : List Action → Option Monitor
  | [] => some s
  | a :: rest =>
    match step s a with
    | none => none
    | some s => run s rest

/-- The monitor `symtabCreate` leaves: all counters zero and no thread in a call. -/
def Monitor.init : Monitor :=
  { inner := { readers := 0, writers := 0, waitingReaders := 0, waitingWriters := 0 }
    reading := 0, writing := 0, readersAsleep := 0, writersAsleep := 0 }

/-- The relation between the counters and the threads that every step keeps. -/
def Monitor.Inv (s : Monitor) : Prop :=
  s.inner.readers = s.reading ∧ 0 ≤ s.inner.writers ∧ s.inner.writers ≤ 1 ∧
  (s.writing : Int) ≤ s.inner.writers ∧ (0 < s.inner.readers → s.inner.writers ≤ 0) ∧
  s.inner.waitingReaders = s.readersAsleep ∧ s.inner.waitingWriters = s.writersAsleep

/-- Two readers, a writer that has to wait for them, and a reader that has to wait for the
writer. -/
def readersThenWriter : List Action :=
  [.acquireRead, .acquireRead, .acquireWrite, .releaseRead, .releaseRead, .wakeWriter,
    .acquireRead, .releaseWrite, .wakeReader]

/-- The monitor with one thread reading. -/
def oneReader : Monitor :=
  { inner := { readers := 1, writers := 0, waitingReaders := 0, waitingWriters := 0 }
    reading := 1, writing := 0, readersAsleep := 0, writersAsleep := 0 }

/-- The table holds exactly the words of `seen`, each with the value 1 that the callback of
uniqueCount.c stores. -/
def Seen (c : Control) (seen : List Symbol) : Prop :=
  ∀ word, lookup word c = if word ∈ seen then some { symbol := word, data := 1 } else none

/-! ## mostUsed.c: the top list of `main` (189-240) -/

namespace MostUsed

end MostUsed

/-- A call a client makes on a table. -/
inductive Call where
  /-- the call `symtabUpdate(t, symbol, func)` -/
  | update (symbol : Symbol) (func : Nat → Nat)
  /-- the call `symtabLookup(t, symbol)` -/
  | lookup (symbol : Symbol)

/-- What a call hands back: the `int` of `symtabUpdate` or the `void *` of `symtabLookup`. -/
inductive Returned where
  | int (r : Int)
  | pointer (p : Nat)
deriving DecidableEq, Repr

/-- One call on the table: what it returns and the table after it. -/
def call (c : Control) : Call → Outcome (Returned × Control)
  | .update symbol func => (symtabUpdate c symbol func).bind fun r => .returns (.int r.1, r.2)
  | .lookup symbol => (symtabLookup c symbol).bind fun r => .returns (.pointer r.1, r.2)

/-- The calls made one after the other by a single thread: the values returned, in order,
and the table after the last call. -/
def runCalls : Control → List Call → Outcome (List Returned × Control)
  | c, [] => .returns ([], c)
  | c, x :: rest =>
    (call c x).bind fun r =>
      (runCalls r.2 rest).bind fun rs => .returns (r.1 :: rs.1, rs.2)

/-- Three installs, a second update of yellow and two lookups. -/
def sampleCalls : List Call :=
  [.update (cstr "yellow") MostUsed.updateCallback, .update (cstr "orange") MostUsed.updateCallback,
    .lookup (cstr "yellow"), .update (cstr "yellow") MostUsed.updateCallback,
    .update (cstr "purple") MostUsed.updateCallback, .lookup (cstr "indigo")]

/-- What the calls of `sampleCalls` return on a fresh table. -/
def sampleResults : List Returned :=
  [.int 1, .int 1, .pointer 1, .int 1, .int 1, .pointer NULL]

/-- The chains `sampleCalls` leaves in a fresh table with four buckets. -/
def sampleBackbone : List (List Node) :=
  [[{ symbol := cstr "purple", data := 1 }], [], [],
    [{ symbol := cstr "orange", data := 1 }, { symbol := cstr "yellow", data := 2 }]]

/-- The bucket after `symtabUpdate` stored the value of `func` for `symbol` in it: the
value of the node found is replaced, or a new node is put at the head. -/
def updatedChain (symbol : Symbol) (func : Nat → Nat) (chain : List Node) : List Node :=
  match lookupChain symbol chain with
  | some looked => storeChain symbol (func looked.data) chain
  | none => { symbol := symbol, data := func NULL } :: chain

/-- A table with four buckets under the single lock that holds yellow:1. -/
def singleLockYellow : Control :=
  { symtabCreate rawBlock 4 SYMTAB_SINGLE_LOCK with
    backbone := [[], [], [], [{ symbol := cstr "yellow", data := 1 }]] }

/-! ## symtabUpdate with a callback that has state, and the signals it sends -/

/-- What a call of `symtabUpdate` does besides changing the table. -/
inductive Event where
  /-- the callback is called with this argument -/
  | invoke (data : Nat)
  /-- the call `pthread_cond_signal` on `writerCv` of the group -/
  | signalWriter (g : Nat)
  /-- the call `pthread_cond_signal` on `readerCv` of the group -/
  | signalReader (g : Nat)
deriving DecidableEq, Repr

/-- Exit protocol of `symtabUpdate` (325-366, repeated at 412-446) with the signals sent
at 356-363 and 436-443. -/
def updateReleaseEvents (cstruct : Control) (hashed : Nat) : Outcome (Control × List Event) :=
  let g := hashed % MUTEX_NUM
  let cstruct : Control :=
    if cstruct.concurrencySupport = SYMTAB_SINGLE_LOCK then
      { cstruct with smu := pthread_mutex_unlock cstruct.smu }
    else cstruct
  let cstruct : Control :=
    if cstruct.concurrencySupport = SYMTAB_LOCK_BUCKET_GROUPS then
      { cstruct with mu := cstruct.mu.set g (pthread_mutex_unlock (cstruct.mu.getD g false)) }
    else cstruct
  let cstruct : Control :=
    if cstruct.concurrencySupport = SYMTAB_USE_THIN_LOCKS then
      { cstruct with thins := cstruct.thins.set g 0 }
    else cstruct
  if cstruct.concurrencySupport = SYMTAB_ALLOW_CONCURRENT_READS then
    (pthread_mutex_lock (cstruct.mu.getD g false)).bind fun m =>
      let cstruct := { cstruct with mu := cstruct.mu.set g m }
      let is := cstruct.innerAt g
      let cstruct := { cstruct with inner := cstruct.inner.set g { is with writers := is.writers - 1 } }
      let signals : List Event :=
        if (cstruct.innerAt g).waitingWriters > 0 then [.signalWriter g]
        else if (cstruct.innerAt g).waitingReaders > 0 then [.signalReader g]
        else []
      Outcome.returns
        ({ cstruct with mu := cstruct.mu.set g (pthread_mutex_unlock (cstruct.mu.getD g false)) },
          signals)
  else Outcome.returns (cstruct, [])

/-- The function `symtabUpdate` with a callback that has a state of its own: `func s data`
is the value the callback returns in state `s` and its state afterwards.  The result is
the returned `int`, the table and the state of the callback after the call, and the
callback invocations and signals of the call in order. -/
def symtabUpdateEvents {σ : Type} (cstruct : Control) (symbol : Symbol)
    (func : σ → Nat → Nat × σ) (s : σ) : Outcome (Int × Control × σ × List Event) :=
  if cstruct.length = 0 then .faults
  else
    let hashed := hash symbol % cstruct.length
    (updateAcquire cstruct hashed).bind fun cstruct =>
    -- `passedFunction = malloc(..)` is not NULL, so the test at 318 never fires
    match lookup symbol cstruct with
    | some looked =>
      -- `looked->data = (*func)(looked->data)` at 323
      let called := func s looked.data
      let chain := cstruct.backbone.getD hashed []
      let cstruct :=
        { cstruct with backbone := cstruct.backbone.set hashed (storeChain symbol called.1 chain) }
      (updateReleaseEvents cstruct hashed).bind fun rel =>
        .returns (1, rel.1, called.2, Event.invoke looked.data :: rel.2)
    | none =>
      -- `passedFunction = func( NULL )` at 372
      let first := func s NULL
      if first.1 = NULL then .returns (0, cstruct, first.2, [Event.invoke NULL])
      else
        -- `newNode->data = (*func)(NULL)` at 394
        let second := func first.2 NULL
        let newNode : Node := { symbol := symbol, data := second.1 }
        let old := cstruct.backbone.getD hashed []
        let cstruct := { cstruct with backbone := cstruct.backbone.set hashed (newNode :: old) }
        (updateReleaseEvents cstruct hashed).bind fun rel =>
          .returns (1, rel.1, second.2, Event.invoke NULL :: Event.invoke NULL :: rel.2)

/-- A callback without state, as a callback with a state it never uses. -/
def stateless (func : Nat → Nat) : Unit → Nat → Nat × Unit := fun s data => (func data, s)

/-- A callback that counts its invocations and returns the count: 1 the first time it is
called, 2 the second time, and so on. -/
def countCalls : Nat → Nat → Nat × Nat := fun s _ => (s + 1, s + 1)

/-- A callback that answers 1 the first time it is called and NULL every time after. -/
def acceptOnce : Nat → Nat → Nat × Nat := fun s _ => (if s = 0 then 1 else NULL, s + 1)

/-- The signals among the events of a call. -/
def signalsOf (events : List Event) : List Event :=
  events.filter fun e =>
    match e with
    | .invoke _ => false
    | _ => true

/-- The signals the specification asks for when a writer leaves a group whose counters
are `is`: the writers' condition when a writer waits, else the readers' condition when a
reader waits, else none. -/
def writerPreference (is : InnerStruct) (g : Nat) : List Event :=
  if 0 < is.waitingWriters then [.signalWriter g]
  else if is.waitingWriters = 0 ∧ 0 < is.waitingReaders then [.signalReader g]
  else []

/-- The reader/writer table with four buckets holding yellow:1 at a moment when two
writers and a reader wait on the group of yellow. -/
def contendedTable : Control :=
  { yellowTable with
    inner := yellowTable.inner.set 3
      { readers := 0, writers := 0, waitingReaders := 1, waitingWriters := 2 } }

/-- Two tables hold the same entries and agree on the mode and on the coordinator state of
group `g`: its mutex, its thin-lock flag and its reader/writer counters. -/
def Control.agreesOn (c c2 : Control) (g : Nat) : Prop :=
  c2.length = c.length ∧ c2.backbone = c.backbone ∧
  c2.concurrencySupport = c.concurrencySupport ∧
  c2.mu.getD g false = c.mu.getD g false ∧ c2.thins.getD g 0 = c.thins.getD g 0 ∧
  c2.innerAt g = c.innerAt g

/-- The mode is one of the three that use one coordinator for each group. -/
def Control.perGroup (c : Control) : Prop :=
  c.concurrencySupport = SYMTAB_LOCK_BUCKET_GROUPS ∨
  c.concurrencySupport = SYMTAB_USE_THIN_LOCKS ∨
  c.concurrencySupport = SYMTAB_ALLOW_CONCURRENT_READS

/-- The table `coloursTable` at a moment when the thin locks of the groups 0 and 7 are
held by other threads. -/
def busyTable : Control :=
  { coloursTable with thins := (coloursTable.thins.set 0 1).set 7 1 }

/-- A callback that only updates: it answers NULL to NULL, so it rejects an install, and
adds one to a stored value. -/
def updateOnly (data : Nat) : Nat := if data = NULL then NULL else data + 1

/-! # Properties

## Coordinators: what is acquired is given back -/

theorem set_set_getD {α : Type} (l : List α) (g : Nat) (a v d : α) (h : (l[g]?).getD d = v) :
    (l.set g a).set g v = l := by
  rw [List.set_set]
  by_cases hl : g < l.length
  · apply List.ext_getElem?
    intro i
    by_cases hi : g = i
    · subst hi
      simp [hl] at h ⊢
      exact h.symm
    · simp [List.getElem?_set, hi]
  · exact List.set_eq_of_length_le (by omega)

theorem set_eq_self {α : Type} (l : List α) (g : Nat) (v : α)
    (h : ∀ hl : g < l.length, l[g] = v) : l.set g v = l := by
  by_cases hl : g < l.length
  · apply List.ext_getElem?
    intro i
    by_cases hi : g = i
    · subst hi
      simp [hl, h hl]
    · simp [List.getElem?_set, hi]
  · exact List.set_eq_of_length_le (by omega)

theorem getD_set_false (l : List Bool) (g : Nat) : ((l.set g false)[g]?).getD false = false := by
  by_cases hl : g < l.length
  · simp [hl]
  · rw [List.set_eq_of_length_le (by omega), List.getElem?_eq_none (by omega)]
    rfl

theorem updateAcquire_returns {c c1 : Control} {h : Nat} (H : updateAcquire c h = .returns c1) :
    c.writeFree (h % MUTEX_NUM) ∧ c1.length = c.length ∧ c1.backbone = c.backbone ∧
      c1.concurrencySupport = c.concurrencySupport ∧
      ∀ B, updateRelease { c1 with backbone := B } h = .returns { c with backbone := B } := by
  rcases c with ⟨len, bb, mode, mu, smu, thins, inner⟩
  by_cases h1 : mode = 1
  · subst h1
    cases smu <;>
    simp [updateAcquire, SYMTAB_SINGLE_LOCK, SYMTAB_LOCK_BUCKET_GROUPS,
      SYMTAB_USE_THIN_LOCKS, SYMTAB_ALLOW_CONCURRENT_READS, pthread_mutex_lock, pthread_mutex_unlock,
      Outcome.bind] at H
    subst H
    simp [updateRelease, Control.writeFree, SYMTAB_SINGLE_LOCK, SYMTAB_LOCK_BUCKET_GROUPS,
      SYMTAB_USE_THIN_LOCKS, SYMTAB_ALLOW_CONCURRENT_READS, pthread_mutex_lock, pthread_mutex_unlock,
      Outcome.bind]
  by_cases h2 : mode = 2
  · subst h2
    cases hm : (mu[h % MUTEX_NUM]?).getD false <;>
    simp [updateAcquire, SYMTAB_SINGLE_LOCK, SYMTAB_LOCK_BUCKET_GROUPS,
      SYMTAB_USE_THIN_LOCKS, SYMTAB_ALLOW_CONCURRENT_READS, pthread_mutex_lock, pthread_mutex_unlock,
      Outcome.bind, hm] at H
    subst H
    simp [updateRelease, Control.writeFree, SYMTAB_SINGLE_LOCK, SYMTAB_LOCK_BUCKET_GROUPS,
      SYMTAB_USE_THIN_LOCKS, SYMTAB_ALLOW_CONCURRENT_READS, pthread_mutex_lock, pthread_mutex_unlock,
      Outcome.bind, hm, set_set_getD _ _ _ _ _ hm]
  by_cases h4 : mode = 4
  · subst h4
    by_cases ht : (thins[h % MUTEX_NUM]?).getD 0 = 0 <;>
    simp [updateAcquire, SYMTAB_SINGLE_LOCK, SYMTAB_LOCK_BUCKET_GROUPS,
      SYMTAB_USE_THIN_LOCKS, SYMTAB_ALLOW_CONCURRENT_READS, pthread_mutex_lock, pthread_mutex_unlock,
      Outcome.bind, thinLock, ht] at H
    subst H
    simp [updateRelease, Control.writeFree, SYMTAB_SINGLE_LOCK, SYMTAB_LOCK_BUCKET_GROUPS,
      SYMTAB_USE_THIN_LOCKS, SYMTAB_ALLOW_CONCURRENT_READS, pthread_mutex_lock, pthread_mutex_unlock,
      Outcome.bind, ht, set_set_getD _ _ _ _ _ ht]
  by_cases h3 : mode = 3
  · subst h3
    cases hm : (mu[h % MUTEX_NUM]?).getD false <;>
    simp [updateAcquire, SYMTAB_SINGLE_LOCK, SYMTAB_LOCK_BUCKET_GROUPS,
      SYMTAB_USE_THIN_LOCKS, SYMTAB_ALLOW_CONCURRENT_READS, pthread_mutex_lock, pthread_mutex_unlock,
      Outcome.bind, hm, Control.innerAt] at H
    split_ifs at H with hrw
    simp only [Outcome.returns.injEq] at H
    subst H
    simp only [not_or, not_lt] at hrw
    simp [updateRelease, Control.writeFree, SYMTAB_SINGLE_LOCK, SYMTAB_LOCK_BUCKET_GROUPS,
      SYMTAB_USE_THIN_LOCKS, SYMTAB_ALLOW_CONCURRENT_READS, pthread_mutex_lock, pthread_mutex_unlock,
      Outcome.bind, hm, Control.innerAt, hrw, set_set_getD _ _ _ _ _ hm, getD_set_false]
    apply set_eq_self
    intro hl
    simp [hl]
  · simp [updateAcquire, SYMTAB_SINGLE_LOCK, SYMTAB_LOCK_BUCKET_GROUPS,
      SYMTAB_USE_THIN_LOCKS, SYMTAB_ALLOW_CONCURRENT_READS, pthread_mutex_lock, pthread_mutex_unlock,
      Outcome.bind, h1, h2, h3, h4] at H
    subst H
    simp [updateRelease, Control.writeFree, SYMTAB_SINGLE_LOCK, SYMTAB_LOCK_BUCKET_GROUPS,
      SYMTAB_USE_THIN_LOCKS, SYMTAB_ALLOW_CONCURRENT_READS, pthread_mutex_lock, pthread_mutex_unlock,
      Outcome.bind, h1, h2, h3, h4]
theorem updateAcquire_of_writeFree {c : Control} {h : Nat} (hf : c.writeFree (h % MUTEX_NUM)) :
    ∃ c1, updateAcquire c h = .returns c1 := by
  rcases c with ⟨len, bb, mode, mu, smu, thins, inner⟩
  obtain ⟨f1, f2, f4, f3⟩ := hf
  simp only [SYMTAB_SINGLE_LOCK, SYMTAB_LOCK_BUCKET_GROUPS, SYMTAB_USE_THIN_LOCKS,
    SYMTAB_ALLOW_CONCURRENT_READS, Control.innerAt, List.getD_eq_getElem?_getD] at f1 f2 f3 f4
  by_cases h1 : mode = 1
  · subst h1
    simp [updateAcquire, SYMTAB_SINGLE_LOCK, SYMTAB_LOCK_BUCKET_GROUPS,
      SYMTAB_USE_THIN_LOCKS, SYMTAB_ALLOW_CONCURRENT_READS, pthread_mutex_lock, pthread_mutex_unlock,
      Outcome.bind, f1 rfl]
  by_cases h2 : mode = 2
  · subst h2
    simp [updateAcquire, SYMTAB_SINGLE_LOCK, SYMTAB_LOCK_BUCKET_GROUPS,
      SYMTAB_USE_THIN_LOCKS, SYMTAB_ALLOW_CONCURRENT_READS, pthread_mutex_lock, pthread_mutex_unlock,
      Outcome.bind, f2 rfl]
  by_cases h4 : mode = 4
  · subst h4
    simp [updateAcquire, SYMTAB_SINGLE_LOCK, SYMTAB_LOCK_BUCKET_GROUPS,
      SYMTAB_USE_THIN_LOCKS, SYMTAB_ALLOW_CONCURRENT_READS, pthread_mutex_lock, pthread_mutex_unlock,
      Outcome.bind, thinLock, f4 rfl]
  by_cases h3 : mode = 3
  · subst h3
    obtain ⟨hm, hr, hw⟩ := f3 rfl
    simp [updateAcquire, SYMTAB_SINGLE_LOCK, SYMTAB_LOCK_BUCKET_GROUPS,
      SYMTAB_USE_THIN_LOCKS, SYMTAB_ALLOW_CONCURRENT_READS, pthread_mutex_lock, pthread_mutex_unlock,
      Outcome.bind, hm, Control.innerAt, not_lt.mpr hr, not_lt.mpr hw]
  · simp [updateAcquire, SYMTAB_SINGLE_LOCK, SYMTAB_LOCK_BUCKET_GROUPS,
      SYMTAB_USE_THIN_LOCKS, SYMTAB_ALLOW_CONCURRENT_READS, pthread_mutex_lock, pthread_mutex_unlock,
      Outcome.bind, h1, h2, h3, h4]

theorem lookup_congr {c c1 : Control} (hl : c1.length = c.length) (hb : c1.backbone = c.backbone)
    (symbol : Symbol) : lookup symbol c1 = lookup symbol c := by
  simp [lookup, hl, hb]

/-- What a returning call of `symtabUpdate` did. -/
theorem symtabUpdate_returns {c c' : Control} {symbol : Symbol} {func : Nat → Nat} {r : Int}
    (H : symtabUpdate c symbol func = .returns (r, c')) :
    0 < c.length ∧ c.writeFree (c.group symbol) ∧
    ((∃ looked, lookup symbol c = some looked ∧ r = 1 ∧
        c' = { c with
          backbone := c.backbone.set (hash symbol % c.length)
            (storeChain symbol (func looked.data) (c.backbone.getD (hash symbol % c.length) [])) }) ∨
     (lookup symbol c = none ∧ func NULL = NULL ∧ r = 0 ∧
        updateAcquire c (hash symbol % c.length) = .returns c') ∨
     (lookup symbol c = none ∧ func NULL ≠ NULL ∧ r = 1 ∧
        c' = { c with
          backbone := c.backbone.set (hash symbol % c.length)
            ({ symbol := symbol, data := func NULL } :: c.backbone.getD (hash symbol % c.length) []) })) := by
  unfold symtabUpdate at H
  split_ifs at H with h0
  refine ⟨by omega, ?_⟩
  dsimp only at H
  cases ha : updateAcquire c (hash symbol % c.length) with
  | returns c1 =>
    obtain ⟨hf, hlen, hbb, hmode, hrel⟩ := updateAcquire_returns ha
    refine ⟨hf, ?_⟩
    rw [ha] at H
    simp only [Outcome.bind] at H
    rw [lookup_congr hlen hbb] at H
    cases hlk : lookup symbol c with
    | some looked =>
      left
      rw [hlk] at H
      simp only [hrel, hbb, Outcome.returns.injEq, Prod.mk.injEq] at H
      exact ⟨looked, rfl, H.1.symm, H.2.symm⟩
    | none =>
      right
      rw [hlk] at H
      simp only at H
      split_ifs at H with hn
      · left
        simp only [Outcome.returns.injEq, Prod.mk.injEq] at H
        exact ⟨rfl, hn, H.1.symm, by rw [H.2]⟩
      · right
        simp only [hrel, hbb, Outcome.returns.injEq, Prod.mk.injEq] at H
        exact ⟨rfl, hn, H.1.symm, H.2.symm⟩
  | blocks => rw [ha] at H; simp [Outcome.bind] at H
  | faults => rw [ha] at H; simp [Outcome.bind] at H
  | exits => rw [ha] at H; simp [Outcome.bind] at H

theorem lookupAcquire_returns {c c1 : Control} {h : Nat} (H : lookupAcquire c h = .returns c1) :
    c.readFree (h % MUTEX_NUM) ∧ c1.length = c.length ∧ c1.backbone = c.backbone ∧
      lookupRelease c1 h = .returns c := by
  rcases c with ⟨len, bb, mode, mu, smu, thins, inner⟩
  by_cases h1 : mode = 1
  · subst h1
    cases smu <;>
    simp [lookupAcquire, SYMTAB_SINGLE_LOCK, SYMTAB_LOCK_BUCKET_GROUPS,
      SYMTAB_USE_THIN_LOCKS, SYMTAB_ALLOW_CONCURRENT_READS, pthread_mutex_lock, pthread_mutex_unlock,
      Outcome.bind] at H
    subst H
    simp [lookupRelease, Control.readFree, SYMTAB_SINGLE_LOCK, SYMTAB_LOCK_BUCKET_GROUPS,
      SYMTAB_USE_THIN_LOCKS, SYMTAB_ALLOW_CONCURRENT_READS, pthread_mutex_lock, pthread_mutex_unlock,
      Outcome.bind]
  by_cases h2 : mode = 2
  · subst h2
    cases hm : (mu[h % MUTEX_NUM]?).getD false <;>
    simp [lookupAcquire, SYMTAB_SINGLE_LOCK, SYMTAB_LOCK_BUCKET_GROUPS,
      SYMTAB_USE_THIN_LOCKS, SYMTAB_ALLOW_CONCURRENT_READS, pthread_mutex_lock, pthread_mutex_unlock,
      Outcome.bind, hm] at H
    subst H
    simp [lookupRelease, Control.readFree, SYMTAB_SINGLE_LOCK, SYMTAB_LOCK_BUCKET_GROUPS,
      SYMTAB_USE_THIN_LOCKS, SYMTAB_ALLOW_CONCURRENT_READS, pthread_mutex_lock, pthread_mutex_unlock,
      Outcome.bind, hm, set_set_getD _ _ _ _ _ hm]
  by_cases h4 : mode = 4
  · subst h4
    by_cases ht : (thins[h % MUTEX_NUM]?).getD 0 = 0 <;>
    simp [lookupAcquire, SYMTAB_SINGLE_LOCK, SYMTAB_LOCK_BUCKET_GROUPS,
      SYMTAB_USE_THIN_LOCKS, SYMTAB_ALLOW_CONCURRENT_READS, pthread_mutex_lock, pthread_mutex_unlock,
      Outcome.bind, thinLock, ht] at H
    subst H
    simp [lookupRelease, Control.readFree, SYMTAB_SINGLE_LOCK, SYMTAB_LOCK_BUCKET_GROUPS,
      SYMTAB_USE_THIN_LOCKS, SYMTAB_ALLOW_CONCURRENT_READS, pthread_mutex_lock, pthread_mutex_unlock,
      Outcome.bind, ht, set_set_getD _ _ _ _ _ ht]
  by_cases h3 : mode = 3
  · subst h3
    cases hm : (mu[h % MUTEX_NUM]?).getD false <;>
    simp [lookupAcquire, SYMTAB_SINGLE_LOCK, SYMTAB_LOCK_BUCKET_GROUPS,
      SYMTAB_USE_THIN_LOCKS, SYMTAB_ALLOW_CONCURRENT_READS, pthread_mutex_lock, pthread_mutex_unlock,
      Outcome.bind, hm, Control.innerAt] at H
    split_ifs at H with hw
    simp only [Outcome.returns.injEq] at H
    subst H
    simp only [not_lt] at hw
    simp [lookupRelease, Control.readFree, SYMTAB_SINGLE_LOCK, SYMTAB_LOCK_BUCKET_GROUPS,
      SYMTAB_USE_THIN_LOCKS, SYMTAB_ALLOW_CONCURRENT_READS, pthread_mutex_lock, pthread_mutex_unlock,
      Outcome.bind, hm, Control.innerAt, hw, set_set_getD _ _ _ _ _ hm, getD_set_false]
    apply set_eq_self
    intro hl
    simp [hl]
  · simp [lookupAcquire, SYMTAB_SINGLE_LOCK, SYMTAB_LOCK_BUCKET_GROUPS,
      SYMTAB_USE_THIN_LOCKS, SYMTAB_ALLOW_CONCURRENT_READS, pthread_mutex_lock, pthread_mutex_unlock,
      Outcome.bind, h1, h2, h3, h4] at H
    subst H
    simp [lookupRelease, Control.readFree, SYMTAB_SINGLE_LOCK, SYMTAB_LOCK_BUCKET_GROUPS,
      SYMTAB_USE_THIN_LOCKS, SYMTAB_ALLOW_CONCURRENT_READS, pthread_mutex_lock, pthread_mutex_unlock,
      Outcome.bind, h1, h2, h3, h4]

theorem lookupAcquire_of_readFree {c : Control} {h : Nat} (hf : c.readFree (h % MUTEX_NUM)) :
    ∃ c1, lookupAcquire c h = .returns c1 := by
  rcases c with ⟨len, bb, mode, mu, smu, thins, inner⟩
  obtain ⟨f1, f2, f4, f3⟩ := hf
  simp only [SYMTAB_SINGLE_LOCK, SYMTAB_LOCK_BUCKET_GROUPS, SYMTAB_USE_THIN_LOCKS,
    SYMTAB_ALLOW_CONCURRENT_READS, Control.innerAt, List.getD_eq_getElem?_getD] at f1 f2 f3 f4
  by_cases h1 : mode = 1
  · subst h1
    simp [lookupAcquire, SYMTAB_SINGLE_LOCK, SYMTAB_LOCK_BUCKET_GROUPS,
      SYMTAB_USE_THIN_LOCKS, SYMTAB_ALLOW_CONCURRENT_READS, pthread_mutex_lock, pthread_mutex_unlock,
      Outcome.bind, f1 rfl]
  by_cases h2 : mode = 2
  · subst h2
    simp [lookupAcquire, SYMTAB_SINGLE_LOCK, SYMTAB_LOCK_BUCKET_GROUPS,
      SYMTAB_USE_THIN_LOCKS, SYMTAB_ALLOW_CONCURRENT_READS, pthread_mutex_lock, pthread_mutex_unlock,
      Outcome.bind, f2 rfl]
  by_cases h4 : mode = 4
  · subst h4
    simp [lookupAcquire, SYMTAB_SINGLE_LOCK, SYMTAB_LOCK_BUCKET_GROUPS,
      SYMTAB_USE_THIN_LOCKS, SYMTAB_ALLOW_CONCURRENT_READS, pthread_mutex_lock, pthread_mutex_unlock,
      Outcome.bind, thinLock, f4 rfl]
  by_cases h3 : mode = 3
  · subst h3
    obtain ⟨hm, hw⟩ := f3 rfl
    simp [lookupAcquire, SYMTAB_SINGLE_LOCK, SYMTAB_LOCK_BUCKET_GROUPS,
      SYMTAB_USE_THIN_LOCKS, SYMTAB_ALLOW_CONCURRENT_READS, pthread_mutex_lock, pthread_mutex_unlock,
      Outcome.bind, hm, Control.innerAt, not_lt.mpr hw]
  · simp [lookupAcquire, SYMTAB_SINGLE_LOCK, SYMTAB_LOCK_BUCKET_GROUPS,
      SYMTAB_USE_THIN_LOCKS, SYMTAB_ALLOW_CONCURRENT_READS, pthread_mutex_lock, pthread_mutex_unlock,
      Outcome.bind, h1, h2, h3, h4]

/-- What a returning call of `symtabLookup` did. -/
theorem symtabLookup_returns {c c' : Control} {symbol : Symbol} {v : Nat}
    (H : symtabLookup c symbol = .returns (v, c')) :
    0 < c.length ∧ c.readFree (c.group symbol) ∧ c' = c ∧ v = nodeData (lookup symbol c) := by
  unfold symtabLookup at H
  dsimp only at H
  split_ifs at H with h0
  refine ⟨by omega, ?_⟩
  cases ha : lookupAcquire c (hash symbol % c.length) with
  | returns c1 =>
    obtain ⟨hf, hlen, hbb, hrel⟩ := lookupAcquire_returns ha
    rw [ha] at H
    simp only [Outcome.bind, hrel, lookup_congr hlen hbb, Outcome.returns.injEq, Prod.mk.injEq] at H
    exact ⟨hf, H.2.symm, H.1.symm⟩
  | blocks => rw [ha] at H; simp [Outcome.bind] at H
  | faults => rw [ha] at H; simp [Outcome.bind] at H
  | exits => rw [ha] at H; simp [Outcome.bind] at H

/-- A call of `symtabLookup` whose coordinator is free returns. -/
theorem symtabLookup_of_readFree {c : Control} {symbol : Symbol} (h0 : 0 < c.length)
    (hf : c.readFree (c.group symbol)) :
    symtabLookup c symbol = .returns (nodeData (lookup symbol c), c) := by
  obtain ⟨c1, ha⟩ := lookupAcquire_of_readFree (h := hash symbol % c.length) hf
  obtain ⟨_, hlen, hbb, hrel⟩ := lookupAcquire_returns ha
  unfold symtabLookup
  dsimp only
  rw [if_neg (by omega), ha]
  simp only [Outcome.bind, hrel, lookup_congr hlen hbb]

/-- A call of `symtabUpdate` whose coordinator is free returns. -/
theorem symtabUpdate_of_writeFree {c : Control} {symbol : Symbol} (func : Nat → Nat)
    (h0 : 0 < c.length) (hf : c.writeFree (c.group symbol)) :
    ∃ r c', symtabUpdate c symbol func = .returns (r, c') := by
  obtain ⟨c1, ha⟩ := updateAcquire_of_writeFree (h := hash symbol % c.length) hf
  obtain ⟨_, hlen, hbb, hmode, hrel⟩ := updateAcquire_returns ha
  unfold symtabUpdate
  dsimp only
  rw [if_neg (by omega), ha]
  simp only [Outcome.bind]
  cases lookup symbol c1 with
  | some looked => simp only [hrel]; exact ⟨_, _, rfl⟩
  | none =>
    simp only
    split_ifs with hn
    · exact ⟨_, _, rfl⟩
    · simp only [hrel]; exact ⟨_, _, rfl⟩

/-! ## Chains -/

theorem lookupChain_some {symbol : Symbol} {chain : List Node} {node : Node}
    (h : lookupChain symbol chain = some node) : node ∈ chain ∧ node.symbol = symbol := by
  induction chain with
  | nil => simp [lookupChain] at h
  | cons cur next ih =>
    simp only [lookupChain] at h
    split_ifs at h with hc
    · simp only [Option.some.injEq] at h
      subst h
      exact ⟨List.mem_cons_self _ _, hc⟩
    · exact ⟨List.mem_cons_of_mem _ (ih h).1, (ih h).2⟩

theorem lookupChain_eq_none {symbol : Symbol} {chain : List Node} :
    lookupChain symbol chain = none ↔ symbol ∉ chain.map Node.symbol := by
  induction chain with
  | nil => simp [lookupChain]
  | cons cur next ih =>
    simp only [lookupChain, List.map_cons, List.mem_cons, not_or]
    split_ifs with hc
    · simp [hc]
    · rw [ih]
      exact ⟨fun h => ⟨fun e => hc e.symm, h⟩, fun h => h.2⟩

theorem lookupChain_of_mem {chain : List Node} {node : Node} (hn : (chain.map Node.symbol).Nodup)
    (hm : node ∈ chain) : lookupChain node.symbol chain = some node := by
  induction chain with
  | nil => simp at hm
  | cons cur next ih =>
    simp only [List.map_cons, List.nodup_cons] at hn
    simp only [lookupChain]
    rcases List.mem_cons.mp hm with rfl | hm'
    · simp
    · have : cur.symbol ≠ node.symbol := fun e => hn.1 (e ▸ List.mem_map_of_mem _ hm')
      rw [if_neg this]
      exact ih hn.2 hm'

theorem storeChain_map_symbol (symbol : Symbol) (data : Nat) (chain : List Node) :
    (storeChain symbol data chain).map Node.symbol = chain.map Node.symbol := by
  induction chain with
  | nil => rfl
  | cons cur next ih =>
    simp only [storeChain]
    split_ifs with hc
    · simp
    · simp [ih]

theorem lookupChain_storeChain_self {symbol : Symbol} {chain : List Node} {node : Node}
    (data : Nat) (h : lookupChain symbol chain = some node) :
    lookupChain symbol (storeChain symbol data chain) = some { node with data := data } := by
  induction chain with
  | nil => simp [lookupChain] at h
  | cons cur next ih =>
    simp only [lookupChain, storeChain] at h ⊢
    split_ifs at h ⊢ with hc
    · simp only [Option.some.injEq] at h
      subst h
      simp [lookupChain, hc]
    · simp only [lookupChain, if_neg hc]
      exact ih h

theorem lookupChain_storeChain_ne {symbol other : Symbol} (chain : List Node) (data : Nat)
    (hne : other ≠ symbol) :
    lookupChain other (storeChain symbol data chain) = lookupChain other chain := by
  induction chain with
  | nil => rfl
  | cons cur next ih =>
    simp only [storeChain]
    split_ifs with hc
    · have h1 : ¬ cur.symbol = other := fun e => hne (e.symm.trans hc)
      simp [lookupChain, h1]
    · simp only [lookupChain, ih]

/-! ## The shape invariant -/

theorem WF_symtabCreate (raw : Control) (sizeHint : Nat) (concurrencySupport : Int) :
    (symtabCreate raw sizeHint concurrencySupport).WF := by
  have hb : (symtabCreate raw sizeHint concurrencySupport).backbone = List.replicate sizeHint [] := by
    unfold symtabCreate
    dsimp only
    split_ifs <;> rfl
  have hl : (symtabCreate raw sizeHint concurrencySupport).length = sizeHint := by
    unfold symtabCreate
    dsimp only
    split_ifs <;> rfl
  refine ⟨by rw [hb, hl]; simp, ?_⟩
  intro i chain hi
  rw [hb] at hi
  have : chain = [] := by
    have := List.getElem?_replicate (a := ([] : List Node)) (n := sizeHint) (m := i)
    rw [this] at hi
    split_ifs at hi
    exact (Option.some.inj hi).symm
  subst this
  simp

theorem WF_of_eq {c c' : Control} (h : c.WF) (hl : c'.length = c.length)
    (hb : c'.backbone = c.backbone) : c'.WF := by
  unfold Control.WF at *
  rw [hl, hb]
  exact h

theorem WF_set {c : Control} (h : c.WF) (i : Nat) (chain : List Node)
    (hp : ∀ node ∈ chain, hash node.symbol % c.length = i)
    (hn : (chain.map Node.symbol).Nodup) :
    ({ c with backbone := c.backbone.set i chain } : Control).WF := by
  refine ⟨by simpa using h.1, ?_⟩
  intro j ch hj
  by_cases e1 : i = j
  · subst e1
    by_cases e2 : i < c.backbone.length
    · rw [List.getElem?_set_self e2] at hj
      simp only [Option.some.injEq] at hj
      subst hj
      exact ⟨hp, hn⟩
    · rw [List.getElem?_eq_none (by simpa using e2)] at hj
      cases hj
  · rw [List.getElem?_set_ne e1] at hj
    exact h.2 j ch hj

theorem getD_eq_of_getElem? {α : Type} {l : List α} {i : Nat} {x d : α} (h : l[i]? = some x) :
    l.getD i d = x := by
  simp [h]

theorem WF_getD {c : Control} (h : c.WF) (i : Nat) :
    (∀ node ∈ c.backbone.getD i [], hash node.symbol % c.length = i) ∧
      ((c.backbone.getD i []).map Node.symbol).Nodup := by
  cases hi : c.backbone[i]? with
  | none => simp [hi]
  | some chain =>
    rw [getD_eq_of_getElem? hi]
    exact h.2 i chain hi

theorem WF_symtabUpdate {c c' : Control} {symbol : Symbol} {func : Nat → Nat} {r : Int}
    (h : c.WF) (H : symtabUpdate c symbol func = .returns (r, c')) : c'.WF := by
  obtain ⟨h0, _, hc⟩ := symtabUpdate_returns H
  have hg := WF_getD h (hash symbol % c.length)
  rcases hc with ⟨looked, _, _, rfl⟩ | ⟨_, _, _, ha⟩ | ⟨hlk, _, _, rfl⟩
  · apply WF_set h
    · intro node hm
      have : node.symbol ∈ (storeChain symbol (func looked.data)
          (c.backbone.getD (hash symbol % c.length) [])).map Node.symbol :=
        List.mem_map_of_mem _ hm
      rw [storeChain_map_symbol] at this
      obtain ⟨n', hn', e⟩ := List.mem_map.mp this
      rw [← e]
      exact hg.1 n' hn'
    · rw [storeChain_map_symbol]
      exact hg.2
  · obtain ⟨_, hl, hb, _⟩ := updateAcquire_returns ha
    exact WF_of_eq h hl hb
  · apply WF_set h
    · intro node hm
      rcases List.mem_cons.mp hm with rfl | hm'
      · rfl
      · exact hg.1 node hm'
    · simp only [List.map_cons, List.nodup_cons]
      exact ⟨lookupChain_eq_none.mp hlk, hg.2⟩

theorem WF_of_reachable {c : Control} (h : Reachable c) : c.WF := by
  induction h with
  | create raw n mode => exact WF_symtabCreate raw n mode
  | update symbol func r _ H ih => exact WF_symtabUpdate ih H
  | lookup symbol v _ H ih =>
    obtain ⟨_, _, rfl, _⟩ := symtabLookup_returns H
    exact ih

/-! ## Uniqueness of symbols -/

theorem WF_entries_nodup {c : Control} (h : c.WF) : (c.entries.map Node.symbol).Nodup := by
  unfold Control.entries
  rw [List.map_flatten, List.nodup_flatten]
  constructor
  · intro l hl
    obtain ⟨chain, hc, rfl⟩ := List.mem_map.mp hl
    obtain ⟨i, hi, rfl⟩ := List.getElem_of_mem hc
    exact (h.2 i _ (List.getElem?_eq_getElem hi)).2
  · rw [List.pairwise_iff_getElem]
    intro i j hi hj hij
    simp only [List.length_map] at hi hj
    simp only [List.getElem_map]
    intro s hs1 hs2
    obtain ⟨n1, hn1, e1⟩ := List.mem_map.mp hs1
    obtain ⟨n2, hn2, e2⟩ := List.mem_map.mp hs2
    have p1 := (h.2 i _ (List.getElem?_eq_getElem hi)).1 n1 hn1
    have p2 := (h.2 j _ (List.getElem?_eq_getElem hj)).1 n2 hn2
    rw [e1] at p1
    rw [e2] at p2
    omega

theorem WF_position {c : Control} (h : c.WF) {i j i' j' : Nat} {chain chain' : List Node}
    {node node' : Node} (hi : c.backbone[i]? = some chain) (hj : chain[j]? = some node)
    (hi' : c.backbone[i']? = some chain') (hj' : chain'[j']? = some node')
    (e : node.symbol = node'.symbol) : i = i' ∧ j = j' := by
  have m1 : node ∈ chain := List.getElem?_mem hj
  have m2 : node' ∈ chain' := List.getElem?_mem hj'
  have p1 := (h.2 i chain hi).1 node m1
  have p2 := (h.2 i' chain' hi').1 node' m2
  have ii : i = i' := by rw [← p1, ← p2, e]
  subst ii
  rw [hi] at hi'
  cases hi'
  refine ⟨rfl, ?_⟩
  have nd := (h.2 i chain hi).2
  obtain ⟨l1, _⟩ := List.getElem?_eq_some_iff.mp hj
  obtain ⟨l2, _⟩ := List.getElem?_eq_some_iff.mp hj'
  have a1 : (chain.map Node.symbol)[j]? = some node.symbol := by simp [hj]
  have a2 : (chain.map Node.symbol)[j']? = some node.symbol := by simp [hj', e]
  rw [List.nodup_iff_getElem?_ne_getElem?] at nd
  rcases Nat.lt_trichotomy j j' with hlt | heq | hgt
  · exact absurd (a1.trans a2.symm) (nd j j' hlt (by simpa using l2))
  · exact heq
  · exact absurd (a2.trans a1.symm) (nd j' j hgt (by simpa using l1))

/-- C2 (uniqueness invariant): in every table reachable from a freshly created one by calls
of `symtabUpdate` and `symtabLookup`, the symbols of all entries are pairwise different;
stated on the list of all entries and again on positions: two entries with equal symbols
are in the same bucket at the same place of its chain. -/
theorem C2_uniqueness (c : Control) (h : Reachable c) :
    (c.entries.map Node.symbol).Nodup ∧
    ∀ (i j i' j' : Nat) (chain chain' : List Node) (node node' : Node),
      c.backbone[i]? = some chain → chain[j]? = some node →
      c.backbone[i']? = some chain' → chain'[j']? = some node' →
      node.symbol = node'.symbol → i = i' ∧ j = j' :=
  ⟨WF_entries_nodup (WF_of_reachable h), fun _ _ _ _ _ _ _ _ hi hj hi' hj' e =>
    WF_position (WF_of_reachable h) hi hj hi' hj' e⟩

/-! ## Effect of `symtabUpdate` on what `lookup` finds -/

theorem lookup_set_self (c : Control) (symbol : Symbol) (chain : List Node)
    (hs : c.backbone.length = c.length) (h0 : 0 < c.length) :
    lookup symbol { c with backbone := c.backbone.set (hash symbol % c.length) chain } =
      lookupChain symbol chain := by
  have hlt : hash symbol % c.length < c.backbone.length := by
    rw [hs]; exact Nat.mod_lt _ h0
  simp [lookup, hlt]

theorem lookup_set_other (c : Control) (symbol other : Symbol) (chain : List Node)
    (h : lookupChain other chain =
      lookupChain other (c.backbone.getD (hash symbol % c.length) [])) :
    lookup other { c with backbone := c.backbone.set (hash symbol % c.length) chain } =
      lookup other c := by
  simp only [lookup, List.getD_eq_getElem?_getD] at h ⊢
  by_cases e : hash symbol % c.length = hash other % c.length
  · rw [← e]
    by_cases hlt : hash symbol % c.length < c.backbone.length
    · rw [List.getElem?_set_self hlt]
      simpa using h
    · rw [List.set_eq_of_length_le (by omega)]
  · rw [List.getElem?_set_ne e]

theorem lookup_symbol {c : Control} {symbol : Symbol} {node : Node}
    (h : lookup symbol c = some node) : node.symbol = symbol :=
  (lookupChain_some h).2

/-- After a successful `symtabUpdate` the symbol is found with the value the callback
computed from what was found before. -/
theorem lookup_symtabUpdate_self {c c' : Control} {symbol : Symbol} {func : Nat → Nat}
    (hs : c.backbone.length = c.length)
    (H : symtabUpdate c symbol func = .returns (1, c')) :
    lookup symbol c' = some { symbol := symbol, data := func (nodeData (lookup symbol c)) } := by
  obtain ⟨h0, _, hc⟩ := symtabUpdate_returns H
  rcases hc with ⟨looked, hlk, _, rfl⟩ | ⟨_, _, h10, _⟩ | ⟨hlk, _, _, rfl⟩
  · rw [lookup_set_self c symbol _ hs h0, lookupChain_storeChain_self _ hlk, hlk]
    have := lookup_symbol hlk
    simp [nodeData, this]
  · cases h10
  · rw [lookup_set_self c symbol _ hs h0, hlk]
    simp [lookupChain, nodeData]

/-- A call of `symtabUpdate` does not change what is found for another symbol. -/
theorem lookup_symtabUpdate_other {c c' : Control} {symbol other : Symbol} {func : Nat → Nat}
    {r : Int} (H : symtabUpdate c symbol func = .returns (r, c')) (hne : other ≠ symbol) :
    lookup other c' = lookup other c := by
  obtain ⟨h0, _, hc⟩ := symtabUpdate_returns H
  rcases hc with ⟨looked, hlk, _, rfl⟩ | ⟨_, _, _, ha⟩ | ⟨hlk, _, _, rfl⟩
  · exact lookup_set_other c symbol other _ (lookupChain_storeChain_ne _ _ hne)
  · obtain ⟨_, hl, hb, _⟩ := updateAcquire_returns ha
    exact lookup_congr hl hb other
  · apply lookup_set_other c symbol other
    have : ¬ symbol = other := fun e => hne e.symm
    simp [lookupChain, this]

/-- A returning `symtabUpdate` gives the coordinators back unless it returned 0. -/
theorem symtabUpdate_one {c c' : Control} {symbol : Symbol} {func : Nat → Nat}
    (H : symtabUpdate c symbol func = .returns (1, c')) :
    ∃ B, c' = { c with backbone := B } := by
  obtain ⟨h0, _, hc⟩ := symtabUpdate_returns H
  rcases hc with ⟨looked, hlk, _, rfl⟩ | ⟨_, _, h10, _⟩ | ⟨hlk, _, _, rfl⟩
  · exact ⟨_, rfl⟩
  · cases h10
  · exact ⟨_, rfl⟩

theorem readFree_of_writeFree {c : Control} {g : Nat} (h : c.writeFree g) : c.readFree g :=
  ⟨h.1, h.2.1, h.2.2.1, fun e => ⟨(h.2.2.2 e).1, (h.2.2.2 e).2.2⟩⟩

/-! ## Entries and `lookup` -/

theorem getD_mem_or_nil {α : Type} (L : List (List α)) (i : Nat) :
    L.getD i [] = [] ∨ L.getD i [] ∈ L := by
  cases h : L[i]? with
  | none => left; simp [h]
  | some x =>
    right
    rw [getD_eq_of_getElem? h]
    exact List.getElem?_mem h

theorem mem_entries_of_lookup {c : Control} {symbol : Symbol} {node : Node}
    (h : lookup symbol c = some node) : node ∈ c.entries := by
  have hm := (lookupChain_some h).1
  rcases getD_mem_or_nil c.backbone (hash symbol % c.length) with e | e
  · rw [e] at hm; simp at hm
  · exact List.mem_flatten.mpr ⟨_, e, hm⟩

theorem lookup_of_mem_entries {c : Control} (h : c.WF) {node : Node} (hm : node ∈ c.entries) :
    lookup node.symbol c = some node := by
  obtain ⟨chain, hc, hn⟩ := List.mem_flatten.mp hm
  obtain ⟨i, hi, rfl⟩ := List.getElem_of_mem hc
  have hi' := List.getElem?_eq_getElem hi
  obtain ⟨hp, hnd⟩ := h.2 i _ hi'
  unfold lookup
  dsimp only
  rw [hp node hn, getD_eq_of_getElem? hi']
  exact lookupChain_of_mem hnd hn

theorem lookup_eq_none_of_not_mem {c : Control} {symbol : Symbol}
    (h : symbol ∉ c.entries.map Node.symbol) : lookup symbol c = none := by
  cases hl : lookup symbol c with
  | none => rfl
  | some node =>
    exact absurd (List.mem_map.mpr ⟨node, mem_entries_of_lookup hl, lookup_symbol hl⟩) h

/-! ## Freshly created tables -/

theorem symtabCreate_length (raw : Control) (sizeHint : Nat) (concurrencySupport : Int) :
    (symtabCreate raw sizeHint concurrencySupport).length = sizeHint := by
  unfold symtabCreate
  dsimp only
  split_ifs <;> rfl

theorem symtabCreate_backbone (raw : Control) (sizeHint : Nat) (concurrencySupport : Int) :
    (symtabCreate raw sizeHint concurrencySupport).backbone = List.replicate sizeHint [] := by
  unfold symtabCreate
  dsimp only
  split_ifs <;> rfl

theorem symtabCreate_mode (raw : Control) (sizeHint : Nat) (concurrencySupport : Int) :
    (symtabCreate raw sizeHint concurrencySupport).concurrencySupport = concurrencySupport := by
  unfold symtabCreate
  dsimp only
  split_ifs <;> rfl

theorem getD_replicate {α : Type} (n g : Nat) (a : α) : ((List.replicate n a)[g]?).getD a = a := by
  rw [List.getElem?_replicate]
  split_ifs <;> rfl

theorem symtabCreate_idle (raw : Control) (sizeHint : Nat) (concurrencySupport : Int) :
    (symtabCreate raw sizeHint concurrencySupport).idle := by
  intro g
  unfold Control.writeFree
  rw [symtabCreate_mode]
  refine ⟨?_, ?_, ?_, ?_⟩ <;> intro e <;> subst e <;>
    simp [symtabCreate, SYMTAB_SINGLE_LOCK, SYMTAB_LOCK_BUCKET_GROUPS, SYMTAB_USE_THIN_LOCKS,
      SYMTAB_ALLOW_CONCURRENT_READS, Control.innerAt, getD_replicate]

theorem symtabCreate_lookup (raw : Control) (sizeHint : Nat) (concurrencySupport : Int)
    (symbol : Symbol) : lookup symbol (symtabCreate raw sizeHint concurrencySupport) = none := by
  apply lookup_eq_none_of_not_mem
  simp [Control.entries, symtabCreate_backbone]

/-! ## Counting words (mostUsed.c) -/

theorem updateCallback_count (n : Nat) (h : n + 1 < 4294967296) :
    MostUsed.updateCallback n = n + 1 := by
  unfold MostUsed.updateCallback NULL
  split_ifs with h0
  · omega
  · dsimp only
    omega

theorem idle_of_symtabUpdate_one {c c' : Control} {symbol : Symbol} {func : Nat → Nat}
    (hi : c.idle) (H : symtabUpdate c symbol func = .returns (1, c')) : c'.idle := by
  obtain ⟨B, rfl⟩ := symtabUpdate_one H
  exact hi

theorem reachable_processFile {words : List Symbol} {c c' : Control} (h : Reachable c)
    (H : MostUsed.processFile c words = .returns c') : Reachable c' := by
  induction words generalizing c with
  | nil =>
    simp only [MostUsed.processFile, Outcome.returns.injEq] at H
    exact H ▸ h
  | cons word rest ih =>
    simp only [MostUsed.processFile] at H
    cases hu : symtabUpdate c word MostUsed.updateCallback with
    | returns rc =>
      rw [hu] at H
      simp only [Outcome.bind] at H
      split_ifs at H with hr
      exact ih (Reachable.update word _ rc.1 h hu) H
    | blocks => rw [hu] at H; simp [Outcome.bind] at H
    | faults => rw [hu] at H; simp [Outcome.bind] at H
    | exits => rw [hu] at H; simp [Outcome.bind] at H

theorem processFile_counts (words : List Symbol) :
    ∀ (c : Control) (seen : List Symbol), c.backbone.length = c.length → 0 < c.length →
      c.idle → Counts c seen → (seen ++ words).length < 4294967296 →
      ∃ c', MostUsed.processFile c words = .returns c' ∧ c'.backbone.length = c'.length ∧
        0 < c'.length ∧ c'.idle ∧ Counts c' (seen ++ words) := by
  induction words with
  | nil =>
    intro c seen hs h0 hi hc _
    exact ⟨c, rfl, hs, h0, hi, by simpa using hc⟩
  | cons word rest ih =>
    intro c seen hs h0 hi hc hlen
    obtain ⟨r, c1, hu⟩ := symtabUpdate_of_writeFree MostUsed.updateCallback h0 (hi (c.group word))
    have hcw : seen.count word + 1 < 4294967296 := by
      have := List.count_le_length (a := word) (l := seen)
      simp only [List.length_append, List.length_cons] at hlen
      omega
    have hnd : nodeData (lookup word c) = seen.count word := by
      rw [hc word]
      split_ifs with hz
      · simp [nodeData, NULL, hz]
      · rfl
    have hr : r = 1 := by
      obtain ⟨_, _, hcase⟩ := symtabUpdate_returns hu
      rcases hcase with ⟨_, _, e, _⟩ | ⟨_, e, _, _⟩ | ⟨_, _, e, _⟩
      · exact e
      · simp [MostUsed.updateCallback, NULL] at e
      · exact e
    subst hr
    have hself := lookup_symtabUpdate_self hs hu
    rw [hnd, updateCallback_count _ hcw] at hself
    obtain ⟨B, hB⟩ := symtabUpdate_one hu
    have hs1 : c1.backbone.length = c1.length := by
      obtain ⟨_, _, hcase⟩ := symtabUpdate_returns hu
      rcases hcase with ⟨_, _, _, rfl⟩ | ⟨_, _, e, _⟩ | ⟨_, _, _, rfl⟩
      · simpa using hs
      · cases e
      · simpa using hs
    have h01 : 0 < c1.length := by rw [hB]; exact h0
    have hc1 : Counts c1 (seen ++ [word]) := by
      intro w
      by_cases e : w = word
      · subst e
        rw [hself]
        simp
      · rw [lookup_symtabUpdate_other hu e, hc w]
        have : List.count w [word] = 0 := by
          rw [List.count_singleton]
          simp [e]
          exact fun h => e h.symm
        simp [List.count_append, this]
    obtain ⟨c', hp, hs', h0', hi', hc'⟩ :=
      ih c1 (seen ++ [word]) hs1 h01 (idle_of_symtabUpdate_one hi hu) hc1 (by simpa using hlen)
    refine ⟨c', ?_, hs', h0', hi', by simpa using hc'⟩
    simp only [MostUsed.processFile, hu, Outcome.bind]
    simpa using hp

theorem counts_nil (raw : Control) (sizeHint : Nat) (concurrencySupport : Int) :
    Counts (symtabCreate raw sizeHint concurrencySupport) [] := by
  intro w
  simp [symtabCreate_lookup]

theorem mem_entries_of_counts {c : Control} {seen : List Symbol} (hw : c.WF) (hc : Counts c seen)
    (node : Node) :
    node ∈ c.entries ↔ node.symbol ∈ seen ∧ node.data = seen.count node.symbol := by
  constructor
  · intro hm
    have h1 := lookup_of_mem_entries hw hm
    rw [hc node.symbol] at h1
    split_ifs at h1 with hz
    simp only [Option.some.injEq] at h1
    have hd : node.data = seen.count node.symbol := by rw [← h1]
    exact ⟨List.count_pos_iff.mp (by omega), hd⟩
  · rintro ⟨hm, hd⟩
    have hz : ¬ seen.count node.symbol = 0 := by
      have := List.count_pos_iff.mpr hm
      omega
    have h1 := hc node.symbol
    rw [if_neg hz, ← hd] at h1
    exact mem_entries_of_lookup h1

/-- C4 (as amended): feeding any list of fewer than 2^32 words, one thread, through
`symtabUpdate` with the counting callback into a freshly created table with at least one
bucket (any mode) returns; afterwards `symtabLookup` of every word gives the number
of its occurrences, a word that does not occur gives NULL, and the entries of the table are
exactly the pairs (word, occurrences).  For yellow, yellow, orange, purple, orange, yellow
the entries are yellow:3, orange:2, purple:1. -/
theorem C4_sequential_counting (raw : Control) (sizeHint : Nat) (concurrencySupport : Int)
    (words : List Symbol) (hn : 0 < sizeHint) (hlen : words.length < 4294967296) :
    ∃ c, MostUsed.processFile (symtabCreate raw sizeHint concurrencySupport) words = .returns c ∧
      (∀ w, symtabLookup c w = .returns (words.count w, c)) ∧
      (∀ w, w ∉ words → symtabLookup c w = .returns (NULL, c)) ∧
      (∀ node, node ∈ c.entries ↔ node.symbol ∈ words ∧ node.data = words.count node.symbol) ∧
      (words = colours →
        (c.entries.map fun node => (node.symbol, node.data)).Perm
          [(cstr "yellow", 3), (cstr "orange", 2), (cstr "purple", 1)]) := by
  have hwf0 := WF_symtabCreate raw sizeHint concurrencySupport
  obtain ⟨c, hp, hs, h0, hi, hc⟩ :=
    processFile_counts words (symtabCreate raw sizeHint concurrencySupport) [] hwf0.1
      (by rw [symtabCreate_length]; exact hn) (symtabCreate_idle _ _ _) (counts_nil _ _ _)
      (by simpa using hlen)
  simp only [List.nil_append] at hc
  have hwf : c.WF := WF_of_reachable (reachable_processFile (Reachable.create _ _ _) hp)
  have hlook : ∀ w, symtabLookup c w = .returns (words.count w, c) := by
    intro w
    rw [symtabLookup_of_readFree h0 (readFree_of_writeFree (hi _)), hc w]
    split_ifs with hz
    · simp [nodeData, NULL, hz]
    · rfl
  have hent := mem_entries_of_counts hwf hc
  refine ⟨c, hp, hlook, ?_, hent, ?_⟩
  · intro w hw
    rw [hlook w, List.count_eq_zero_of_not_mem hw]
    rfl
  · intro hcol
    subst hcol
    rw [List.perm_ext_iff_of_nodup]
    · rintro ⟨k, v⟩
      simp only [List.mem_map, Prod.mk.injEq]
      constructor
      · rintro ⟨node, hm, rfl, rfl⟩
        obtain ⟨h1, h2⟩ := (hent node).mp hm
        rw [h2]
        simp only [colours, List.mem_cons, List.mem_singleton, List.not_mem_nil, or_false] at h1
        rcases h1 with e | e | e | e | e | e <;> rw [e] <;> decide
      · intro hm
        simp only [List.mem_cons, List.mem_singleton, List.not_mem_nil, or_false,
          Prod.mk.injEq] at hm
        rcases hm with ⟨rfl, rfl⟩ | ⟨rfl, rfl⟩ | ⟨rfl, rfl⟩
        · exact ⟨⟨cstr "yellow", 3⟩, (hent _).mpr (by decide), rfl, rfl⟩
        · exact ⟨⟨cstr "orange", 2⟩, (hent _).mpr (by decide), rfl, rfl⟩
        · exact ⟨⟨cstr "purple", 1⟩, (hent _).mpr (by decide), rfl, rfl⟩
    · have hnd := WF_entries_nodup hwf
      have : (c.entries.map fun node => (node.symbol, node.data)).map Prod.fst =
          c.entries.map Node.symbol := by
        rw [List.map_map]; rfl
      exact List.Nodup.of_map Prod.fst (by rw [this]; exact hnd)
    · decide

theorem C4_sequential_counting_witness :
    0 < 4 ∧ colours.length < 4294967296 ∧
    ∃ c, MostUsed.processFile (symtabCreate rawBlock 4 SYMTAB_ALLOW_CONCURRENT_READS) colours =
        .returns c ∧
      (∀ w, symtabLookup c w = .returns (colours.count w, c)) ∧
      (∀ w, w ∉ colours → symtabLookup c w = .returns (NULL, c)) ∧
      (∀ node, node ∈ c.entries ↔
        node.symbol ∈ colours ∧ node.data = colours.count node.symbol) ∧
      (colours = colours →
        (c.entries.map fun node => (node.symbol, node.data)).Perm
          [(cstr "yellow", 3), (cstr "orange", 2), (cstr "purple", 1)]) :=
  ⟨by decide, by decide,
    C4_sequential_counting rawBlock 4 SYMTAB_ALLOW_CONCURRENT_READS colours (by decide) (by decide)⟩

/-! ## Install or update, then look up -/

/-- On a reachable table with at least one bucket in which the coordinator that
`symtabUpdate` acquires for the symbol's group is free, and for a callback whose result on
the value it is given is not NULL, `symtabUpdate` returns 1; afterwards `symtabLookup` of
the symbol returns `func v` when the symbol was stored with value `v` before the call and
`func NULL` when it was not stored. -/
theorem update_then_lookup_of_writeFree (c : Control) (symbol : Symbol) (func : Nat → Nat)
    (hr : Reachable c) (h0 : 0 < c.length) (hfree : c.writeFree (c.group symbol))
    (hf : func (nodeData (lookup symbol c)) ≠ NULL) :
    ∃ c', symtabUpdate c symbol func = .returns (1, c') ∧
      (∀ node ∈ c.entries, node.symbol = symbol →
        symtabLookup c' symbol = .returns (func node.data, c')) ∧
      ((∀ node ∈ c.entries, node.symbol ≠ symbol) →
        symtabLookup c' symbol = .returns (func NULL, c')) := by
  have hwf := WF_of_reachable hr
  obtain ⟨r, c', hu⟩ := symtabUpdate_of_writeFree func h0 hfree
  have hr1 : r = 1 := by
    obtain ⟨_, _, hcase⟩ := symtabUpdate_returns hu
    rcases hcase with ⟨_, _, e, _⟩ | ⟨hl, e, _, _⟩ | ⟨_, _, e, _⟩
    · exact e
    · rw [hl] at hf
      exact absurd e hf
    · exact e
  subst hr1
  have hself := lookup_symtabUpdate_self hwf.1 hu
  obtain ⟨B, hB⟩ := symtabUpdate_one hu
  have hlk : symtabLookup c' symbol =
      .returns (func (nodeData (lookup symbol c)), c') := by
    have h0' : 0 < c'.length := by rw [hB]; exact h0
    have hfree' : c'.readFree (c'.group symbol) := by
      rw [hB]; exact readFree_of_writeFree hfree
    rw [symtabLookup_of_readFree h0' hfree', hself]
    rfl
  refine ⟨c', hu, ?_, ?_⟩
  · intro node hm hs
    have := lookup_of_mem_entries hwf hm
    rw [hs] at this
    rw [hlk, this]
    rfl
  · intro hno
    have : lookup symbol c = none :=
      lookup_eq_none_of_not_mem (fun hm => by
        obtain ⟨node, hn, e⟩ := List.mem_map.mp hm
        exact hno node hn e)
    rw [hlk, this]
    rfl

theorem reachable_yellowTable : Reachable yellowTable :=
  Reachable.update (cstr "yellow") UniqueCount.updateCallback 1
    (Reachable.create rawBlock 4 SYMTAB_ALLOW_CONCURRENT_READS) (by decide)

/-! ## C6, C7, C9: what the code does at the failing inputs -/

/-- C6, the code at the failing input: yellow is installed with value 1 and the callback
rejects (returns NULL), yet `symtabUpdate` returns 1 and stores NULL as the value of
yellow; the prior value 1 is lost and a later `symtabLookup` returns NULL. -/
theorem C6_reject_existing_not_honoured :
    nodeData (lookup (cstr "yellow") noLockTable) = 1 ∧ rejectAll 1 = NULL ∧
    symtabUpdate noLockTable (cstr "yellow") rejectAll =
      .returns (1, { noLockTable with
        backbone := [[], [], [], [{ symbol := cstr "yellow", data := NULL }]] }) ∧
    symtabLookup { noLockTable with
        backbone := [[], [], [], [{ symbol := cstr "yellow", data := NULL }]] } (cstr "yellow") =
      .returns (NULL, { noLockTable with
        backbone := [[], [], [], [{ symbol := cstr "yellow", data := NULL }]] }) := by
  decide

/-- C7, the code at the failing inputs: in each of the four locking modes a rejected
install on a fresh table returns 0 with the coordinator still held (the single lock, the
group's mutex, the group's thin-lock flag, the group's writer count), and the next
`symtabUpdate` and `symtabLookup` on that group never return. -/
theorem C7_reject_keeps_coordinator :
    (symtabUpdate (symtabCreate rawBlock 4 SYMTAB_SINGLE_LOCK) (cstr "yellow") rejectAll =
        .returns (0, { symtabCreate rawBlock 4 SYMTAB_SINGLE_LOCK with smu := true }) ∧
      (symtabCreate rawBlock 4 SYMTAB_SINGLE_LOCK).smu = false ∧
      symtabUpdate { symtabCreate rawBlock 4 SYMTAB_SINGLE_LOCK with smu := true }
        (cstr "yellow") UniqueCount.updateCallback = .blocks ∧
      symtabLookup { symtabCreate rawBlock 4 SYMTAB_SINGLE_LOCK with smu := true }
        (cstr "yellow") = .blocks) ∧
    (symtabUpdate (symtabCreate rawBlock 4 SYMTAB_LOCK_BUCKET_GROUPS) (cstr "yellow") rejectAll =
        .returns (0, { symtabCreate rawBlock 4 SYMTAB_LOCK_BUCKET_GROUPS with
          mu := (List.replicate 16 false).set 3 true }) ∧
      symtabUpdate { symtabCreate rawBlock 4 SYMTAB_LOCK_BUCKET_GROUPS with
          mu := (List.replicate 16 false).set 3 true }
        (cstr "yellow") UniqueCount.updateCallback = .blocks ∧
      symtabLookup { symtabCreate rawBlock 4 SYMTAB_LOCK_BUCKET_GROUPS with
          mu := (List.replicate 16 false).set 3 true } (cstr "yellow") = .blocks) ∧
    (symtabUpdate (symtabCreate rawBlock 4 SYMTAB_USE_THIN_LOCKS) (cstr "yellow") rejectAll =
        .returns (0, { symtabCreate rawBlock 4 SYMTAB_USE_THIN_LOCKS with
          thins := (List.replicate 16 0).set 3 1 }) ∧
      symtabUpdate { symtabCreate rawBlock 4 SYMTAB_USE_THIN_LOCKS with
          thins := (List.replicate 16 0).set 3 1 }
        (cstr "yellow") UniqueCount.updateCallback = .blocks ∧
      symtabLookup { symtabCreate rawBlock 4 SYMTAB_USE_THIN_LOCKS with
          thins := (List.replicate 16 0).set 3 1 } (cstr "yellow") = .blocks) ∧
    (symtabUpdate (symtabCreate rawBlock 4 SYMTAB_ALLOW_CONCURRENT_READS) (cstr "yellow")
          rejectAll =
        .returns (0, { symtabCreate rawBlock 4 SYMTAB_ALLOW_CONCURRENT_READS with
          inner := (List.replicate 16
            { readers := 0, writers := 0, waitingReaders := 0, waitingWriters := 0 }).set 3
            { readers := 0, writers := 1, waitingReaders := 0, waitingWriters := 0 } }) ∧
      symtabUpdate { symtabCreate rawBlock 4 SYMTAB_ALLOW_CONCURRENT_READS with
          inner := (List.replicate 16
            { readers := 0, writers := 0, waitingReaders := 0, waitingWriters := 0 }).set 3
            { readers := 0, writers := 1, waitingReaders := 0, waitingWriters := 0 } }
        (cstr "yellow") UniqueCount.updateCallback = .blocks ∧
      symtabLookup { symtabCreate rawBlock 4 SYMTAB_ALLOW_CONCURRENT_READS with
          inner := (List.replicate 16
            { readers := 0, writers := 0, waitingReaders := 0, waitingWriters := 0 }).set 3
            { readers := 0, writers := 1, waitingReaders := 0, waitingWriters := 0 } }
        (cstr "yellow") = .blocks) := by
  decide

/-- C9, the code at the failing input: the table reached from a fresh one by installing
yellow and then updating it with a callback that returns NULL holds an entry for yellow,
yet `symtabLookup` of yellow returns NULL, the not-found value. -/
theorem C9_null_for_stored_symbol :
    symtabUpdate (symtabCreate rawBlock 4 SYMTAB_NO_LOCKING) (cstr "yellow")
      UniqueCount.updateCallback = .returns (1, noLockTable) ∧
    symtabUpdate noLockTable (cstr "yellow") rejectAll =
      .returns (1, { noLockTable with
        backbone := [[], [], [], [{ symbol := cstr "yellow", data := NULL }]] }) ∧
    ({ symbol := cstr "yellow", data := NULL } : Node) ∈
      ({ noLockTable with
        backbone := [[], [], [], [{ symbol := cstr "yellow", data := NULL }]] } : Control).entries ∧
    symtabLookup { noLockTable with
        backbone := [[], [], [], [{ symbol := cstr "yellow", data := NULL }]] } (cstr "yellow") =
      .returns (NULL, { noLockTable with
        backbone := [[], [], [], [{ symbol := cstr "yellow", data := NULL }]] }) := by
  decide

/-! ## C8: `symtabLookup` changes nothing -/

theorem repeatLookup_of_returns {c c' : Control} {symbol : Symbol} {v : Nat}
    (H : symtabLookup c symbol = .returns (v, c')) (n : Nat) :
    repeatLookup n c symbol = .returns (List.replicate n v, c) := by
  obtain ⟨_, _, rfl, _⟩ := symtabLookup_returns H
  induction n with
  | zero => rfl
  | succ n ih => simp [repeatLookup, H, ih, Outcome.bind, List.replicate_succ]

/-- C8 (lookup is read-only): in every table state and mode, a `symtabLookup` that returns
leaves the table exactly as it was: backbone with every entry, length, mode, mutexes,
thin-lock flags and reader/writer counters.  Hence any number of consecutive lookups of the
symbol all return that same value and leave the same table, and an iterator created
afterwards, and the sequence it yields, are those of the table before the lookup. -/
theorem C8_lookup_read_only (c c' : Control) (symbol : Symbol) (v : Nat)
    (H : symtabLookup c symbol = .returns (v, c')) :
    c' = c ∧
    (∀ n, repeatLookup n c symbol = .returns (List.replicate n v, c)) ∧
    symtabCreateIterator c' = symtabCreateIterator c ∧
    ∀ fuel out, drain fuel (symtabCreateIterator c') out =
      drain fuel (symtabCreateIterator c) out := by
  have e : c' = c := (symtabLookup_returns H).2.2.1
  exact ⟨e, repeatLookup_of_returns H, by rw [e], fun _ _ => by rw [e]⟩

theorem C8_lookup_read_only_witness :
    symtabLookup yellowTable (cstr "yellow") = .returns (1, yellowTable) ∧
    yellowTable = yellowTable ∧
    (∀ n, repeatLookup n yellowTable (cstr "yellow") =
      .returns (List.replicate n 1, yellowTable)) ∧
    symtabCreateIterator yellowTable = symtabCreateIterator yellowTable ∧
    ∀ fuel out, drain fuel (symtabCreateIterator yellowTable) out =
      drain fuel (symtabCreateIterator yellowTable) out :=
  ⟨by decide, C8_lookup_read_only yellowTable yellowTable (cstr "yellow") 1 (by decide)⟩

/-! ## C10: the iterator -/

theorem drop_flatten_of_getD_nil (L : List (List Node)) (i : Nat) (h : L.getD i [] = []) :
    (L.drop i).flatten = (L.drop (i + 1)).flatten := by
  by_cases hi : i < L.length
  · rw [List.drop_eq_getElem_cons hi]
    have : L[i] = [] := by simpa [hi] using h
    simp [this]
  · rw [List.drop_eq_nil_of_le (by omega), List.drop_eq_nil_of_le (by omega)]

theorem drop_flatten_of_getD_cons (L : List (List Node)) (i : Nat) (node : Node)
    (next : List Node) (h : L.getD i [] = node :: next) :
    (L.drop i).flatten = node :: next ++ (L.drop (i + 1)).flatten := by
  by_cases hi : i < L.length
  · rw [List.drop_eq_getElem_cons hi]
    have : L[i] = node :: next := by simpa [hi] using h
    simp [this]
  · have : L[i]? = none := List.getElem?_eq_none (by omega)
    simp [this] at h

theorem firstBucket_none (L : List (List Node)) :
    ∀ fuel index, L.length ≤ index + fuel → firstBucket L fuel index = none →
      (L.drop index).flatten = [] := by
  intro fuel
  induction fuel with
  | zero =>
    intro index hle _
    rw [List.drop_eq_nil_of_le (by omega)]
    rfl
  | succ fuel ih =>
    intro index hle h
    simp only [firstBucket] at h
    cases hg : L.getD index [] with
    | nil =>
      rw [hg] at h
      rw [drop_flatten_of_getD_nil L index hg]
      exact ih (index + 1) (by omega) h
    | cons node next =>
      rw [hg] at h
      cases h

theorem firstBucket_some (L : List (List Node)) :
    ∀ fuel index j chain, firstBucket L fuel index = some (j, chain) →
      chain ≠ [] ∧ (L.drop index).flatten = chain ++ (L.drop (j + 1)).flatten := by
  intro fuel
  induction fuel with
  | zero =>
    intro index j chain h
    simp [firstBucket] at h
  | succ fuel ih =>
    intro index j chain h
    simp only [firstBucket] at h
    cases hg : L.getD index [] with
    | nil =>
      rw [hg] at h
      rw [drop_flatten_of_getD_nil L index hg]
      exact ih (index + 1) j chain h
    | cons node next =>
      rw [hg] at h
      simp only [Option.some.injEq, Prod.mk.injEq] at h
      obtain ⟨rfl, rfl⟩ := h
      exact ⟨by simp, drop_flatten_of_getD_cons L index node next hg⟩

theorem symtabCreateIterator_spec {c : Control} (hs : c.backbone.length = c.length) :
    (c.entries = [] → symtabCreateIterator c = none) ∧
    (c.entries ≠ [] → ∃ iter, symtabCreateIterator c = some iter ∧
      iter.controlpointer = c ∧ iter.remaining = c.entries) := by
  unfold symtabCreateIterator
  dsimp only
  cases hf : firstBucket c.backbone c.length 0 with
  | none =>
    have := firstBucket_none c.backbone c.length 0 (by omega) hf
    simp only [List.drop_zero] at this
    exact ⟨fun _ => rfl, fun hne => absurd this hne⟩
  | some p =>
    obtain ⟨j, chain⟩ := p
    obtain ⟨hne, hfl⟩ := firstBucket_some c.backbone c.length 0 j chain hf
    simp only [List.drop_zero] at hfl
    refine ⟨fun he => ?_, fun _ => ⟨_, rfl, rfl, ?_⟩⟩
    · rw [Control.entries, hfl] at he
      simp [hne] at he
    · cases chain with
      | nil => exact absurd rfl hne
      | cons node next => simp [Iterator.remaining, Control.entries, hfl]

theorem symtabNext_spec (iter : Iterator) (out : Nat)
    (hs : iter.controlpointer.backbone.length = iter.controlpointer.length) :
    (iter.remaining = [] → symtabNext (some iter) out = .returns (none, out, iter)) ∧
    (∀ node rest, iter.remaining = node :: rest →
      ∃ iter', symtabNext (some iter) out = .returns (some node.symbol, node.data, iter') ∧
        iter'.controlpointer = iter.controlpointer ∧ iter'.remaining = rest) := by
  obtain ⟨cp, index, nextnode⟩ := iter
  cases nextnode with
  | nil =>
    refine ⟨fun _ => rfl, fun node rest h => ?_⟩
    simp [Iterator.remaining] at h
  | cons iternode next =>
    refine ⟨fun h => by simp [Iterator.remaining] at h, fun node rest h => ?_⟩
    simp only [Iterator.remaining, List.cons_append, List.cons.injEq] at h
    obtain ⟨rfl, hrest⟩ := h
    simp only [symtabNext]
    cases next with
    | cons n2 next2 =>
      refine ⟨{ controlpointer := cp, index := index, nextnode := n2 :: next2 }, by simp, rfl, ?_⟩
      simpa [Iterator.remaining] using hrest
    | nil =>
      simp only [ne_eq, not_true_eq_false, if_false]
      simp only [List.nil_append] at hrest
      dsimp only at hs
      cases hf : firstBucket cp.backbone (cp.length - (index + 1)) (index + 1) with
      | none =>
        refine ⟨_, rfl, rfl, ?_⟩
        have := firstBucket_none cp.backbone _ _ (by omega) hf
        rw [← hrest, this]
        rfl
      | some p =>
        obtain ⟨j, chain⟩ := p
        obtain ⟨hne, hfl⟩ := firstBucket_some cp.backbone _ _ j chain hf
        refine ⟨_, rfl, rfl, ?_⟩
        cases chain with
        | nil => exact absurd rfl hne
        | cons n3 next3 =>
          rw [← hrest, hfl]
          simp [Iterator.remaining]

theorem drain_spec (fuel : Nat) :
    ∀ (iter : Iterator) (out : Nat),
      iter.controlpointer.backbone.length = iter.controlpointer.length →
      iter.remaining.length < fuel →
      drain fuel (some iter) out = .returns (some (iter.remaining.map Node.pair)) := by
  induction fuel with
  | zero => intro iter out _ h; omega
  | succ fuel ih =>
    intro iter out hs h
    obtain ⟨h1, h2⟩ := symtabNext_spec iter out hs
    cases hr : iter.remaining with
    | nil =>
      simp [drain, h1 hr, Outcome.bind]
    | cons node rest =>
      obtain ⟨iter', hn, hcp, hrem⟩ := h2 node rest hr
      rw [hr] at h
      simp only [List.length_cons] at h
      have := ih iter' node.data (by rw [hcp]; exact hs) (by rw [hrem]; omega)
      simp [drain, hn, Outcome.bind, this, hrem, Node.pair]

/-- C10 (iteration completeness): for every reachable table that holds n >= 1 entries,
`symtabCreateIterator` returns an iterator, and draining it with `symtabNext` ends: with
any bound above n on the number of calls, the calls before the first NULL yield exactly the
n pairs (symbol, data) of the entries, so the call number n+1 returns NULL.  In these pairs
no symbol occurs twice, a symbol occurs exactly when it is installed (the chain scan finds
it), and each symbol comes with the value stored for it. -/
theorem C10_iteration_complete (c : Control) (out : Nat) (hr : Reachable c)
    (hne : c.entries ≠ []) :
    ∃ iter, symtabCreateIterator c = some iter ∧
      ∀ fuel, c.entries.length < fuel →
        ∃ pairs, drain fuel (some iter) out = .returns (some pairs) ∧
          pairs = c.entries.map Node.pair ∧
          pairs.length = c.entries.length ∧
          (pairs.map Prod.fst).Nodup ∧
          (∀ k, k ∈ pairs.map Prod.fst ↔ lookup k c ≠ none) ∧
          (∀ k v, (k, v) ∈ pairs → lookup k c = some { symbol := k, data := v }) := by
  have hwf := WF_of_reachable hr
  obtain ⟨iter, hc, hcp, hrem⟩ := (symtabCreateIterator_spec hwf.1).2 hne
  refine ⟨iter, hc, fun fuel hf => ⟨c.entries.map Node.pair, ?_, rfl, by simp, ?_, ?_, ?_⟩⟩
  · rw [← hrem]
    exact drain_spec fuel iter out (by rw [hcp]; exact hwf.1) (by rw [hrem]; exact hf)
  · have : (c.entries.map Node.pair).map Prod.fst = c.entries.map Node.symbol := by
      rw [List.map_map]; rfl
    rw [this]
    exact WF_entries_nodup hwf
  · intro k
    have : (c.entries.map Node.pair).map Prod.fst = c.entries.map Node.symbol := by
      rw [List.map_map]; rfl
    rw [this]
    constructor
    · intro hm
      obtain ⟨node, hn, rfl⟩ := List.mem_map.mp hm
      rw [lookup_of_mem_entries hwf hn]
      simp
    · intro hl
      cases hlk : lookup k c with
      | none => exact absurd hlk hl
      | some node =>
        exact List.mem_map.mpr ⟨node, mem_entries_of_lookup hlk, lookup_symbol hlk⟩
  · intro k v hm
    obtain ⟨node, hn, e⟩ := List.mem_map.mp hm
    simp only [Node.pair, Prod.mk.injEq] at e
    obtain ⟨rfl, rfl⟩ := e
    exact lookup_of_mem_entries hwf hn

theorem reachable_coloursTable : Reachable coloursTable :=
  reachable_processFile (Reachable.create rawBlock 4 SYMTAB_USE_THIN_LOCKS)
    (by decide : MostUsed.processFile (symtabCreate rawBlock 4 SYMTAB_USE_THIN_LOCKS) colours =
      .returns coloursTable)

theorem C10_iteration_complete_witness :
    Reachable coloursTable ∧ coloursTable.entries ≠ [] ∧
    ∃ iter, symtabCreateIterator coloursTable = some iter ∧
      ∀ fuel, coloursTable.entries.length < fuel →
        ∃ pairs, drain fuel (some iter) 0 = .returns (some pairs) ∧
          pairs = coloursTable.entries.map Node.pair ∧
          pairs.length = coloursTable.entries.length ∧
          (pairs.map Prod.fst).Nodup ∧
          (∀ k, k ∈ pairs.map Prod.fst ↔ lookup k coloursTable ≠ none) ∧
          (∀ k v, (k, v) ∈ pairs → lookup k coloursTable = some { symbol := k, data := v }) :=
  ⟨reachable_coloursTable, by decide,
    C10_iteration_complete coloursTable 0 reachable_coloursTable (by decide)⟩

theorem C2_uniqueness_witness :
    Reachable coloursTable ∧
    (coloursTable.entries.map Node.symbol).Nodup ∧
    ∀ (i j i' j' : Nat) (chain chain' : List Node) (node node' : Node),
      coloursTable.backbone[i]? = some chain → chain[j]? = some node →
      coloursTable.backbone[i']? = some chain' → chain'[j']? = some node' →
      node.symbol = node'.symbol → i = i' ∧ j = j' :=
  ⟨reachable_coloursTable, C2_uniqueness coloursTable reachable_coloursTable⟩

theorem lookupAcquire_blocks {c : Control} {h : Nat} (hf : ¬ c.readFree (h % MUTEX_NUM)) :
    lookupAcquire c h = .blocks := by
  rcases c with ⟨len, bb, mode, mu, smu, thins, inner⟩
  by_cases h1 : mode = 1
  · subst h1
    cases smu <;>
    simp [lookupAcquire, Control.readFree, SYMTAB_SINGLE_LOCK, SYMTAB_LOCK_BUCKET_GROUPS,
      SYMTAB_USE_THIN_LOCKS, SYMTAB_ALLOW_CONCURRENT_READS, pthread_mutex_lock,
      pthread_mutex_unlock, Outcome.bind] at hf ⊢
  by_cases h2 : mode = 2
  · subst h2
    cases hm : (mu[h % MUTEX_NUM]?).getD false <;>
    simp [lookupAcquire, Control.readFree, SYMTAB_SINGLE_LOCK, SYMTAB_LOCK_BUCKET_GROUPS,
      SYMTAB_USE_THIN_LOCKS, SYMTAB_ALLOW_CONCURRENT_READS, pthread_mutex_lock,
      pthread_mutex_unlock, Outcome.bind, hm] at hf ⊢
  by_cases h4 : mode = 4
  · subst h4
    by_cases ht : (thins[h % MUTEX_NUM]?).getD 0 = 0 <;>
    simp [lookupAcquire, Control.readFree, SYMTAB_SINGLE_LOCK, SYMTAB_LOCK_BUCKET_GROUPS,
      SYMTAB_USE_THIN_LOCKS, SYMTAB_ALLOW_CONCURRENT_READS, pthread_mutex_lock,
      pthread_mutex_unlock, Outcome.bind, thinLock, ht] at hf ⊢
  by_cases h3 : mode = 3
  · subst h3
    cases hm : (mu[h % MUTEX_NUM]?).getD false <;>
    simp [lookupAcquire, Control.readFree, SYMTAB_SINGLE_LOCK, SYMTAB_LOCK_BUCKET_GROUPS,
      SYMTAB_USE_THIN_LOCKS, SYMTAB_ALLOW_CONCURRENT_READS, pthread_mutex_lock,
      pthread_mutex_unlock, Outcome.bind, hm, Control.innerAt] at hf ⊢
    exact hf
  · simp [Control.readFree, SYMTAB_SINGLE_LOCK, SYMTAB_LOCK_BUCKET_GROUPS,
      SYMTAB_USE_THIN_LOCKS, SYMTAB_ALLOW_CONCURRENT_READS, h1, h2, h3, h4] at hf

/-- A call of `symtabLookup` whose coordinator is held never returns. -/
theorem symtabLookup_of_not_readFree {c : Control} {symbol : Symbol} (h0 : 0 < c.length)
    (hf : ¬ c.readFree (c.group symbol)) : symtabLookup c symbol = .blocks := by
  unfold symtabLookup
  dsimp only
  rw [if_neg (by omega), lookupAcquire_blocks hf]
  rfl

/-- Acquiring the coordinator of one group leaves the coordinators of the calls that do not
share it as they were. -/
theorem updateAcquire_frame {c c1 : Control} {h : Nat} (H : updateAcquire c h = .returns c1)
    (g' : Nat)
    (hn : ¬ (c.concurrencySupport = SYMTAB_SINGLE_LOCK ∨
      ((c.concurrencySupport = SYMTAB_LOCK_BUCKET_GROUPS ∨
          c.concurrencySupport = SYMTAB_ALLOW_CONCURRENT_READS ∨
          c.concurrencySupport = SYMTAB_USE_THIN_LOCKS) ∧ g' = h % MUTEX_NUM))) :
    (c1.readFree g' ↔ c.readFree g') := by
  rcases c with ⟨len, bb, mode, mu, smu, thins, inner⟩
  simp only [SYMTAB_SINGLE_LOCK, SYMTAB_LOCK_BUCKET_GROUPS, SYMTAB_USE_THIN_LOCKS,
    SYMTAB_ALLOW_CONCURRENT_READS, not_or, not_and] at hn
  obtain ⟨h1, hg⟩ := hn
  by_cases h2 : mode = 2
  · subst h2
    have hne : h % MUTEX_NUM ≠ g' := fun e => hg (Or.inl rfl) e.symm
    cases hm : (mu[h % MUTEX_NUM]?).getD false <;>
    simp [updateAcquire, SYMTAB_SINGLE_LOCK, SYMTAB_LOCK_BUCKET_GROUPS,
      SYMTAB_USE_THIN_LOCKS, SYMTAB_ALLOW_CONCURRENT_READS, pthread_mutex_lock,
      pthread_mutex_unlock, Outcome.bind, hm] at H
    subst H
    simp [Control.readFree, SYMTAB_SINGLE_LOCK, SYMTAB_LOCK_BUCKET_GROUPS,
      SYMTAB_USE_THIN_LOCKS, SYMTAB_ALLOW_CONCURRENT_READS, List.getElem?_set_ne hne]
  by_cases h4 : mode = 4
  · subst h4
    have hne : h % MUTEX_NUM ≠ g' := fun e => hg (Or.inr (Or.inr rfl)) e.symm
    by_cases ht : (thins[h % MUTEX_NUM]?).getD 0 = 0 <;>
    simp [updateAcquire, SYMTAB_SINGLE_LOCK, SYMTAB_LOCK_BUCKET_GROUPS,
      SYMTAB_USE_THIN_LOCKS, SYMTAB_ALLOW_CONCURRENT_READS, pthread_mutex_lock,
      pthread_mutex_unlock, Outcome.bind, thinLock, ht] at H
    subst H
    simp [Control.readFree, SYMTAB_SINGLE_LOCK, SYMTAB_LOCK_BUCKET_GROUPS,
      SYMTAB_USE_THIN_LOCKS, SYMTAB_ALLOW_CONCURRENT_READS, List.getElem?_set_ne hne]
  by_cases h3 : mode = 3
  · subst h3
    have hne : h % MUTEX_NUM ≠ g' := fun e => hg (Or.inr (Or.inl rfl)) e.symm
    cases hm : (mu[h % MUTEX_NUM]?).getD false <;>
    simp [updateAcquire, SYMTAB_SINGLE_LOCK, SYMTAB_LOCK_BUCKET_GROUPS,
      SYMTAB_USE_THIN_LOCKS, SYMTAB_ALLOW_CONCURRENT_READS, pthread_mutex_lock,
      pthread_mutex_unlock, Outcome.bind, hm, Control.innerAt] at H
    split_ifs at H with hrw
    simp only [Outcome.returns.injEq] at H
    subst H
    simp [Control.readFree, SYMTAB_SINGLE_LOCK, SYMTAB_LOCK_BUCKET_GROUPS,
      SYMTAB_USE_THIN_LOCKS, SYMTAB_ALLOW_CONCURRENT_READS, List.getElem?_set_ne hne,
      Control.innerAt]
  · simp [updateAcquire, SYMTAB_SINGLE_LOCK, SYMTAB_LOCK_BUCKET_GROUPS,
      SYMTAB_USE_THIN_LOCKS, SYMTAB_ALLOW_CONCURRENT_READS, pthread_mutex_lock,
      pthread_mutex_unlock, Outcome.bind, h1, h2, h3, h4] at H
    subst H
    rfl

/-! ## A rejected install -/

theorem updateAcquire_unlocked {c : Control} (h : Nat)
    (h1 : c.concurrencySupport ≠ SYMTAB_SINGLE_LOCK)
    (h2 : c.concurrencySupport ≠ SYMTAB_LOCK_BUCKET_GROUPS)
    (h3 : c.concurrencySupport ≠ SYMTAB_ALLOW_CONCURRENT_READS)
    (h4 : c.concurrencySupport ≠ SYMTAB_USE_THIN_LOCKS) :
    updateAcquire c h = .returns c := by
  simp [updateAcquire, Outcome.bind, h1, h2, h3, h4]

/-- On a table (with at least one bucket) whose coordinator for the symbol's group is
free, for a symbol that no entry holds and a callback that answers NULL to NULL,
`symtabUpdate` returns 0; no entry is added and every bucket chain, the length and the mode
are as before.  Every later `symtabLookup` that does not use the coordinator the call
acquired (any symbol when the mode is none of the four locking modes, a symbol of another
group in the three per-group modes) gives the same result as before the call; when the mode
is none of the four locking modes the whole table is unchanged. -/
theorem reject_fresh_of_writeFree (c : Control) (symbol : Symbol) (func : Nat → Nat)
    (h0 : 0 < c.length) (hfree : c.writeFree (c.group symbol))
    (hk : symbol ∉ c.entries.map Node.symbol) (hf : func NULL = NULL) :
    ∃ c', symtabUpdate c symbol func = .returns (0, c') ∧
      c'.backbone = c.backbone ∧ c'.entries = c.entries ∧ c'.length = c.length ∧
      c'.concurrencySupport = c.concurrencySupport ∧
      (∀ other, ¬ c.sharesCoordinator symbol other →
        (symtabLookup c' other).value = (symtabLookup c other).value) ∧
      (c.concurrencySupport ≠ SYMTAB_SINGLE_LOCK →
        c.concurrencySupport ≠ SYMTAB_LOCK_BUCKET_GROUPS →
        c.concurrencySupport ≠ SYMTAB_ALLOW_CONCURRENT_READS →
        c.concurrencySupport ≠ SYMTAB_USE_THIN_LOCKS → c' = c) := by
  have hl := lookup_eq_none_of_not_mem hk
  obtain ⟨r, c', hu⟩ := symtabUpdate_of_writeFree func h0 hfree
  obtain ⟨_, _, hcase⟩ := symtabUpdate_returns hu
  rcases hcase with ⟨looked, e, _, _⟩ | ⟨_, _, hr, ha⟩ | ⟨_, e, _, _⟩
  · rw [hl] at e; cases e
  · subst hr
    obtain ⟨_, hlen, hbb, hmode, _⟩ := updateAcquire_returns ha
    refine ⟨c', hu, hbb, by simp [Control.entries, hbb], hlen, hmode, ?_, ?_⟩
    · intro other hns
      have h0' : 0 < c'.length := by rw [hlen]; exact h0
      have hg : c'.group other = c.group other := by simp [Control.group, hlen]
      have hfr : c'.readFree (c'.group other) ↔ c.readFree (c.group other) := by
        rw [hg]
        exact updateAcquire_frame ha (c.group other) hns
      by_cases hfo : c.readFree (c.group other)
      · rw [symtabLookup_of_readFree h0 hfo, symtabLookup_of_readFree h0' (hfr.mpr hfo),
          lookup_congr hlen hbb]
        rfl
      · rw [symtabLookup_of_not_readFree h0 hfo,
          symtabLookup_of_not_readFree h0' (fun h => hfo (hfr.mp h))]
    · intro h1 h2 h3 h4
      rw [updateAcquire_unlocked _ h1 h2 h3 h4] at ha
      exact (Outcome.returns.inj ha).symm
  · exact absurd hf e

/-! ## C12, C13: the end of the sequence and the order of iteration -/

theorem firstBucket_least (L : List (List Node)) :
    ∀ fuel index j chain, firstBucket L fuel index = some (j, chain) →
      index ≤ j ∧ L.getD j [] = chain ∧ ∀ k, index ≤ k → k < j → L.getD k [] = [] := by
  intro fuel
  induction fuel with
  | zero =>
    intro index j chain h
    simp [firstBucket] at h
  | succ fuel ih =>
    intro index j chain h
    simp only [firstBucket] at h
    cases hg : L.getD index [] with
    | nil =>
      rw [hg] at h
      obtain ⟨h1, h2, h3⟩ := ih (index + 1) j chain h
      refine ⟨by omega, h2, fun k hk1 hk2 => ?_⟩
      by_cases e : k = index
      · rw [e]; exact hg
      · exact h3 k (by omega) hk2
    | cons node next =>
      rw [hg] at h
      simp only [Option.some.injEq, Prod.mk.injEq] at h
      obtain ⟨rfl, rfl⟩ := h
      exact ⟨le_refl _, hg, fun k hk1 hk2 => by omega⟩

theorem symtabNext_index_le {iter iter' : Iterator} {out out' : Nat} {p : Option Symbol}
    (h : symtabNext (some iter) out = .returns (p, out', iter')) : iter.index ≤ iter'.index := by
  obtain ⟨cp, index, nextnode⟩ := iter
  cases nextnode with
  | nil =>
    simp only [symtabNext, Outcome.returns.injEq, Prod.mk.injEq] at h
    rw [← h.2.2]
  | cons iternode next =>
    simp only [symtabNext] at h
    split_ifs at h with hn
    · simp only [Outcome.returns.injEq, Prod.mk.injEq] at h
      rw [← h.2.2]
    · cases hf : firstBucket cp.backbone (cp.length - (index + 1)) (index + 1) with
      | none =>
        rw [hf] at h
        simp only [Outcome.returns.injEq, Prod.mk.injEq] at h
        rw [← h.2.2]
      | some q =>
        obtain ⟨j, chain⟩ := q
        rw [hf] at h
        simp only [Outcome.returns.injEq, Prod.mk.injEq] at h
        rw [← h.2.2]
        have := (firstBucket_least cp.backbone _ _ j chain hf).1
        simp only
        omega

theorem symtabNextN_spec (k : Nat) :
    ∀ (iter : Iterator) (out : Nat),
      iter.controlpointer.backbone.length = iter.controlpointer.length →
      k ≤ iter.remaining.length →
      ∃ out' iter', symtabNextN k iter out =
          .returns ((iter.remaining.take k).map (fun node => some node.symbol), out', iter') ∧
        iter'.controlpointer = iter.controlpointer ∧
        iter'.remaining = iter.remaining.drop k := by
  induction k with
  | zero =>
    intro iter out _ _
    exact ⟨out, iter, rfl, rfl, rfl⟩
  | succ k ih =>
    intro iter out hs hk
    cases hr : iter.remaining with
    | nil => rw [hr] at hk; simp at hk
    | cons node rest =>
      obtain ⟨iter1, hn, hcp, hrem⟩ := (symtabNext_spec iter out hs).2 node rest hr
      rw [hr] at hk
      simp only [List.length_cons] at hk
      obtain ⟨out', iter', h1, h2, h3⟩ :=
        ih iter1 node.data (by rw [hcp]; exact hs) (by rw [hrem]; omega)
      refine ⟨out', iter', ?_, by rw [h2, hcp], by rw [h3, hrem]; rfl⟩
      simp [symtabNextN, hn, Outcome.bind, h1, hrem]

theorem symtabNextN_exhausted (m : Nat) (iter : Iterator) (out : Nat) (h : iter.nextnode = []) :
    symtabNextN m iter out = .returns (List.replicate m none, out, iter) := by
  induction m with
  | zero => rfl
  | succ m ih =>
    obtain ⟨cp, index, nextnode⟩ := iter
    simp only at h
    subst h
    simp only [symtabNextN, symtabNext, Outcome.bind]
    rw [ih]
    rfl

theorem remaining_eq_nil {iter : Iterator} : iter.remaining = [] ↔ iter.nextnode = [] := by
  obtain ⟨cp, index, nextnode⟩ := iter
  cases nextnode <;> simp [Iterator.remaining]

theorem flatten_eq_flatMap_range (L : List (List Node)) :
    L.flatten = (List.range L.length).flatMap fun i => L.getD i [] := by
  induction L using List.reverseRecOn with
  | nil => rfl
  | append_singleton L x ih =>
    rw [List.flatten_append, List.length_append, List.length_singleton, List.range_succ,
      List.flatMap_append, List.flatMap_singleton]
    congr 1
    · rw [ih]
      apply List.flatMap_congr
      intro i hi
      have : i < L.length := List.mem_range.mp hi
      simp [List.getElem?_append_left this]
    · simp

/-- C12 (end of sequence is stable): on a table with at least one entry, the iterator that
`symtabCreateIterator` returns yields the symbols of all n entries in n calls of
`symtabNext`; it is then exhausted (its `nextnode` is NULL), and however many calls follow,
each returns NULL, leaves the location passed as `returnData` as it was and leaves the
iterator as it was, so it never restarts. -/
theorem C12_end_of_sequence_stable (c : Control) (out : Nat)
    (hs : c.backbone.length = c.length) (hne : c.entries ≠ []) :
    ∃ iter, symtabCreateIterator c = some iter ∧
      ∃ outN done,
        symtabNextN c.entries.length iter out =
          .returns (c.entries.map (fun node => some node.symbol), outN, done) ∧
        done.nextnode = [] ∧
        (∀ out', symtabNext (some done) out' = .returns (none, out', done)) ∧
        ∀ m out', symtabNextN m done out' = .returns (List.replicate m none, out', done) := by
  obtain ⟨iter, hc, hcp, hrem⟩ := (symtabCreateIterator_spec hs).2 hne
  obtain ⟨outN, done, h1, h2, h3⟩ :=
    symtabNextN_spec c.entries.length iter out (by rw [hcp]; exact hs) (by rw [hrem])
  rw [hrem] at h1 h3
  rw [List.take_length] at h1
  rw [List.drop_length] at h3
  have hd : done.nextnode = [] := remaining_eq_nil.mp h3
  refine ⟨iter, hc, outN, done, h1, hd, fun out' => ?_,
    fun m out' => symtabNextN_exhausted m done out' hd⟩
  obtain ⟨cp, index, nextnode⟩ := done
  simp only at hd
  subst hd
  rfl

theorem C12_end_of_sequence_stable_witness :
    coloursTable.backbone.length = coloursTable.length ∧ coloursTable.entries ≠ [] ∧
    ∃ iter, symtabCreateIterator coloursTable = some iter ∧
      ∃ outN done,
        symtabNextN coloursTable.entries.length iter 7 =
          .returns (coloursTable.entries.map (fun node => some node.symbol), outN, done) ∧
        done.nextnode = [] ∧
        (∀ out', symtabNext (some done) out' = .returns (none, out', done)) ∧
        ∀ m out', symtabNextN m done out' = .returns (List.replicate m none, out', done) :=
  ⟨by decide, by decide, C12_end_of_sequence_stable coloursTable 7 (by decide) (by decide)⟩

/-- C13 (iteration order): on a table with at least one entry the iterator starts at the
head of the first bucket that is not empty (every bucket with a smaller index is empty);
draining it yields the chain of bucket 0 from head to tail, then that of bucket 1, and so
on to bucket length-1; and no call of `symtabNext`, on any iterator, lowers the bucket
index of the iterator. -/
theorem C13_iteration_order (c : Control) (out : Nat)
    (hs : c.backbone.length = c.length) (hne : c.entries ≠ []) :
    ∃ iter, symtabCreateIterator c = some iter ∧
      iter.nextnode ≠ [] ∧ c.backbone.getD iter.index [] = iter.nextnode ∧
      (∀ k, k < iter.index → c.backbone.getD k [] = []) ∧
      (∀ fuel, c.entries.length < fuel →
        drain fuel (some iter) out = .returns (some
          (((List.range c.length).flatMap fun i => c.backbone.getD i []).map Node.pair))) ∧
      ∀ (it it' : Iterator) (o o' : Nat) (p : Option Symbol),
        symtabNext (some it) o = .returns (p, o', it') → it.index ≤ it'.index := by
  obtain ⟨iter, hc, hcp, hrem⟩ := (symtabCreateIterator_spec hs).2 hne
  have hfb : firstBucket c.backbone c.length 0 = some (iter.index, iter.nextnode) := by
    unfold symtabCreateIterator at hc
    dsimp only at hc
    cases hf : firstBucket c.backbone c.length 0 with
    | none => rw [hf] at hc; cases hc
    | some q =>
      rw [hf] at hc
      simp only [Option.some.injEq] at hc
      rw [← hc]
  obtain ⟨_, h2, h3⟩ := firstBucket_least c.backbone _ _ _ _ hfb
  obtain ⟨hn, _⟩ := firstBucket_some c.backbone _ _ _ _ hfb
  refine ⟨iter, hc, hn, h2, fun k hk => h3 k (Nat.zero_le _) hk, fun fuel hf => ?_,
    fun it it' o o' p h => symtabNext_index_le h⟩
  rw [drain_spec fuel iter out (by rw [hcp]; exact hs) (by rw [hrem]; exact hf), hrem,
    Control.entries, flatten_eq_flatMap_range, hs]

theorem C13_iteration_order_witness :
    coloursTable.backbone.length = coloursTable.length ∧ coloursTable.entries ≠ [] ∧
    ∃ iter, symtabCreateIterator coloursTable = some iter ∧
      iter.nextnode ≠ [] ∧ coloursTable.backbone.getD iter.index [] = iter.nextnode ∧
      (∀ k, k < iter.index → coloursTable.backbone.getD k [] = []) ∧
      (∀ fuel, coloursTable.entries.length < fuel →
        drain fuel (some iter) 0 = .returns (some
          (((List.range coloursTable.length).flatMap
            fun i => coloursTable.backbone.getD i []).map Node.pair))) ∧
      ∀ (it it' : Iterator) (o o' : Nat) (p : Option Symbol),
        symtabNext (some it) o = .returns (p, o', it') → it.index ≤ it'.index :=
  ⟨by decide, by decide, C13_iteration_order coloursTable 0 (by decide) (by decide)⟩

/-! ## C11: iterating an empty table -/

theorem symtabCreateIterator_fresh (raw : Control) (sizeHint : Nat) (concurrencySupport : Int) :
    symtabCreateIterator (symtabCreate raw sizeHint concurrencySupport) = none := by
  apply (symtabCreateIterator_spec (WF_symtabCreate raw sizeHint concurrencySupport).1).1
  simp [Control.entries, symtabCreate_backbone]

/-- C11, the code on the empty table: the words cat and dog are dropped by the tokenizer, so
`processFile` leaves the fresh table as it is; on it `symtabCreateIterator` returns NULL
although no allocation failed, `symtabNext` on that handle dereferences NULL, and the
counting loop of uniqueCount.c faults at its first call instead of reporting 0. -/
theorem C11_empty_table_iterator_is_null (raw : Control) (sizeHint : Nat)
    (concurrencySupport : Int) (out fuel : Nat) :
    getWords 8 (bytes "cat dog") = some [] ∧
    UniqueCount.processFile (symtabCreate raw sizeHint concurrencySupport) [] =
      .returns (symtabCreate raw sizeHint concurrencySupport) ∧
    symtabCreateIterator (symtabCreate raw sizeHint concurrencySupport) = none ∧
    symtabNext (symtabCreateIterator (symtabCreate raw sizeHint concurrencySupport)) out =
      .faults ∧
    UniqueCount.mainCount (fuel + 1) (symtabCreate raw sizeHint concurrencySupport) out =
      .faults := by
  refine ⟨by decide, rfl, symtabCreateIterator_fresh _ _ _, ?_, ?_⟩
  · rw [symtabCreateIterator_fresh]; rfl
  · simp only [UniqueCount.mainCount, symtabCreateIterator_fresh]; rfl

/-! ## C16: the tokenizer -/

theorem getWord_nil (fuel : Nat) : getWord (fuel + 1) [] = some (none, []) := rfl

theorem initGroups_granted (raw : Control) (fuel i : Nat) (inner : List InnerStruct) :
    initGroups (allGranted raw) fuel i inner =
      .returns (inner ++ List.replicate fuel
        { readers := 0, writers := 0, waitingReaders := 0, waitingWriters := 0 }) := by
  induction fuel generalizing i inner with
  | zero => simp [initGroups]
  | succ k ih =>
    simp only [initGroups, allGranted, Bool.true_eq_false, if_false]
    have := ih (i + 1) (inner ++ [{ readers := 0, writers := 0, waitingReaders := 0, waitingWriters := 0 }])
    simp only [allGranted] at this
    rw [this, List.append_assoc]
    rfl

/-- When every allocation succeeds `symtabCreateMalloc` returns the table `symtabCreate`
builds. -/
theorem symtabCreateMalloc_granted (raw : Control) (sizeHint : Nat) (concurrencySupport : Int) :
    symtabCreateMalloc (allGranted raw) sizeHint concurrencySupport =
      .returns (some (symtabCreate raw sizeHint concurrencySupport)) := by
  unfold symtabCreateMalloc symtabCreate
  have hg := initGroups_granted raw MUTEX_NUM 0 []
  simp only [allGranted] at hg
  simp only [allGranted, hg]
  split_ifs <;> simp_all [Outcome.bind, SYMTAB_SINGLE_LOCK, SYMTAB_LOCK_BUCKET_GROUPS,
    SYMTAB_ALLOW_CONCURRENT_READS, SYMTAB_USE_THIN_LOCKS]

theorem flatten_set_replicate {α : Type} (x : List α) :
    ∀ (n i : Nat), i < n → ((List.replicate n ([] : List α)).set i x).flatten = x := by
  intro n
  induction n with
  | zero => intro i hi; omega
  | succ k ih =>
    intro i hi
    cases i with
    | zero => simp [List.replicate_succ]
    | succ j =>
      simp only [List.replicate_succ, List.set_cons_succ, List.flatten_cons, List.nil_append]
      exact ih j (by omega)

theorem initGroups_of_granted (heap : Mallocs) (hi : heap.inner = true)
    (his : ∀ i, heap.is i = true) (fuel i : Nat) (inner : List InnerStruct) :
    initGroups heap fuel i inner =
      .returns (inner ++ List.replicate fuel
        { readers := 0, writers := 0, waitingReaders := 0, waitingWriters := 0 }) := by
  induction fuel generalizing i inner with
  | zero => simp [initGroups]
  | succ k ih =>
    simp only [initGroups, hi, his, Bool.true_eq_false, if_false]
    rw [ih, List.append_assoc]
    rfl

/-- C19: for every bucket count n > 0 and every mode value, `symtabCreate` (all allocations
succeeding) returns a table of length n with n empty buckets, the requested mode stored and
the coordinator of that mode idle: mutexes free, the 16 records of counters all zero, the
16 thin-lock flags 0.  On that table `symtabLookup` reports NULL for every key and
`symtabUpdate` of any key with a callback that does not reject installs the key as the only
entry. -/
theorem C19_construction (raw : Control) (n : Nat) (hn : 0 < n) (mode : Int) :
    symtabCreateMalloc (allGranted raw) n mode = .returns (some (symtabCreate raw n mode)) ∧
    (symtabCreate raw n mode).length = n ∧
    (symtabCreate raw n mode).backbone = List.replicate n [] ∧
    (symtabCreate raw n mode).concurrencySupport = mode ∧
    (symtabCreate raw n mode).idle ∧
    (mode = SYMTAB_SINGLE_LOCK → (symtabCreate raw n mode).smu = false) ∧
    (mode = SYMTAB_LOCK_BUCKET_GROUPS ∨ mode = SYMTAB_ALLOW_CONCURRENT_READS →
      (symtabCreate raw n mode).mu = List.replicate 16 false ∧
      (symtabCreate raw n mode).inner = List.replicate 16
        { readers := 0, writers := 0, waitingReaders := 0, waitingWriters := 0 }) ∧
    (mode = SYMTAB_USE_THIN_LOCKS → (symtabCreate raw n mode).thins = List.replicate 16 0) ∧
    (∀ symbol, symtabLookup (symtabCreate raw n mode) symbol =
      .returns (NULL, symtabCreate raw n mode)) ∧
    (∀ symbol func, func NULL ≠ NULL →
      ∃ c, symtabUpdate (symtabCreate raw n mode) symbol func = .returns (1, c) ∧
        lookup symbol c = some { symbol := symbol, data := func NULL } ∧
        c.entries = [{ symbol := symbol, data := func NULL }]) := by
  have hl := symtabCreate_length raw n mode
  have hb := symtabCreate_backbone raw n mode
  have hi := symtabCreate_idle raw n mode
  refine ⟨symtabCreateMalloc_granted raw n mode, hl, hb, symtabCreate_mode raw n mode, hi,
    ?_, ?_, ?_, ?_, ?_⟩
  · intro e
    subst e
    simp [symtabCreate, SYMTAB_SINGLE_LOCK, SYMTAB_LOCK_BUCKET_GROUPS,
      SYMTAB_ALLOW_CONCURRENT_READS, SYMTAB_USE_THIN_LOCKS]
  · intro e
    rcases e with e | e <;> subst e <;>
      simp [symtabCreate, SYMTAB_SINGLE_LOCK, SYMTAB_LOCK_BUCKET_GROUPS,
        SYMTAB_ALLOW_CONCURRENT_READS, SYMTAB_USE_THIN_LOCKS, MUTEX_NUM]
  · intro e
    subst e
    simp [symtabCreate, SYMTAB_SINGLE_LOCK, SYMTAB_LOCK_BUCKET_GROUPS,
      SYMTAB_ALLOW_CONCURRENT_READS, SYMTAB_USE_THIN_LOCKS, MUTEX_NUM]
  · intro symbol
    have := @symtabLookup_of_readFree _ symbol (by rw [hl]; exact hn)
      (readFree_of_writeFree (hi _))
    rw [this, symtabCreate_lookup]
    rfl
  · intro symbol func hf
    obtain ⟨r, c, H⟩ := @symtabUpdate_of_writeFree _ symbol func (by rw [hl]; exact hn)
      (hi _)
    obtain ⟨_, _, hc⟩ := symtabUpdate_returns H
    have hnone := symtabCreate_lookup raw n mode symbol
    rcases hc with ⟨looked, hlk, _, _⟩ | ⟨_, h0, _, _⟩ | ⟨_, _, hr, hc⟩
    · rw [hnone] at hlk
      cases hlk
    · exact absurd h0 hf
    · subst hr
      refine ⟨c, H, ?_, ?_⟩
      · have := lookup_symtabUpdate_self (by rw [hb, hl]; simp) H
        rw [this, hnone]
        rfl
      · rw [hc]
        unfold Control.entries
        simp only [hb, hl]
        have hg : (List.replicate n ([] : List Node)).getD (hash symbol % n) [] = [] := by
          simp [getD_replicate]
        rw [hg]
        exact flatten_set_replicate _ n _ (Nat.mod_lt _ hn)

theorem C19_construction_witness :
    0 < 4 ∧ (symtabCreate rawBlock 4 SYMTAB_ALLOW_CONCURRENT_READS).length = 4 ∧
      (symtabCreate rawBlock 4 SYMTAB_ALLOW_CONCURRENT_READS).backbone = [[], [], [], []] :=
  ⟨by decide, (C19_construction rawBlock 4 (by decide) SYMTAB_ALLOW_CONCURRENT_READS).2.1,
    (C19_construction rawBlock 4 (by decide) SYMTAB_ALLOW_CONCURRENT_READS).2.2.1⟩

/-- C20: a failed allocation in `symtabCreate` is not reported by a returned NULL.  When the
control block is not allocated the process exits; when the backbone is not allocated and
the table has a bucket, the initialisation loop writes through the NULL array before the
test at line 201; when a record of counters or the array `inner` is not allocated in the
modes that use them, the loop at 151-181 writes through NULL; and when the array `inner`
is not allocated in another mode the table is returned all the same. -/
theorem C20_allocation_failure_not_reported (raw : Control) (n : Nat) (mode : Int)
    (backbone inner : Bool) (is : Nat → Bool) :
    symtabCreateMalloc (Mallocs.mk none backbone inner is) n mode = .exits ∧
    symtabCreateMalloc (Mallocs.mk (some raw) false true fun _ => true) (n + 1) mode = .faults ∧
    symtabCreateMalloc (Mallocs.mk (some raw) true false fun _ => true) n
      SYMTAB_ALLOW_CONCURRENT_READS = .faults ∧
    symtabCreateMalloc (Mallocs.mk (some raw) true true fun _ => false) n
      SYMTAB_LOCK_BUCKET_GROUPS = .faults ∧
    (∃ c, symtabCreateMalloc (Mallocs.mk (some raw) true false is) n SYMTAB_NO_LOCKING =
      .returns (some c) ∧ c.inner = []) ∧
    symtabCreateMalloc (Mallocs.mk none true true fun _ => true) 4 SYMTAB_NO_LOCKING ≠
      .returns none := by
  refine ⟨rfl, ?_, ?_, ?_, ?_, by decide⟩
  · have hg := initGroups_of_granted (Mallocs.mk (some raw) false true fun _ => true) rfl
      (fun _ => rfl) MUTEX_NUM 0 []
    unfold symtabCreateMalloc
    simp only [hg]
    split_ifs <;> simp_all [Outcome.bind, SYMTAB_SINGLE_LOCK, SYMTAB_LOCK_BUCKET_GROUPS,
      SYMTAB_ALLOW_CONCURRENT_READS, SYMTAB_USE_THIN_LOCKS]
  · simp [symtabCreateMalloc, initGroups, MUTEX_NUM, Outcome.bind, SYMTAB_SINGLE_LOCK,
      SYMTAB_LOCK_BUCKET_GROUPS, SYMTAB_ALLOW_CONCURRENT_READS]
  · simp [symtabCreateMalloc, initGroups, MUTEX_NUM, Outcome.bind, SYMTAB_SINGLE_LOCK,
      SYMTAB_LOCK_BUCKET_GROUPS, SYMTAB_ALLOW_CONCURRENT_READS]
  · refine ⟨{ raw with
        length := n
        backbone := List.replicate n []
        concurrencySupport := SYMTAB_NO_LOCKING
        inner := [] }, ?_, rfl⟩
    simp [symtabCreateMalloc, Outcome.bind, SYMTAB_SINGLE_LOCK,
      SYMTAB_LOCK_BUCKET_GROUPS, SYMTAB_ALLOW_CONCURRENT_READS, SYMTAB_NO_LOCKING,
      SYMTAB_USE_THIN_LOCKS]

/-! ## C18: the digest -/

theorem hashLoop_eq_referenceLoop (key : Symbol) :
    ∀ h, hashLoop h key = referenceLoop h (key.map toUnsigned) := by
  induction key with
  | nil => intro h; rfl
  | cons c str ih =>
    intro h
    simp only [hashLoop, List.map_cons, referenceLoop, toUnsigned]
    exact ih _

theorem hashLoop_lt (key : Symbol) : ∀ h, h < 4294967296 → hashLoop h key < 4294967296 := by
  induction key with
  | nil => intro h hh; exact hh
  | cons c str ih =>
    intro h _
    simp only [hashLoop]
    exact ih _ (Nat.mod_lt _ (by norm_num))

theorem xor_shiftRight_lt (h k : Nat) (hh : h < 4294967296) :
    h ^^^ (h >>> k) < 4294967296 := by
  have h2 : h >>> k < 2 ^ 32 := by
    rw [Nat.shiftRight_eq_div_pow]
    exact lt_of_le_of_lt (Nat.div_le_self _ _) hh
  exact Nat.xor_lt_two_pow (n := 32) hh h2

/-- The function `hash` is the reference digest of the `char` values converted to
`unsigned int`. -/
theorem hash_eq_referenceHash (key : Symbol) :
    hash key = referenceHash (key.map toUnsigned) := by
  unfold hash referenceHash
  simp only [← hashLoop_eq_referenceLoop, Nat.add_mod_mod]
  have m : ∀ a : Nat, a % 4294967296 < 4294967296 := fun a => Nat.mod_lt _ (by norm_num)
  rw [Nat.mod_eq_of_lt (xor_shiftRight_lt _ 7 (m _)),
    Nat.mod_eq_of_lt (xor_shiftRight_lt _ 17 (m _))]

theorem toUnsigned_eq_byteOf (c : Int) (h0 : 0 ≤ c) (h1 : c < 256) : toUnsigned c = byteOf c := by
  unfold toUnsigned byteOf
  rw [Int.emod_eq_of_lt h0 (by omega), Int.emod_eq_of_lt h0 h1]

/-- C18 fails for the one-character key whose `char` value is -23 (the byte 233 where
`char` is signed): `hash` differs from the reference digest of that byte. -/
theorem C18_counterexample :
    hash [-23] ≠ referenceHash [byteOf (-23)] ∧ byteOf (-23) = 233 := by
  decide

/-- C18, amended: `hash` is the 32-bit reference digest (accumulation from 2166136261 with
the prime 16777619, then the five mixing steps) of the `char` values of the key converted
to `unsigned int`; for a key whose `char` values are not negative these are the bytes of
the key.  The digest modulo a positive length is below that length, and in every reachable
table each node sits in the bucket `hash(symbol) % length`, the bucket in which `lookup`
searches for its symbol. -/
theorem C18_hash_reference (key : Symbol) (hkey : ∀ ch ∈ key, 0 ≤ ch ∧ ch < 256)
    (c : Control) (hc : Reachable c) :
    hash key = referenceHash (key.map byteOf) ∧
    (∀ other : Symbol, hash other = referenceHash (other.map toUnsigned)) ∧
    hash key < 4294967296 ∧
    (∀ length, 0 < length → hash key % length < length) ∧
    (∀ i chain, c.backbone[i]? = some chain → ∀ node ∈ chain, hash node.symbol % c.length = i) ∧
    (∀ node ∈ c.entries, lookup node.symbol c = some node ∧
      node ∈ c.backbone.getD (hash node.symbol % c.length) []) := by
  have hwf := WF_of_reachable hc
  refine ⟨?_, hash_eq_referenceHash, ?_, fun length h => Nat.mod_lt _ h,
    fun i chain hi => (hwf.2 i chain hi).1, ?_⟩
  · rw [hash_eq_referenceHash]
    congr 1
    apply List.map_congr_left
    intro ch hch
    exact toUnsigned_eq_byteOf ch (hkey ch hch).1 (hkey ch hch).2
  · unfold hash
    exact Nat.mod_lt _ (by norm_num)
  · intro node hm
    have hl := lookup_of_mem_entries hwf hm
    exact ⟨hl, (lookupChain_some hl).1⟩

theorem C18_hash_reference_witness :
    (∀ ch ∈ cstr "yellow", 0 ≤ ch ∧ ch < 256) ∧ Reachable yellowTable ∧
    hash (cstr "yellow") = referenceHash (bytes "yellow") ∧ hash (cstr "yellow") % 4 = 3 :=
  ⟨by decide, reachable_yellowTable,
    (C18_hash_reference (cstr "yellow") (by decide) yellowTable reachable_yellowTable).1.trans
      (by decide), by decide⟩

/-! ## C14: the reader/writer monitor -/

theorem Inv_init : Monitor.init.Inv := by
  simp [Monitor.Inv, Monitor.init]

theorem Inv_readerTest {s : Monitor} (h : s.Inv) : (readerTest s).Inv := by
  unfold Monitor.Inv at *
  unfold readerTest
  split_ifs with c
  · simp only [Nat.cast_add, Nat.cast_one]
    omega
  · simp only [Nat.cast_add, Nat.cast_one]
    omega

theorem Inv_writerTest {s : Monitor} (h : s.Inv) : (writerTest s).Inv := by
  unfold Monitor.Inv at *
  unfold writerTest
  split_ifs with c
  · simp only [Nat.cast_add, Nat.cast_one]
    omega
  · simp only [Nat.cast_add, Nat.cast_one]
    omega

theorem Inv_step {s t : Monitor} {a : Action} (h : s.Inv) (H : step s a = some t) : t.Inv := by
  cases a <;> simp only [step] at H
  · cases H
    exact Inv_readerTest h
  · split_ifs at H with c
    cases H
    apply Inv_readerTest
    unfold Monitor.Inv at *
    simp only
    omega
  · split_ifs at H with c
    cases H
    unfold Monitor.Inv at *
    simp only
    omega
  · cases H
    exact Inv_writerTest h
  · split_ifs at H with c
    cases H
    apply Inv_writerTest
    unfold Monitor.Inv at *
    simp only
    omega
  · split_ifs at H with c
    cases H
    unfold Monitor.Inv at *
    simp only
    omega
  · split_ifs at H with c
    cases H
    unfold Monitor.Inv at *
    simp only
    omega

theorem Inv_run (trace : List Action) :
    ∀ {s t : Monitor}, s.Inv → run s trace = some t → t.Inv := by
  induction trace with
  | nil =>
    intro s t h H
    simp only [run, Option.some.injEq] at H
    exact H ▸ h
  | cons a rest ih =>
    intro s t h H
    simp only [run] at H
    cases hs : step s a with
    | none => rw [hs] at H; cases H
    | some u =>
      rw [hs] at H
      exact ih (Inv_step h hs) H

/-- On a fresh table in SYMTAB_ALLOW_CONCURRENT_READS mode the entry code of `symtabLookup`
and of `symtabUpdate` leave in `inner[g]` the counters that the steps `acquireRead` and
`acquireWrite` of the monitor give. -/
theorem monitor_of_acquire (raw : Control) (n h : Nat) :
    (∃ c, lookupAcquire (symtabCreate raw n SYMTAB_ALLOW_CONCURRENT_READS) h = .returns c ∧
      some (c.innerAt (h % MUTEX_NUM)) = (step Monitor.init .acquireRead).map Monitor.inner) ∧
    (∃ c, updateAcquire (symtabCreate raw n SYMTAB_ALLOW_CONCURRENT_READS) h = .returns c ∧
      some (c.innerAt (h % MUTEX_NUM)) = (step Monitor.init .acquireWrite).map Monitor.inner) := by
  have hlt : h % MUTEX_NUM < MUTEX_NUM := Nat.mod_lt _ (by decide)
  constructor
  · simp [lookupAcquire, symtabCreate, SYMTAB_SINGLE_LOCK, SYMTAB_LOCK_BUCKET_GROUPS,
      SYMTAB_USE_THIN_LOCKS, SYMTAB_ALLOW_CONCURRENT_READS, pthread_mutex_lock,
      pthread_mutex_unlock, Outcome.bind, Control.innerAt, getD_replicate, step,
      readerTest, Monitor.init, hlt]
  · simp [updateAcquire, symtabCreate, SYMTAB_SINGLE_LOCK, SYMTAB_LOCK_BUCKET_GROUPS,
      SYMTAB_USE_THIN_LOCKS, SYMTAB_ALLOW_CONCURRENT_READS, pthread_mutex_lock,
      pthread_mutex_unlock, Outcome.bind, Control.innerAt, getD_replicate, step,
      writerTest, Monitor.init, hlt]

/-- C14: in every state of one group's reader/writer monitor that is reachable from the
all-zero state by the steps coded in SYMTAB_ALLOW_CONCURRENT_READS mode (acquire-read
passes only when writers is 0, acquire-write only when readers and writers are 0, a release
is run by a thread that acquired, waiting and waking included, and also the return of a
rejected install, which skips the release), writers is at most 1, readers is not negative,
and readers and writers are never positive together; the same holds for the threads
really reading and writing. -/
theorem C14_reader_writer_exclusion (trace : List Action) (s : Monitor)
    (h : run Monitor.init trace = some s) :
    s.inner.writers ≤ 1 ∧ 0 ≤ s.inner.readers ∧
    ¬ (s.inner.readers > 0 ∧ s.inner.writers > 0) ∧
    0 ≤ s.inner.writers ∧ s.inner.readers = s.reading ∧ (s.writing : Int) ≤ s.inner.writers ∧
    s.writing ≤ 1 ∧ ¬ (0 < s.reading ∧ 0 < s.writing) ∧
    s.inner.waitingReaders = s.readersAsleep ∧ s.inner.waitingWriters = s.writersAsleep := by
  have hi := Inv_run trace Inv_init h
  unfold Monitor.Inv at hi
  omega

theorem C14_reader_writer_exclusion_witness :
    run Monitor.init readersThenWriter = some oneReader ∧ oneReader.inner.writers ≤ 1 ∧
      0 ≤ oneReader.inner.readers :=
  ⟨by decide, (C14_reader_writer_exclusion readersThenWriter oneReader (by decide)).1,
    (C14_reader_writer_exclusion readersThenWriter oneReader (by decide)).2.1⟩

/-! ## C15: counting the distinct words -/

theorem processFile_seen (words : List Symbol) :
    ∀ (c : Control) (seen : List Symbol), c.WF → 0 < c.length → c.idle → Seen c seen →
      ∃ c', UniqueCount.processFile c words = .returns c' ∧ c'.WF ∧ 0 < c'.length ∧ c'.idle ∧
        Seen c' (seen ++ words) := by
  induction words with
  | nil =>
    intro c seen hw h0 hi hc
    exact ⟨c, rfl, hw, h0, hi, by simpa using hc⟩
  | cons word rest ih =>
    intro c seen hw h0 hi hc
    have hl := @symtabLookup_of_readFree _ word h0 (readFree_of_writeFree (hi _))
    simp only [UniqueCount.processFile, hl, Outcome.bind]
    by_cases hmem : word ∈ seen
    · have hlk : lookup word c = some { symbol := word, data := 1 } := by
        rw [hc word, if_pos hmem]
      rw [hlk]
      simp only [nodeData, NULL, one_ne_zero, if_false]
      have hc2 : Seen c (seen ++ [word]) := by
        intro w
        rw [hc w]
        have : w ∈ seen ++ [word] ↔ w ∈ seen := by
          simp only [List.mem_append, List.mem_singleton]
          constructor
          · rintro (h | h)
            · exact h
            · exact h ▸ hmem
          · exact Or.inl
        simp only [this]
      obtain ⟨c', h1, h2⟩ := ih c (seen ++ [word]) hw h0 hi hc2
      refine ⟨c', h1, ?_⟩
      simpa using h2
    · have hlk : lookup word c = none := by rw [hc word, if_neg hmem]
      rw [hlk]
      simp only [nodeData, if_true]
      obtain ⟨r, c1, hu⟩ := @symtabUpdate_of_writeFree _ word
        UniqueCount.updateCallback h0 (hi _)
      have hr : r = 1 := by
        obtain ⟨_, _, hcase⟩ := symtabUpdate_returns hu
        rcases hcase with ⟨looked, hl2, _, _⟩ | ⟨_, hrej, _, _⟩ | ⟨_, _, hr, _⟩
        · rw [hlk] at hl2; cases hl2
        · simp [UniqueCount.updateCallback, NULL] at hrej
        · exact hr
      subst hr
      rw [hu]
      simp only [one_ne_zero, if_false]
      have hw1 := WF_symtabUpdate hw hu
      have hi1 := idle_of_symtabUpdate_one hi hu
      obtain ⟨B, hB⟩ := symtabUpdate_one hu
      have h01 : 0 < c1.length := by rw [hB]; exact h0
      have hc1 : Seen c1 (seen ++ [word]) := by
        intro w
        by_cases e : w = word
        · subst e
          rw [lookup_symtabUpdate_self hw.1 hu]
          simp [UniqueCount.updateCallback]
        · rw [lookup_symtabUpdate_other hu e, hc w]
          simp [e]
      obtain ⟨c', h1, h2⟩ := ih c1 (seen ++ [word]) hw1 h01 hi1 hc1
      refine ⟨c', h1, ?_⟩
      simpa using h2

theorem entries_length_of_seen {c : Control} {seen : List Symbol} (hw : c.WF) (hc : Seen c seen) :
    c.entries.length = seen.dedup.length := by
  have hnd := WF_entries_nodup hw
  have hp : (c.entries.map Node.symbol).Perm seen.dedup := by
    rw [List.perm_ext_iff_of_nodup hnd (List.nodup_dedup _)]
    intro w
    rw [List.mem_dedup]
    constructor
    · intro hm
      obtain ⟨node, hn, rfl⟩ := List.mem_map.mp hm
      have := lookup_of_mem_entries hw hn
      rw [hc node.symbol] at this
      by_contra hcon
      rw [if_neg hcon] at this
      cases this
    · intro hm
      have := hc w
      rw [if_pos hm] at this
      exact List.mem_map.mpr ⟨_, mem_entries_of_lookup this, rfl⟩
  have := hp.length_eq
  simpa using this

theorem countLoop_spec (fuel : Nat) :
    ∀ (iter : Iterator) (out : Nat) (count : Int),
      iter.controlpointer.backbone.length = iter.controlpointer.length →
      iter.remaining.length < fuel → 0 ≤ count →
      count + iter.remaining.length ≤ 2147483647 →
      UniqueCount.countLoop fuel (some iter) out count =
        .returns (some (count + iter.remaining.length)) := by
  induction fuel with
  | zero => intro iter out count _ h; omega
  | succ fuel ih =>
    intro iter out count hs h h0 hmax
    obtain ⟨h1, h2⟩ := symtabNext_spec iter out hs
    cases hr : iter.remaining with
    | nil =>
      simp [UniqueCount.countLoop, h1 hr, Outcome.bind]
    | cons node rest =>
      obtain ⟨iter', hn, hcp, hrem⟩ := h2 node rest hr
      rw [hr] at h hmax
      simp only [List.length_cons, Nat.cast_add, Nat.cast_one] at h hmax
      have := ih iter' node.data (count + 1) (by rw [hcp]; exact hs) (by rw [hrem]; omega)
        (by omega) (by rw [hrem]; omega)
      simp only [UniqueCount.countLoop, hn, Outcome.bind, this, hrem, List.length_cons,
        Nat.cast_add, Nat.cast_one]
      rw [if_neg (by omega)]
      congr 2
      omega

/-- C15 (as amended): for every non-empty list of words (with at most 2^31 - 1 distinct
words, what an `int` can count) that `processFile` of uniqueCount.c runs single-threaded on
a freshly created table with at least one bucket, in any mode, the protocol returns, and the counting loop of `main`
over one iterator then ends with the number of distinct words of the list; the list
yellow, yellow, orange, purple, orange, yellow has 3 distinct words. -/
theorem C15_unique_count (raw : Control) (n : Nat) (hn : 0 < n) (mode : Int)
    (words : List Symbol) (hne : words ≠ []) (hmax : words.dedup.length ≤ 2147483647)
    (out fuel : Nat) (hf : words.dedup.length < fuel) :
    (∃ c, UniqueCount.processFile (symtabCreate raw n mode) words = .returns c ∧
      UniqueCount.mainCount fuel c out = .returns (some (words.dedup.length : Int))) ∧
    colours = [cstr "yellow", cstr "yellow", cstr "orange", cstr "purple", cstr "orange",
      cstr "yellow"] ∧
    colours.dedup.length = 3 := by
  refine ⟨?_, by decide, by decide⟩
  have hseen : Seen (symtabCreate raw n mode) [] := by
    intro w
    rw [symtabCreate_lookup]
    simp
  obtain ⟨c, hp, hw, h0, _, hc⟩ := processFile_seen words _ [] (WF_symtabCreate raw n mode)
    (by rw [symtabCreate_length]; exact hn) (symtabCreate_idle raw n mode) hseen
  rw [List.nil_append] at hc
  have hlen := entries_length_of_seen hw hc
  have hpos : 0 < words.dedup.length := by
    apply List.length_pos.mpr
    intro h
    exact hne ((List.dedup_eq_nil words).mp h)
  have hent : c.entries ≠ [] := by
    intro h
    rw [h] at hlen
    simp at hlen
    omega
  obtain ⟨iter, hit, hcp, hrem⟩ := (symtabCreateIterator_spec hw.1).2 hent
  refine ⟨c, hp, ?_⟩
  have := countLoop_spec fuel iter out 0 (by rw [hcp]; exact hw.1) (by rw [hrem, hlen]; exact hf)
    (le_refl _) (by rw [hrem, hlen]; omega)
  simp only [UniqueCount.mainCount, hit, this, hrem, hlen, zero_add]

theorem C15_unique_count_witness :
    0 < 4 ∧ colours ≠ [] ∧ colours.dedup.length ≤ 2147483647 ∧ colours.dedup.length < 4 ∧
    ∃ c, UniqueCount.processFile (symtabCreate rawBlock 4 SYMTAB_ALLOW_CONCURRENT_READS) colours
        = .returns c ∧
      UniqueCount.mainCount 4 c 7 = .returns (some (colours.dedup.length : Int)) :=
  ⟨by decide, by decide, by decide, by decide,
    (C15_unique_count rawBlock 4 (by decide) SYMTAB_ALLOW_CONCURRENT_READS colours (by decide)
      (by decide) 7 4 (by decide)).1⟩

/-! ## C17: the top list -/

theorem call_returns {c c' : Control} {x : Call} {r : Returned}
    (H : call c x = .returns (r, c')) :
    (∃ symbol func r0, x = .update symbol func ∧
      symtabUpdate c symbol func = .returns (r0, c') ∧ r = .int r0) ∨
    (∃ symbol v, x = .lookup symbol ∧ symtabLookup c symbol = .returns (v, c') ∧
      r = .pointer v) := by
  cases x with
  | update symbol func =>
    left
    simp only [call] at H
    cases hu : symtabUpdate c symbol func with
    | returns rc =>
      rw [hu] at H
      simp only [Outcome.bind, Outcome.returns.injEq, Prod.mk.injEq] at H
      exact ⟨symbol, func, rc.1, rfl, by rw [← H.2]; exact hu, H.1.symm⟩
    | blocks => rw [hu] at H; simp [Outcome.bind] at H
    | faults => rw [hu] at H; simp [Outcome.bind] at H
    | exits => rw [hu] at H; simp [Outcome.bind] at H
  | lookup symbol =>
    right
    simp only [call] at H
    cases hu : symtabLookup c symbol with
    | returns rc =>
      rw [hu] at H
      simp only [Outcome.bind, Outcome.returns.injEq, Prod.mk.injEq] at H
      exact ⟨symbol, rc.1, rfl, by rw [← H.2]; exact hu, H.1.symm⟩
    | blocks => rw [hu] at H; simp [Outcome.bind] at H
    | faults => rw [hu] at H; simp [Outcome.bind] at H
    | exits => rw [hu] at H; simp [Outcome.bind] at H

theorem symtabUpdate_length {c c' : Control} {symbol : Symbol} {func : Nat → Nat} {r : Int}
    (H : symtabUpdate c symbol func = .returns (r, c')) : c'.length = c.length := by
  obtain ⟨_, _, hc⟩ := symtabUpdate_returns H
  rcases hc with ⟨_, _, _, rfl⟩ | ⟨_, _, _, ha⟩ | ⟨_, _, _, rfl⟩
  · rfl
  · exact (updateAcquire_returns ha).2.1
  · rfl

theorem call_reachable {c c' : Control} {x : Call} {r : Returned} (h : Reachable c)
    (H : call c x = .returns (r, c')) : Reachable c' ∧ c'.length = c.length := by
  rcases call_returns H with ⟨symbol, func, r0, _, hu, _⟩ | ⟨symbol, v, _, hl, _⟩
  · exact ⟨Reachable.update symbol func r0 h hu, symtabUpdate_length hu⟩
  · obtain ⟨_, _, rfl, _⟩ := symtabLookup_returns hl
    exact ⟨h, rfl⟩

theorem runCalls_reachable (calls : List Call) :
    ∀ {c c' : Control} {results : List Returned}, Reachable c →
      runCalls c calls = .returns (results, c') → Reachable c' ∧ c'.length = c.length := by
  induction calls with
  | nil =>
    intro c c' results h H
    simp only [runCalls, Outcome.returns.injEq, Prod.mk.injEq] at H
    rw [← H.2]
    exact ⟨h, rfl⟩
  | cons x rest ih =>
    intro c c' results h H
    simp only [runCalls] at H
    cases hx : call c x with
    | returns rc =>
      rw [hx] at H
      simp only [Outcome.bind] at H
      obtain ⟨h1, l1⟩ := @call_reachable _ rc.2 _ rc.1 h hx
      cases hr : runCalls rc.2 rest with
      | returns rs =>
        rw [hr] at H
        simp only [Outcome.returns.injEq, Prod.mk.injEq] at H
        obtain ⟨h2, l2⟩ := @ih _ rs.2 rs.1 h1 hr
        rw [← H.2]
        exact ⟨h2, l2.trans l1⟩
      | blocks => rw [hr] at H; simp at H
      | faults => rw [hr] at H; simp at H
      | exits => rw [hr] at H; simp at H
    | blocks => rw [hx] at H; simp [Outcome.bind] at H
    | faults => rw [hx] at H; simp [Outcome.bind] at H
    | exits => rw [hx] at H; simp [Outcome.bind] at H

/-- C21: in every table that a sequence of returning calls reaches from a freshly created
table of n buckets, the length is still n, the backbone has n slots, each entry in the
chain of bucket i has `hash(symbol) % n = i`, so an entry sits in no other bucket than the
one its hash selects, and `lookup` searches that bucket only and finds every entry. -/
theorem C21_bucket_placement (raw : Control) (n : Nat) (mode : Int) (calls : List Call)
    (results : List Returned) (c : Control)
    (H : runCalls (symtabCreate raw n mode) calls = .returns (results, c)) :
    c.length = n ∧ c.backbone.length = n ∧
    (∀ i chain, c.backbone[i]? = some chain → ∀ node ∈ chain, hash node.symbol % n = i) ∧
    (∀ i node, node ∈ c.backbone.getD i [] → i = hash node.symbol % n ∧ i < n) ∧
    (∀ symbol, lookup symbol c = lookupChain symbol (c.backbone.getD (hash symbol % n) [])) ∧
    (∀ node ∈ c.entries, lookup node.symbol c = some node) := by
  obtain ⟨hr, hl⟩ := runCalls_reachable calls (Reachable.create raw n mode) H
  rw [symtabCreate_length] at hl
  have hw := WF_of_reachable hr
  have hb : c.backbone.length = n := by rw [hw.1, hl]
  refine ⟨hl, hb, ?_, ?_, ?_, ?_⟩
  · intro i chain hi node hn
    rw [← hl]
    exact (hw.2 i chain hi).1 node hn
  · intro i node hn
    cases hi : c.backbone[i]? with
    | none =>
      rw [List.getD_eq_getElem?_getD, hi] at hn
      simp at hn
    | some chain =>
      rw [getD_eq_of_getElem? hi] at hn
      have h1 := (hw.2 i chain hi).1 node hn
      have h2 := (List.getElem?_eq_some.mp hi).1
      rw [hl] at h1
      exact ⟨h1.symm, by omega⟩
  · intro symbol
    rw [← hl]
    rfl
  · intro node hn
    exact lookup_of_mem_entries hw hn

theorem C21_bucket_placement_witness :
    runCalls (symtabCreate rawBlock 4 SYMTAB_LOCK_BUCKET_GROUPS) sampleCalls =
      .returns (sampleResults,
        { symtabCreate rawBlock 4 SYMTAB_LOCK_BUCKET_GROUPS with backbone := sampleBackbone }) ∧
    ∀ i chain, sampleBackbone[i]? = some chain → ∀ node ∈ chain, hash node.symbol % 4 = i :=
  ⟨by decide,
    (C21_bucket_placement rawBlock 4 SYMTAB_LOCK_BUCKET_GROUPS sampleCalls sampleResults
      { symtabCreate rawBlock 4 SYMTAB_LOCK_BUCKET_GROUPS with backbone := sampleBackbone }
      (by decide)).2.2.1⟩

/-! ## C28: the modes agree when one thread runs -/

/-- A call of `symtabUpdate` whose coordinator is free and whose callback does not answer
NULL to NULL returns 1 and changes the bucket of the symbol only. -/
theorem symtabUpdate_accept {c : Control} {symbol : Symbol} (func : Nat → Nat)
    (h0 : 0 < c.length) (hf : c.writeFree (c.group symbol)) (hacc : func NULL ≠ NULL) :
    symtabUpdate c symbol func = .returns (1,
      { c with
        backbone := c.backbone.set (hash symbol % c.length)
          (updatedChain symbol func (c.backbone.getD (hash symbol % c.length) [])) }) := by
  obtain ⟨r, c', H⟩ := @symtabUpdate_of_writeFree _ symbol func h0 hf
  obtain ⟨_, _, hc⟩ := symtabUpdate_returns H
  have hlk : lookup symbol c =
      lookupChain symbol (c.backbone.getD (hash symbol % c.length) []) := rfl
  rcases hc with ⟨looked, h1, hr, hc'⟩ | ⟨_, hrej, _, _⟩ | ⟨h1, _, hr, hc'⟩
  · rw [H, hr, hc', updatedChain, ← hlk, h1]
  · exact absurd hrej hacc
  · rw [H, hr, hc', updatedChain, ← hlk, h1]

theorem idle_with_backbone {c : Control} (hi : c.idle) (B : List (List Node)) :
    ({ c with backbone := B } : Control).idle := hi

theorem runCalls_modes (calls : List Call) :
    ∀ (c1 c2 : Control), c1.length = c2.length → 0 < c1.length → c1.backbone = c2.backbone →
      c1.idle → c2.idle →
      (∀ symbol func, Call.update symbol func ∈ calls → func NULL ≠ NULL) →
      ∃ results d1 d2, runCalls c1 calls = .returns (results, d1) ∧
        runCalls c2 calls = .returns (results, d2) ∧ d1.backbone = d2.backbone := by
  induction calls with
  | nil =>
    intro c1 c2 _ _ hb _ _ _
    exact ⟨[], c1, c2, rfl, rfl, hb⟩
  | cons x rest ih =>
    intro c1 c2 hl h0 hb hi1 hi2 hacc
    have hacc' : ∀ symbol func, Call.update symbol func ∈ rest → func NULL ≠ NULL :=
      fun symbol func hm => hacc symbol func (List.mem_cons_of_mem _ hm)
    cases x with
    | update symbol func =>
      have ha := hacc symbol func (List.mem_cons_self _ _)
      have e1 := symtabUpdate_accept func h0 (hi1 (c1.group symbol)) ha
      have e2 := symtabUpdate_accept func (by rw [← hl]; exact h0) (hi2 (c2.group symbol)) ha
      obtain ⟨rs, d1, d2, r1, r2, hd⟩ := ih
        { c1 with
          backbone := c1.backbone.set (hash symbol % c1.length)
            (updatedChain symbol func (c1.backbone.getD (hash symbol % c1.length) [])) }
        { c2 with
          backbone := c2.backbone.set (hash symbol % c2.length)
            (updatedChain symbol func (c2.backbone.getD (hash symbol % c2.length) [])) }
        hl h0 (by simp only [hl, hb]) (idle_with_backbone hi1 _) (idle_with_backbone hi2 _)
        hacc'
      refine ⟨.int 1 :: rs, d1, d2, ?_, ?_, hd⟩
      · simp only [runCalls, call, e1, Outcome.bind, r1]
      · simp only [runCalls, call, e2, Outcome.bind, r2]
    | lookup symbol =>
      have e1 := @symtabLookup_of_readFree _ symbol h0 (readFree_of_writeFree (hi1 _))
      have e2 := @symtabLookup_of_readFree _ symbol (by rw [← hl]; exact h0)
        (readFree_of_writeFree (hi2 _))
      obtain ⟨rs, d1, d2, r1, r2, hd⟩ := ih c1 c2 hl h0 hb hi1 hi2 hacc'
      refine ⟨.pointer (nodeData (lookup symbol c1)) :: rs, d1, d2, ?_, ?_, hd⟩
      · simp only [runCalls, call, e1, Outcome.bind, r1]
      · simp only [runCalls, call, e2, Outcome.bind, r2, lookup_congr hl.symm hb.symm symbol]

/-- C28: for every bucket count n > 0 and every sequence of `symtabUpdate` calls (whose
callbacks do not answer NULL to NULL) and `symtabLookup` calls made by one thread, the
sequence run on fresh tables of any two modes returns: no call blocks, every call returns
the same value in both runs, and the chains at the end are the same.  (`thinLock` on a free
flag succeeds by setting it to held.) -/
theorem C28_mode_independence (raw1 raw2 : Control) (n : Nat) (hn : 0 < n) (mode1 mode2 : Int)
    (calls : List Call)
    (hacc : ∀ symbol func, Call.update symbol func ∈ calls → func NULL ≠ NULL) :
    ∃ results d1 d2,
      runCalls (symtabCreate raw1 n mode1) calls = .returns (results, d1) ∧
      runCalls (symtabCreate raw2 n mode2) calls = .returns (results, d2) ∧
      d1.backbone = d2.backbone ∧ results.length = calls.length := by
  obtain ⟨results, d1, d2, h1, h2, hb⟩ := runCalls_modes calls
    (symtabCreate raw1 n mode1) (symtabCreate raw2 n mode2)
    (by rw [symtabCreate_length, symtabCreate_length])
    (by rw [symtabCreate_length]; exact hn)
    (by rw [symtabCreate_backbone, symtabCreate_backbone])
    (symtabCreate_idle raw1 n mode1) (symtabCreate_idle raw2 n mode2) hacc
  refine ⟨results, d1, d2, h1, h2, hb, ?_⟩
  clear h2 hb hacc
  generalize symtabCreate raw1 n mode1 = c at h1
  induction calls generalizing c results with
  | nil =>
    simp only [runCalls, Outcome.returns.injEq, Prod.mk.injEq] at h1
    rw [← h1.1]
    rfl
  | cons x rest ih =>
    simp only [runCalls] at h1
    cases hx : call c x with
    | returns rc =>
      rw [hx] at h1
      simp only [Outcome.bind] at h1
      cases hr : runCalls rc.2 rest with
      | returns rs =>
        rw [hr] at h1
        simp only [Outcome.returns.injEq, Prod.mk.injEq] at h1
        rw [← h1.1, List.length_cons, List.length_cons, ih rs.1 rc.2 (by rw [hr, ← h1.2])]
      | blocks => rw [hr] at h1; simp at h1
      | faults => rw [hr] at h1; simp at h1
      | exits => rw [hr] at h1; simp at h1
    | blocks => rw [hx] at h1; simp [Outcome.bind] at h1
    | faults => rw [hx] at h1; simp [Outcome.bind] at h1
    | exits => rw [hx] at h1; simp [Outcome.bind] at h1

theorem sampleCalls_accept :
    ∀ symbol func, Call.update symbol func ∈ sampleCalls → func NULL ≠ NULL := by
  intro symbol func hm
  simp only [sampleCalls, List.mem_cons, Call.update.injEq, List.mem_singleton, reduceCtorEq,
    List.not_mem_nil, or_false, false_or] at hm
  rcases hm with ⟨_, rfl⟩ | ⟨_, rfl⟩ | ⟨_, rfl⟩ | ⟨_, rfl⟩ <;> decide

theorem C28_mode_independence_witness :
    0 < 4 ∧ (∀ symbol func, Call.update symbol func ∈ sampleCalls → func NULL ≠ NULL) ∧
    ∃ results d1 d2,
      runCalls (symtabCreate rawBlock 4 SYMTAB_NO_LOCKING) sampleCalls =
        .returns (results, d1) ∧
      runCalls (symtabCreate rawBlock 4 SYMTAB_ALLOW_CONCURRENT_READS) sampleCalls =
        .returns (results, d2) ∧
      d1.backbone = d2.backbone ∧ results.length = sampleCalls.length :=
  ⟨by decide, sampleCalls_accept,
    C28_mode_independence rawBlock rawBlock 4 (by decide) SYMTAB_NO_LOCKING
      SYMTAB_ALLOW_CONCURRENT_READS sampleCalls sampleCalls_accept⟩

/-! ## C22, C23: what an update does to the chains -/

theorem length_flatten_set {α : Type} (x : List α) :
    ∀ (L : List (List α)) (i : Nat), i < L.length →
      (L.set i x).flatten.length + (L.getD i []).length = L.flatten.length + x.length := by
  intro L
  induction L with
  | nil => intro i hi; simp at hi
  | cons a L ih =>
    intro i hi
    cases i with
    | zero =>
      simp only [List.set_cons_zero, List.flatten_cons, List.length_append, List.getD_cons_zero]
      omega
    | succ j =>
      have := ih j (by simpa using hi)
      simp only [List.set_cons_succ, List.flatten_cons, List.length_append, List.getD_cons_succ]
      omega

theorem getD_set_self {α : Type} (L : List (List α)) (i : Nat) (x : List α) (hi : i < L.length) :
    (L.set i x).getD i [] = x := by
  simp [hi]

theorem getD_set_ne {α : Type} (L : List (List α)) {i j : Nat} (x : List α) (hij : j ≠ i) :
    (L.set i x).getD j [] = L.getD j [] := by
  simp only [List.getD_eq_getElem?_getD]
  rw [List.getElem?_set_ne (fun e => hij e.symm)]

theorem storeChain_getElem? (symbol : Symbol) (data : Nat) :
    ∀ (chain : List Node) (j : Nat) (node : Node), chain[j]? = some node →
      node.symbol ≠ symbol → (storeChain symbol data chain)[j]? = some node := by
  intro chain
  induction chain with
  | nil => intro j node h; simp at h
  | cons cur next ih =>
    intro j node h hne
    simp only [storeChain]
    split_ifs with hc
    · cases j with
      | zero =>
        simp only [List.getElem?_cons_zero, Option.some.injEq] at h
        subst h
        exact absurd hc hne
      | succ k => simpa using h
    · cases j with
      | zero => simpa using h
      | succ k =>
        simp only [List.getElem?_cons_succ] at h ⊢
        exact ih k node h hne

/-- C22: when `symtabUpdate` installs a symbol that no entry holds (the coordinator of its
group is free and the callback does not answer NULL to NULL), it returns 1, the new entry
is the head of bucket `hash(symbol) % length`, the chain behind it is the chain the bucket
held before, every other bucket is as before, and the table holds one entry more. -/
theorem C22_head_insertion (c : Control) (symbol : Symbol) (func : Nat → Nat)
    (h0 : 0 < c.length) (hs : c.backbone.length = c.length)
    (hf : c.writeFree (c.group symbol)) (hnew : symbol ∉ c.entries.map Node.symbol)
    (hacc : func NULL ≠ NULL) :
    ∃ c', symtabUpdate c symbol func = .returns (1, c') ∧
      c'.backbone.getD (hash symbol % c.length) [] =
        { symbol := symbol, data := func NULL } :: c.backbone.getD (hash symbol % c.length) [] ∧
      (∀ i, i ≠ hash symbol % c.length → c'.backbone.getD i [] = c.backbone.getD i []) ∧
      c'.backbone.length = c.backbone.length ∧ c'.length = c.length ∧
      c'.entries.length = c.entries.length + 1 := by
  have hlt : hash symbol % c.length < c.backbone.length := by
    rw [hs]; exact Nat.mod_lt _ h0
  have hnone : lookupChain symbol (c.backbone.getD (hash symbol % c.length) []) = none :=
    lookup_eq_none_of_not_mem hnew
  have H := symtabUpdate_accept func h0 hf hacc
  rw [updatedChain, hnone] at H
  refine ⟨_, H, getD_set_self _ _ _ hlt, fun i hi => getD_set_ne _ _ hi, by simp, rfl, ?_⟩
  have := length_flatten_set
    ({ symbol := symbol, data := func NULL } :: c.backbone.getD (hash symbol % c.length) [])
    c.backbone _ hlt
  simp only [Control.entries, List.length_cons] at this ⊢
  omega

theorem C22_head_insertion_witness :
    0 < coloursTable.length ∧ coloursTable.backbone.length = coloursTable.length ∧
    coloursTable.writeFree (coloursTable.group (cstr "indigo")) ∧
    cstr "indigo" ∉ coloursTable.entries.map Node.symbol ∧
    UniqueCount.updateCallback NULL ≠ NULL ∧
    ∃ c', symtabUpdate coloursTable (cstr "indigo") UniqueCount.updateCallback =
        .returns (1, c') ∧
      c'.backbone.getD (hash (cstr "indigo") % coloursTable.length) [] =
        { symbol := cstr "indigo", data := UniqueCount.updateCallback NULL } ::
          coloursTable.backbone.getD (hash (cstr "indigo") % coloursTable.length) [] ∧
      (∀ i, i ≠ hash (cstr "indigo") % coloursTable.length →
        c'.backbone.getD i [] = coloursTable.backbone.getD i []) ∧
      c'.backbone.length = coloursTable.backbone.length ∧ c'.length = coloursTable.length ∧
      c'.entries.length = coloursTable.entries.length + 1 :=
  ⟨by decide, by decide, by unfold Control.writeFree; decide, by decide, by decide,
    C22_head_insertion coloursTable (cstr "indigo") UniqueCount.updateCallback (by decide)
      (by decide) (by unfold Control.writeFree; decide) (by decide) (by decide)⟩

theorem storeChain_symbol_getElem? (symbol : Symbol) (data : Nat) (chain : List Node) (j : Nat) :
    (storeChain symbol data chain)[j]?.map Node.symbol = chain[j]?.map Node.symbol := by
  rw [← List.getElem?_map, storeChain_map_symbol, List.getElem?_map]

/-- C23: when the symbol is already installed (and the coordinator of its group is free),
`symtabUpdate` returns 1 whatever the callback answers; the number of entries, the number
of buckets and the sequence of symbols of every chain are as before, every node with
another symbol is where it was with its value, and the node found for the symbol holds the
value the callback computed from the old one. -/
theorem C23_update_existing (c : Control) (symbol : Symbol) (func : Nat → Nat) (looked : Node)
    (h0 : 0 < c.length) (hs : c.backbone.length = c.length)
    (hf : c.writeFree (c.group symbol)) (hlk : lookup symbol c = some looked) :
    ∃ c', symtabUpdate c symbol func = .returns (1, c') ∧
      c'.entries.length = c.entries.length ∧ c'.backbone.length = c.backbone.length ∧
      c'.length = c.length ∧
      c'.backbone.map (List.map Node.symbol) = c.backbone.map (List.map Node.symbol) ∧
      c'.entries.map Node.symbol = c.entries.map Node.symbol ∧
      (∀ (i j : Nat) (node : Node), (c.backbone.getD i [])[j]? = some node → node.symbol ≠ symbol →
        (c'.backbone.getD i [])[j]? = some node) ∧
      lookup symbol c' = some { symbol := symbol, data := func looked.data } := by
  obtain ⟨r, c', H⟩ := @symtabUpdate_of_writeFree _ symbol func h0 hf
  obtain ⟨_, _, hc⟩ := symtabUpdate_returns H
  have hlt : hash symbol % c.length < c.backbone.length := by
    rw [hs]; exact Nat.mod_lt _ h0
  rcases hc with ⟨looked', h1, hr, hc'⟩ | ⟨h1, _, _, _⟩ | ⟨h1, _, _, _⟩
  · rw [hlk] at h1
    cases h1
    subst hr
    have hsym : c'.backbone.map (List.map Node.symbol) = c.backbone.map (List.map Node.symbol) := by
      rw [hc']
      simp only [List.map_set, storeChain_map_symbol]
      apply set_eq_self
      intro hl
      simp only [List.getElem_map, List.getD_eq_getElem?_getD]
      rw [List.getElem?_eq_getElem (by simpa using hl)]
      rfl
    have hent : c'.entries.map Node.symbol = c.entries.map Node.symbol := by
      simp only [Control.entries, List.map_flatten, hsym]
    refine ⟨c', H, ?_, by rw [hc']; simp, by rw [hc'], hsym, hent, ?_, ?_⟩
    · have := congrArg List.length hent
      simpa using this
    · intro i j node hn hne
      rw [hc']
      by_cases e : i = hash symbol % c.length
      · subst e
        simp only
        rw [getD_set_self _ _ _ hlt]
        exact storeChain_getElem? symbol _ _ j node hn hne
      · simp only
        rw [getD_set_ne _ _ e]
        exact hn
    · have := lookup_symtabUpdate_self hs H
      rw [this, hlk]
      rfl
  · rw [hlk] at h1; cases h1
  · rw [hlk] at h1; cases h1

theorem C23_update_existing_witness :
    0 < coloursTable.length ∧ coloursTable.backbone.length = coloursTable.length ∧
    coloursTable.writeFree (coloursTable.group (cstr "yellow")) ∧
    lookup (cstr "yellow") coloursTable = some { symbol := cstr "yellow", data := 3 } ∧
    ∃ c', symtabUpdate coloursTable (cstr "yellow") MostUsed.updateCallback =
        .returns (1, c') ∧
      c'.entries.length = coloursTable.entries.length ∧
      c'.backbone.length = coloursTable.backbone.length ∧ c'.length = coloursTable.length ∧
      c'.backbone.map (List.map Node.symbol) =
        coloursTable.backbone.map (List.map Node.symbol) ∧
      c'.entries.map Node.symbol = coloursTable.entries.map Node.symbol ∧
      (∀ (i j : Nat) (node : Node), (coloursTable.backbone.getD i [])[j]? = some node →
        node.symbol ≠ cstr "yellow" → (c'.backbone.getD i [])[j]? = some node) ∧
      lookup (cstr "yellow") c' =
        some { symbol := cstr "yellow", data := MostUsed.updateCallback 3 } :=
  ⟨by decide, by decide, by unfold Control.writeFree; decide, by decide,
    C23_update_existing coloursTable (cstr "yellow") MostUsed.updateCallback
      { symbol := cstr "yellow", data := 3 } (by decide) (by decide)
      (by unfold Control.writeFree; decide) (by decide)⟩

/-! ## C24: a rejected install and the other symbols -/

theorem reachable_singleLockYellow : Reachable singleLockYellow :=
  Reachable.update (cstr "yellow") UniqueCount.updateCallback 1
    (Reachable.create rawBlock 4 SYMTAB_SINGLE_LOCK) (by decide)

/-- C24, the code at the failing input: yellow is stored with value 1 and `symtabLookup`
returns 1 for it.  After the rejected install of orange, which returns 0 and adds nothing,
`symtabLookup` of yellow never returns: under the single lock, and in reader/writer mode
where orange is in the group of yellow.  After an accepted install of orange it returns 1
as before. -/
theorem C24_rejected_update_disturbs_lookup :
    Reachable singleLockYellow ∧ Reachable yellowTable ∧
    cstr "orange" ≠ cstr "yellow" ∧ rejectAll NULL = NULL ∧
    symtabLookup singleLockYellow (cstr "yellow") = .returns (1, singleLockYellow) ∧
    symtabUpdate singleLockYellow (cstr "orange") rejectAll =
      .returns (0, { singleLockYellow with smu := true }) ∧
    symtabLookup { singleLockYellow with smu := true } (cstr "yellow") = .blocks ∧
    symtabLookup yellowTable (cstr "yellow") = .returns (1, yellowTable) ∧
    (symtabUpdate yellowTable (cstr "orange") rejectAll).bind
      (fun r => (symtabLookup r.2 (cstr "yellow")).bind fun l => .returns (r.1, l.1)) =
      .blocks ∧
    (symtabUpdate yellowTable (cstr "orange") rejectAll).value = .returns 0 ∧
    (symtabUpdate yellowTable (cstr "orange") UniqueCount.updateCallback).bind
      (fun r => (symtabLookup r.2 (cstr "yellow")).bind fun l => .returns (r.1, l.1)) =
      .returns (1, 1) := by
  refine ⟨reachable_singleLockYellow, reachable_yellowTable, ?_⟩
  decide

/-! ## C25, C26: the callback invocations and the signals of `symtabUpdate` -/

theorem updateReleaseEvents_fst (c : Control) (h : Nat) :
    (updateReleaseEvents c h).bind (fun r => Outcome.returns r.1) = updateRelease c h := by
  unfold updateReleaseEvents updateRelease
  dsimp only
  split_ifs <;> first
    | rfl
    | (cases hm : pthread_mutex_lock _ <;> simp [Outcome.bind])

theorem updateReleaseEvents_returns {c c' : Control} {h : Nat}
    (H : updateRelease c h = .returns c') :
    ∃ events, updateReleaseEvents c h = .returns (c', events) := by
  have h1 := updateReleaseEvents_fst c h
  rw [H] at h1
  cases hr : updateReleaseEvents c h with
  | returns r =>
    rw [hr] at h1
    simp only [Outcome.bind, Outcome.returns.injEq] at h1
    exact ⟨r.2, by rw [← h1]⟩
  | blocks => rw [hr] at h1; simp [Outcome.bind] at h1
  | faults => rw [hr] at h1; simp [Outcome.bind] at h1
  | exits => rw [hr] at h1; simp [Outcome.bind] at h1

/-- With a callback that has no state `symtabUpdateEvents` returns what `symtabUpdate`
returns and leaves the table `symtabUpdate` leaves. -/
theorem symtabUpdateEvents_stateless (c : Control) (symbol : Symbol) (func : Nat → Nat) :
    (symtabUpdateEvents c symbol (stateless func) ()).bind
      (fun r => Outcome.returns (r.1, r.2.1)) = symtabUpdate c symbol func := by
  unfold symtabUpdateEvents symtabUpdate
  dsimp only
  by_cases h0 : c.length = 0
  · rw [if_pos h0, if_pos h0]
    rfl
  · rw [if_neg h0, if_neg h0]
    cases ha : updateAcquire c (hash symbol % c.length) with
    | returns c1 =>
      simp only [Outcome.bind]
      cases hl : lookup symbol c1 with
      | some looked =>
        simp only [stateless]
        rw [← updateReleaseEvents_fst]
        cases updateReleaseEvents _ (hash symbol % c.length) <;> rfl
      | none =>
        simp only [stateless]
        by_cases hrej : func NULL = NULL
        · rw [if_pos hrej, if_pos hrej]
        · rw [if_neg hrej, if_neg hrej, ← updateReleaseEvents_fst]
          cases updateReleaseEvents _ (hash symbol % c.length) <;> rfl
    | blocks => rfl
    | faults => rfl
    | exits => rfl

/-- C25, the code at the failing input: on a fresh table the install of yellow calls the
callback twice with NULL (lines 372 and 394).  With a callback that counts its calls, the
value tested for rejection is 1 and the value stored is 2; with a callback that answers 1
and then NULL, the test passes, NULL is stored and the call returns 1.  For an installed
symbol the callback is called once, with the stored value, and its answer is stored
without being tested: a callback that answers NULL gets NULL stored and 1 returned. -/
theorem C25_callback_invoked_twice :
    symtabUpdateEvents (symtabCreate rawBlock 4 SYMTAB_NO_LOCKING) (cstr "yellow") countCalls 0 =
      .returns (1,
        { symtabCreate rawBlock 4 SYMTAB_NO_LOCKING with
          backbone := [[], [], [], [{ symbol := cstr "yellow", data := 2 }]] },
        2, [.invoke NULL, .invoke NULL]) ∧
    (countCalls 0 NULL).1 = 1 ∧
    symtabUpdateEvents (symtabCreate rawBlock 4 SYMTAB_NO_LOCKING) (cstr "yellow") acceptOnce 0 =
      .returns (1,
        { symtabCreate rawBlock 4 SYMTAB_NO_LOCKING with
          backbone := [[], [], [], [{ symbol := cstr "yellow", data := NULL }]] },
        2, [.invoke NULL, .invoke NULL]) ∧
    (acceptOnce 0 NULL).1 = 1 ∧
    symtabUpdateEvents noLockTable (cstr "yellow") countCalls 6 =
      .returns (1,
        { noLockTable with backbone := [[], [], [], [{ symbol := cstr "yellow", data := 7 }]] },
        7, [.invoke 1]) ∧
    symtabUpdateEvents noLockTable (cstr "yellow") (stateless rejectAll) () =
      .returns (1,
        { noLockTable with backbone := [[], [], [], [{ symbol := cstr "yellow", data := NULL }]] },
        (), [.invoke 1]) := by
  refine ⟨?_, ?_, ?_, ?_, ?_, ?_⟩ <;> decide

theorem set_set_same {α : Type} (l : List α) (g : Nat) (a : α) (d : α) (h : l.getD g d = a) :
    l.set g a = l := by
  apply set_eq_self
  intro hl
  rw [List.getD_eq_getElem?_getD, List.getElem?_eq_getElem hl] at h
  exact h

/-- The writer's exit in reader/writer mode: `writers` of the group goes down by one, the
other counters and the mutexes are as before, and the signal sent is the one for a waiting
writer if there is one, else the one for a waiting reader if there is one. -/
theorem updateReleaseEvents_rw (c : Control) (h : Nat)
    (hmode : c.concurrencySupport = SYMTAB_ALLOW_CONCURRENT_READS)
    (hmu : c.mu.getD (h % MUTEX_NUM) false = false)
    (hg : h % MUTEX_NUM < c.inner.length) :
    ∃ c' signals, updateReleaseEvents c h = .returns (c', signals) ∧
      c'.innerAt (h % MUTEX_NUM) =
        { c.innerAt (h % MUTEX_NUM) with writers := (c.innerAt (h % MUTEX_NUM)).writers - 1 } ∧
      (∀ g', g' ≠ h % MUTEX_NUM → c'.innerAt g' = c.innerAt g') ∧
      c'.mu = c.mu ∧ c'.backbone = c.backbone ∧ c'.length = c.length ∧
      signals =
        (if (c.innerAt (h % MUTEX_NUM)).waitingWriters > 0 then [.signalWriter (h % MUTEX_NUM)]
         else if (c.innerAt (h % MUTEX_NUM)).waitingReaders > 0 then
           [.signalReader (h % MUTEX_NUM)]
         else []) := by
  rcases c with ⟨len, bb, mode, mu, smu, thins, inner⟩
  simp only at hmode hmu hg
  subst hmode
  simp only [List.getD_eq_getElem?_getD] at hmu
  simp [updateReleaseEvents, SYMTAB_SINGLE_LOCK, SYMTAB_LOCK_BUCKET_GROUPS,
    SYMTAB_USE_THIN_LOCKS, SYMTAB_ALLOW_CONCURRENT_READS, pthread_mutex_lock,
    pthread_mutex_unlock, Outcome.bind, hmu, Control.innerAt, hg]
  refine ⟨_, _, ⟨rfl, rfl⟩, ?_, ?_, ?_, rfl, rfl, rfl⟩
  · simp [hg]
  · intro g' hne
    simp only
    rw [List.getElem?_set_ne (fun e => hne e.symm)]
  · simp only
    apply set_eq_self
    intro hl
    rw [List.getElem?_eq_getElem hl] at hmu
    simpa using hmu

/-- The writer's entry in reader/writer mode on a free group: `writers` goes up by one and
nothing else changes. -/
theorem updateAcquire_rw (c : Control) (h : Nat)
    (hmode : c.concurrencySupport = SYMTAB_ALLOW_CONCURRENT_READS)
    (hf : c.writeFree (h % MUTEX_NUM)) (hg : h % MUTEX_NUM < c.inner.length) :
    ∃ c1, updateAcquire c h = .returns c1 ∧
      c1.innerAt (h % MUTEX_NUM) =
        { c.innerAt (h % MUTEX_NUM) with writers := (c.innerAt (h % MUTEX_NUM)).writers + 1 } ∧
      c1.mu = c.mu ∧ c1.backbone = c.backbone ∧ c1.length = c.length ∧
      c1.concurrencySupport = c.concurrencySupport ∧ c1.inner.length = c.inner.length := by
  obtain ⟨hmu, hr, hw⟩ := hf.2.2.2 hmode
  rcases c with ⟨len, bb, mode, mu, smu, thins, inner⟩
  simp only at hmode hg
  subst hmode
  simp only [Control.innerAt, List.getD_eq_getElem?_getD] at hmu hr hw
  simp [updateAcquire, SYMTAB_SINGLE_LOCK, SYMTAB_LOCK_BUCKET_GROUPS,
    SYMTAB_USE_THIN_LOCKS, SYMTAB_ALLOW_CONCURRENT_READS, pthread_mutex_lock,
    pthread_mutex_unlock, Outcome.bind, hmu, Control.innerAt, hg]
  rw [List.getElem?_eq_getElem hg] at hr hw
  simp only [Option.getD_some] at hr hw
  rw [if_neg (by omega)]
  refine ⟨_, rfl, ?_, ?_, rfl, rfl, rfl, ?_⟩
  · simp [hg]
  · simp only
    apply set_eq_self
    intro hl
    rw [List.getElem?_eq_getElem hl] at hmu
    simpa using hmu
  · simp

theorem signalsOf_writerSignals (is : InnerStruct) (g : Nat) (hww : 0 ≤ is.waitingWriters) :
    signalsOf
      (if is.waitingWriters > 0 then [Event.signalWriter g]
       else if is.waitingReaders > 0 then [Event.signalReader g] else []) =
      writerPreference is g := by
  unfold writerPreference
  by_cases h1 : 0 < is.waitingWriters
  · simp [h1, signalsOf]
  · have h0 : is.waitingWriters = 0 := by omega
    by_cases h2 : 0 < is.waitingReaders
    · simp [h1, h2, h0, signalsOf]
    · simp [h1, h2, signalsOf]

theorem mem_signalsOf_writer (events : List Event) (g : Nat) :
    Event.signalWriter g ∈ signalsOf events ↔ Event.signalWriter g ∈ events := by
  simp [signalsOf, List.mem_filter]

theorem mem_signalsOf_reader (events : List Event) (g : Nat) :
    Event.signalReader g ∈ signalsOf events ↔ Event.signalReader g ∈ events := by
  simp [signalsOf, List.mem_filter]

/-- A successful `symtabUpdate` in reader/writer mode, on either return path: the events
are the callback invocations followed by the signals of the writer's exit, which lowers
`writers` of the group by one. -/
theorem symtabUpdateEvents_rw {σ : Type} (c : Control) (symbol : Symbol)
    (func : σ → Nat → Nat × σ) (s : σ) (h0 : 0 < c.length)
    (hmode : c.concurrencySupport = SYMTAB_ALLOW_CONCURRENT_READS)
    (hin : c.inner.length = MUTEX_NUM) (hf : c.writeFree (c.group symbol))
    (hacc : lookup symbol c = none → (func s NULL).1 ≠ NULL) :
    ∃ c1 c' s' invocations signals,
      updateAcquire c (hash symbol % c.length) = .returns c1 ∧
      c1.innerAt (c.group symbol) =
        { c.innerAt (c.group symbol) with writers := (c.innerAt (c.group symbol)).writers + 1 } ∧
      symtabUpdateEvents c symbol func s = .returns (1, c', s', invocations ++ signals) ∧
      signalsOf invocations = [] ∧
      c'.innerAt (c.group symbol) =
        { c1.innerAt (c.group symbol) with
          writers := (c1.innerAt (c.group symbol)).writers - 1 } ∧
      signals =
        (if (c1.innerAt (c.group symbol)).waitingWriters > 0 then
           [.signalWriter (c.group symbol)]
         else if (c1.innerAt (c.group symbol)).waitingReaders > 0 then
           [.signalReader (c.group symbol)]
         else []) := by
  have hg : hash symbol % c.length % MUTEX_NUM < c.inner.length := by
    rw [hin]; exact Nat.mod_lt _ (by decide)
  obtain ⟨c1, ha, hi1, hmu1, hb1, hl1, hm1, hil1⟩ :=
    updateAcquire_rw c (hash symbol % c.length) hmode hf hg
  have hmu : c.mu.getD (hash symbol % c.length % MUTEX_NUM) false = false :=
    (hf.2.2.2 hmode).1
  have key : ∀ B : List (List Node), ∃ c' signals,
      updateReleaseEvents { c1 with backbone := B } (hash symbol % c.length) =
        .returns (c', signals) ∧
      c'.innerAt (c.group symbol) =
        { c1.innerAt (c.group symbol) with
          writers := (c1.innerAt (c.group symbol)).writers - 1 } ∧
      signals =
        (if (c1.innerAt (c.group symbol)).waitingWriters > 0 then
           [.signalWriter (c.group symbol)]
         else if (c1.innerAt (c.group symbol)).waitingReaders > 0 then
           [.signalReader (c.group symbol)]
         else []) := by
    intro B
    obtain ⟨c', signals, e1, e2, _, _, _, _, e3⟩ :=
      updateReleaseEvents_rw { c1 with backbone := B } (hash symbol % c.length)
        (hm1.trans hmode) (by simp only [hmu1]; exact hmu) (by simp only [hil1]; exact hg)
    exact ⟨c', signals, e1, e2, e3⟩
  have h0' : ¬ c.length = 0 := by omega
  unfold symtabUpdateEvents
  dsimp only
  rw [if_neg h0', ha]
  simp only [Outcome.bind]
  cases hl : lookup symbol c1 with
  | some looked =>
    simp only
    obtain ⟨c', signals, e1, e2, e3⟩ := key
      (c1.backbone.set (hash symbol % c.length)
        (storeChain symbol (func s looked.data).1 (c1.backbone.getD (hash symbol % c.length) [])))
    rw [e1]
    exact ⟨c1, c', (func s looked.data).2, [.invoke looked.data], signals, rfl, hi1, rfl, rfl,
      e2, e3⟩
  | none =>
    simp only
    have hlc : lookup symbol c = none := by
      rw [← lookup_congr hl1 hb1 symbol]; exact hl
    rw [if_neg (hacc hlc)]
    obtain ⟨c', signals, e1, e2, e3⟩ := key
      (c1.backbone.set (hash symbol % c.length)
        ({ symbol := symbol, data := (func (func s NULL).2 NULL).1 } ::
          c1.backbone.getD (hash symbol % c.length) []))
    rw [e1]
    exact ⟨c1, c', (func (func s NULL).2 NULL).2, [.invoke NULL, .invoke NULL], signals, rfl,
      hi1, rfl, rfl, e2, e3⟩

/-- C26: in reader/writer mode a successful `symtabUpdate` (the coordinator of the group
is free, and the symbol is installed or, when it is not, the callback does not answer NULL
to NULL) returns 1 and leaves through the writer's exit, on the path of an installed symbol
as on the path of a new one.  The exit lowers `writers` of the group by exactly one and then
signals the writers' condition if and only if `waitingWriters > 0`, the readers' condition
if and only if `waitingWriters = 0` and `waitingReaders > 0`, and nothing otherwise; it
sends at most one signal, never both. -/
theorem C26_writer_preference {σ : Type} (c : Control) (symbol : Symbol)
    (func : σ → Nat → Nat × σ) (s : σ) (h0 : 0 < c.length)
    (hmode : c.concurrencySupport = SYMTAB_ALLOW_CONCURRENT_READS)
    (hin : c.inner.length = MUTEX_NUM) (hf : c.writeFree (c.group symbol))
    (hww : 0 ≤ (c.innerAt (c.group symbol)).waitingWriters)
    (hacc : lookup symbol c = none → (func s NULL).1 ≠ NULL) :
    ∃ c1 c' s' events,
      updateAcquire c (hash symbol % c.length) = .returns c1 ∧
      symtabUpdateEvents c symbol func s = .returns (1, c', s', events) ∧
      (c'.innerAt (c.group symbol)).writers = (c1.innerAt (c.group symbol)).writers - 1 ∧
      (c'.innerAt (c.group symbol)).readers = (c.innerAt (c.group symbol)).readers ∧
      (c'.innerAt (c.group symbol)).waitingReaders =
        (c.innerAt (c.group symbol)).waitingReaders ∧
      (c'.innerAt (c.group symbol)).waitingWriters =
        (c.innerAt (c.group symbol)).waitingWriters ∧
      signalsOf events = writerPreference (c.innerAt (c.group symbol)) (c.group symbol) ∧
      (Event.signalWriter (c.group symbol) ∈ events ↔
        0 < (c.innerAt (c.group symbol)).waitingWriters) ∧
      (Event.signalReader (c.group symbol) ∈ events ↔
        (c.innerAt (c.group symbol)).waitingWriters = 0 ∧
          0 < (c.innerAt (c.group symbol)).waitingReaders) ∧
      ¬ (Event.signalWriter (c.group symbol) ∈ events ∧
        Event.signalReader (c.group symbol) ∈ events) ∧
      (signalsOf events).length ≤ 1 := by
  obtain ⟨c1, c', s', invocations, signals, ha, hi1, hu, hinv, hi2, hsig⟩ :=
    symtabUpdateEvents_rw c symbol func s h0 hmode hin hf hacc
  have hpref : signalsOf (invocations ++ signals) =
      writerPreference (c.innerAt (c.group symbol)) (c.group symbol) := by
    have h1 : signalsOf (invocations ++ signals) = signalsOf invocations ++ signalsOf signals := by
      simp [signalsOf]
    rw [h1, hinv, List.nil_append, hsig, hi1]
    exact signalsOf_writerSignals _ _ hww
  refine ⟨c1, c', s', invocations ++ signals, ha, hu, by rw [hi2], by rw [hi2, hi1],
    by rw [hi2, hi1], by rw [hi2, hi1], hpref, ?_, ?_, ?_, ?_⟩
  · rw [← mem_signalsOf_writer, hpref]
    unfold writerPreference
    split_ifs <;> simp_all
  · rw [← mem_signalsOf_reader, hpref]
    unfold writerPreference
    by_cases h1 : 0 < (c.innerAt (c.group symbol)).waitingWriters
    · rw [if_pos h1]
      simp only [List.mem_singleton, reduceCtorEq, false_iff, not_and]
      intro h
      omega
    · rw [if_neg h1]
      by_cases h2 : (c.innerAt (c.group symbol)).waitingWriters = 0 ∧
          0 < (c.innerAt (c.group symbol)).waitingReaders
      · rw [if_pos h2]
        simp [h2]
      · rw [if_neg h2]
        simp [h2]
  · rw [← mem_signalsOf_writer, ← mem_signalsOf_reader, hpref]
    unfold writerPreference
    split_ifs <;> simp
  · rw [hpref]
    unfold writerPreference
    split_ifs <;> simp

theorem C26_writer_preference_witness :
    0 < contendedTable.length ∧
    contendedTable.concurrencySupport = SYMTAB_ALLOW_CONCURRENT_READS ∧
    contendedTable.inner.length = MUTEX_NUM ∧
    contendedTable.writeFree (contendedTable.group (cstr "yellow")) ∧
    contendedTable.group (cstr "yellow") = 3 ∧
    (contendedTable.innerAt 3).waitingWriters = 2 ∧
    lookup (cstr "yellow") contendedTable = some { symbol := cstr "yellow", data := 1 } ∧
    (stateless updateOnly () NULL).1 = NULL ∧
    symtabUpdateEvents contendedTable (cstr "yellow") (stateless updateOnly) () =
      .returns (1,
        { contendedTable with
          backbone := [[], [], [], [{ symbol := cstr "yellow", data := 2 }]] },
        (), [.invoke 1, .signalWriter 3]) ∧
    ∃ c1 c' s' events,
      updateAcquire contendedTable (hash (cstr "yellow") % contendedTable.length) =
        .returns c1 ∧
      symtabUpdateEvents contendedTable (cstr "yellow") (stateless updateOnly) () =
        .returns (1, c', s', events) ∧
      (c'.innerAt (contendedTable.group (cstr "yellow"))).writers =
        (c1.innerAt (contendedTable.group (cstr "yellow"))).writers - 1 :=
  ⟨by decide, by decide, by decide, by unfold Control.writeFree; decide, by decide, by decide,
    by decide, by decide, by decide,
    (C26_writer_preference contendedTable (cstr "yellow") (stateless updateOnly) ()
      (by decide) (by decide) (by decide) (by unfold Control.writeFree; decide) (by decide)
      (by decide)).imp
      fun _ h => h.imp fun _ h => h.imp fun _ h => h.imp fun _ h => ⟨h.1, h.2.1, h.2.2.1⟩⟩

/-! ## C27: a call uses the coordinator of one group -/

theorem updateAcquire_blocks {c : Control} {h : Nat} (hf : ¬ c.writeFree (h % MUTEX_NUM)) :
    updateAcquire c h = .blocks := by
  rcases c with ⟨len, bb, mode, mu, smu, thins, inner⟩
  by_cases h1 : mode = 1
  · subst h1
    cases smu <;>
    simp [updateAcquire, Control.writeFree, SYMTAB_SINGLE_LOCK, SYMTAB_LOCK_BUCKET_GROUPS,
      SYMTAB_USE_THIN_LOCKS, SYMTAB_ALLOW_CONCURRENT_READS, pthread_mutex_lock,
      pthread_mutex_unlock, Outcome.bind] at hf ⊢
  by_cases h2 : mode = 2
  · subst h2
    cases hm : (mu[h % MUTEX_NUM]?).getD false <;>
    simp [updateAcquire, Control.writeFree, SYMTAB_SINGLE_LOCK, SYMTAB_LOCK_BUCKET_GROUPS,
      SYMTAB_USE_THIN_LOCKS, SYMTAB_ALLOW_CONCURRENT_READS, pthread_mutex_lock,
      pthread_mutex_unlock, Outcome.bind, hm] at hf ⊢
  by_cases h4 : mode = 4
  · subst h4
    by_cases ht : (thins[h % MUTEX_NUM]?).getD 0 = 0 <;>
    simp [updateAcquire, Control.writeFree, SYMTAB_SINGLE_LOCK, SYMTAB_LOCK_BUCKET_GROUPS,
      SYMTAB_USE_THIN_LOCKS, SYMTAB_ALLOW_CONCURRENT_READS, pthread_mutex_lock,
      pthread_mutex_unlock, Outcome.bind, thinLock, ht] at hf ⊢
  by_cases h3 : mode = 3
  · subst h3
    cases hm : (mu[h % MUTEX_NUM]?).getD false <;>
    simp [updateAcquire, Control.writeFree, SYMTAB_SINGLE_LOCK, SYMTAB_LOCK_BUCKET_GROUPS,
      SYMTAB_USE_THIN_LOCKS, SYMTAB_ALLOW_CONCURRENT_READS, pthread_mutex_lock,
      pthread_mutex_unlock, Outcome.bind, hm, Control.innerAt] at hf ⊢
    exact hf
  · simp [Control.writeFree, SYMTAB_SINGLE_LOCK, SYMTAB_LOCK_BUCKET_GROUPS,
      SYMTAB_USE_THIN_LOCKS, SYMTAB_ALLOW_CONCURRENT_READS, h1, h2, h3, h4] at hf

/-- A call of `symtabUpdate` whose coordinator is held never returns. -/
theorem symtabUpdate_of_not_writeFree {c : Control} {symbol : Symbol} (func : Nat → Nat)
    (h0 : 0 < c.length) (hf : ¬ c.writeFree (c.group symbol)) :
    symtabUpdate c symbol func = .blocks := by
  unfold symtabUpdate
  dsimp only
  rw [if_neg (by omega), updateAcquire_blocks hf]
  rfl

/-- The entry code of `symtabUpdate` leaves the mutex, the thin-lock flag and the counters
of every other group as they were, and the single mutex too unless the mode is
SYMTAB_SINGLE_LOCK. -/
theorem updateAcquire_others {c c1 : Control} {h : Nat} (H : updateAcquire c h = .returns c1)
    (g' : Nat) (hne : g' ≠ h % MUTEX_NUM) :
    c1.mu.getD g' false = c.mu.getD g' false ∧ c1.thins.getD g' 0 = c.thins.getD g' 0 ∧
    c1.innerAt g' = c.innerAt g' ∧
    (c.concurrencySupport ≠ SYMTAB_SINGLE_LOCK → c1.smu = c.smu) := by
  have hne' : h % MUTEX_NUM ≠ g' := fun e => hne e.symm
  rcases c with ⟨len, bb, mode, mu, smu, thins, inner⟩
  by_cases h1 : mode = 1
  · subst h1
    cases smu <;>
    simp [updateAcquire, SYMTAB_SINGLE_LOCK, SYMTAB_LOCK_BUCKET_GROUPS,
      SYMTAB_USE_THIN_LOCKS, SYMTAB_ALLOW_CONCURRENT_READS, pthread_mutex_lock,
      pthread_mutex_unlock, Outcome.bind] at H
    subst H
    simp [SYMTAB_SINGLE_LOCK, Control.innerAt]
  by_cases h2 : mode = 2
  · subst h2
    cases hm : (mu[h % MUTEX_NUM]?).getD false <;>
    simp [updateAcquire, SYMTAB_SINGLE_LOCK, SYMTAB_LOCK_BUCKET_GROUPS,
      SYMTAB_USE_THIN_LOCKS, SYMTAB_ALLOW_CONCURRENT_READS, pthread_mutex_lock,
      pthread_mutex_unlock, Outcome.bind, hm] at H
    subst H
    simp [List.getElem?_set_ne hne', Control.innerAt]
  by_cases h4 : mode = 4
  · subst h4
    by_cases ht : (thins[h % MUTEX_NUM]?).getD 0 = 0 <;>
    simp [updateAcquire, SYMTAB_SINGLE_LOCK, SYMTAB_LOCK_BUCKET_GROUPS,
      SYMTAB_USE_THIN_LOCKS, SYMTAB_ALLOW_CONCURRENT_READS, pthread_mutex_lock,
      pthread_mutex_unlock, Outcome.bind, thinLock, ht] at H
    subst H
    simp [List.getElem?_set_ne hne', Control.innerAt]
  by_cases h3 : mode = 3
  · subst h3
    cases hm : (mu[h % MUTEX_NUM]?).getD false <;>
    simp [updateAcquire, SYMTAB_SINGLE_LOCK, SYMTAB_LOCK_BUCKET_GROUPS,
      SYMTAB_USE_THIN_LOCKS, SYMTAB_ALLOW_CONCURRENT_READS, pthread_mutex_lock,
      pthread_mutex_unlock, Outcome.bind, hm, Control.innerAt] at H
    split_ifs at H with hrw
    simp only [Outcome.returns.injEq] at H
    subst H
    simp [List.getElem?_set_ne hne', Control.innerAt]
  · simp [updateAcquire, SYMTAB_SINGLE_LOCK, SYMTAB_LOCK_BUCKET_GROUPS,
      SYMTAB_USE_THIN_LOCKS, SYMTAB_ALLOW_CONCURRENT_READS, pthread_mutex_lock,
      pthread_mutex_unlock, Outcome.bind, h1, h2, h3, h4] at H
    subst H
    simp

/-- The value a returning `symtabUpdate` hands back: 0 for a rejected install, else 1. -/
theorem symtabUpdate_value {c c' : Control} {symbol : Symbol} {func : Nat → Nat} {r : Int}
    (H : symtabUpdate c symbol func = .returns (r, c')) :
    r = if lookup symbol c = none ∧ func NULL = NULL then 0 else 1 := by
  obtain ⟨_, _, hc⟩ := symtabUpdate_returns H
  rcases hc with ⟨looked, h1, hr, _⟩ | ⟨h1, h2, hr, _⟩ | ⟨h1, h2, hr, _⟩
  · rw [hr, if_neg (by rw [h1]; simp)]
  · rw [hr, if_pos ⟨h1, h2⟩]
  · rw [hr, if_neg (fun h => h2 h.2)]

theorem writeFree_of_agreesOn {c c2 : Control} {g : Nat} (ha : c.agreesOn c2 g)
    (hm : c.perGroup) (hf : c.writeFree g) : c2.writeFree g := by
  obtain ⟨_, _, e3, e4, e5, e6⟩ := ha
  unfold Control.writeFree at *
  rw [e3, e4, e5, e6]
  refine ⟨fun e => ?_, hf.2⟩
  rcases hm with h | h | h <;> rw [h] at e <;> exact absurd e (by decide)

theorem readFree_of_agreesOn {c c2 : Control} {g : Nat} (ha : c.agreesOn c2 g)
    (hm : c.perGroup) (hf : c.readFree g) : c2.readFree g := by
  obtain ⟨_, _, e3, e4, e5, e6⟩ := ha
  unfold Control.readFree at *
  rw [e3, e4, e5, e6]
  refine ⟨fun e => ?_, hf.2⟩
  rcases hm with h | h | h <;> rw [h] at e <;> exact absurd e (by decide)

theorem agreesOn_symm {c c2 : Control} {g : Nat} (ha : c.agreesOn c2 g) : c2.agreesOn c g :=
  ⟨ha.1.symm, ha.2.1.symm, ha.2.2.1.symm, ha.2.2.2.1.symm, ha.2.2.2.2.1.symm, ha.2.2.2.2.2.symm⟩

theorem perGroup_of_agreesOn {c c2 : Control} {g : Nat} (ha : c.agreesOn c2 g)
    (hm : c.perGroup) : c2.perGroup := by
  unfold Control.perGroup at *
  rw [ha.2.2.1]
  exact hm

/-- In the per-group modes what `symtabUpdate` and `symtabLookup` return depends on the
entries and on the coordinator state of the group of the symbol only. -/
theorem value_of_agreesOn {c c2 : Control} {symbol : Symbol} (func : Nat → Nat)
    (h0 : 0 < c.length) (hm : c.perGroup) (ha : c.agreesOn c2 (c.group symbol)) :
    (symtabUpdate c symbol func).value = (symtabUpdate c2 symbol func).value ∧
    (symtabLookup c symbol).value = (symtabLookup c2 symbol).value := by
  have hg : c2.group symbol = c.group symbol := by
    unfold Control.group
    rw [ha.1]
  have h02 : 0 < c2.length := by rw [ha.1]; exact h0
  have hlk : lookup symbol c2 = lookup symbol c := lookup_congr ha.1 ha.2.1 symbol
  constructor
  · by_cases hf : c.writeFree (c.group symbol)
    · have hf2 : c2.writeFree (c2.group symbol) := by
        rw [hg]; exact writeFree_of_agreesOn ha hm hf
      obtain ⟨r, c', H⟩ := @symtabUpdate_of_writeFree _ symbol func h0 hf
      obtain ⟨r2, c2', H2⟩ := @symtabUpdate_of_writeFree _ symbol func h02 hf2
      rw [H, H2, symtabUpdate_value H, symtabUpdate_value H2, hlk]
      rfl
    · have hf2 : ¬ c2.writeFree (c2.group symbol) := by
        rw [hg]
        intro h2
        exact hf (writeFree_of_agreesOn (agreesOn_symm ha) (perGroup_of_agreesOn ha hm) h2)
      rw [symtabUpdate_of_not_writeFree func h0 hf, symtabUpdate_of_not_writeFree func h02 hf2]
  · by_cases hf : c.readFree (c.group symbol)
    · have hf2 : c2.readFree (c2.group symbol) := by
        rw [hg]; exact readFree_of_agreesOn ha hm hf
      rw [symtabLookup_of_readFree h0 hf, symtabLookup_of_readFree h02 hf2, hlk]
      rfl
    · have hf2 : ¬ c2.readFree (c2.group symbol) := by
        rw [hg]
        intro h2
        exact hf (readFree_of_agreesOn (agreesOn_symm ha) (perGroup_of_agreesOn ha hm) h2)
      rw [symtabLookup_of_not_readFree h0 hf, symtabLookup_of_not_readFree h02 hf2]

/-- C27: in the three per-group modes a call of `symtabUpdate` or `symtabLookup` on a
symbol uses the coordinator of group `(hash(symbol) % length) % 16` only, a number below
16.  What the call returns, or that it never returns, is the same on every table with the
same entries and the same state of that group; after the call the mutex, the thin-lock flag
and the counters of every other group, and the single mutex, are as before; and after a
call that returned 1, or a lookup, the whole coordinator state is as before, so what was
acquired was released in the same group. -/
theorem C27_group_locality (c : Control) (symbol : Symbol) (func : Nat → Nat)
    (h0 : 0 < c.length) (hm : c.perGroup) :
    c.group symbol = (hash symbol % c.length) % 16 ∧ c.group symbol < 16 ∧
    (∀ c2, c.agreesOn c2 (c.group symbol) →
      (symtabUpdate c symbol func).value = (symtabUpdate c2 symbol func).value ∧
      (symtabLookup c symbol).value = (symtabLookup c2 symbol).value) ∧
    (∀ r c', symtabUpdate c symbol func = .returns (r, c') →
      c'.smu = c.smu ∧
      ∀ g', g' ≠ c.group symbol →
        c'.mu.getD g' false = c.mu.getD g' false ∧ c'.thins.getD g' 0 = c.thins.getD g' 0 ∧
        c'.innerAt g' = c.innerAt g') ∧
    (∀ c', symtabUpdate c symbol func = .returns (1, c') →
      c'.mu = c.mu ∧ c'.thins = c.thins ∧ c'.inner = c.inner ∧ c'.smu = c.smu) ∧
    (∀ v c', symtabLookup c symbol = .returns (v, c') → c' = c) ∧
    (c.writeFree (c.group symbol) → ∃ r c', symtabUpdate c symbol func = .returns (r, c')) ∧
    (c.readFree (c.group symbol) →
      symtabLookup c symbol = .returns (nodeData (lookup symbol c), c)) := by
  have hmode : c.concurrencySupport ≠ SYMTAB_SINGLE_LOCK := by
    intro e
    rcases hm with h | h | h <;> rw [h] at e <;> exact absurd e (by decide)
  refine ⟨rfl, Nat.mod_lt _ (by decide), fun c2 ha => value_of_agreesOn func h0 hm ha, ?_, ?_,
    ?_, fun hf => symtabUpdate_of_writeFree func h0 hf, fun hf => symtabLookup_of_readFree h0 hf⟩
  · intro r c' H
    obtain ⟨_, _, hc⟩ := symtabUpdate_returns H
    rcases hc with ⟨_, _, _, rfl⟩ | ⟨_, _, _, hacq⟩ | ⟨_, _, _, rfl⟩
    · exact ⟨rfl, fun g' _ => ⟨rfl, rfl, rfl⟩⟩
    · refine ⟨(updateAcquire_others hacq 16 ?_).2.2.2 hmode, fun g' hne => ?_⟩
      · have : hash symbol % c.length % MUTEX_NUM < 16 := Nat.mod_lt _ (by decide)
        omega
      · obtain ⟨e1, e2, e3, _⟩ := updateAcquire_others hacq g' hne
        exact ⟨e1, e2, e3⟩
    · exact ⟨rfl, fun g' _ => ⟨rfl, rfl, rfl⟩⟩
  · intro c' H
    obtain ⟨B, rfl⟩ := symtabUpdate_one H
    exact ⟨rfl, rfl, rfl, rfl⟩
  · intro v c' H
    exact (symtabLookup_returns H).2.2.1

theorem C27_group_locality_witness :
    0 < busyTable.length ∧ busyTable.perGroup ∧ busyTable.group (cstr "yellow") = 3 ∧
    coloursTable.agreesOn busyTable 3 ∧
    (symtabUpdate coloursTable (cstr "yellow") MostUsed.updateCallback).value = .returns 1 ∧
    (symtabUpdate busyTable (cstr "yellow") MostUsed.updateCallback).value = .returns 1 :=
  ⟨by decide, by unfold Control.perGroup; decide, by decide,
    by unfold Control.agreesOn; decide, by decide,
    (((C27_group_locality busyTable (cstr "yellow") MostUsed.updateCallback (by decide)
      (by unfold Control.perGroup; decide)).2.2.1 coloursTable
      (by unfold Control.agreesOn; decide)).1).trans (by decide)⟩

/-! ## C1, C5: the lock a rejected install leaves held -/

theorem runCalls_cons {c c' : Control} {x : Call} {rest : List Call} {results : List Returned}
    (H : runCalls c (x :: rest) = .returns (results, c')) :
    ∃ r c1 rs, call c x = .returns (r, c1) ∧ runCalls c1 rest = .returns (rs, c') ∧
      results = r :: rs := by
  simp only [runCalls] at H
  cases hx : call c x with
  | returns rc =>
    rw [hx] at H
    simp only [Outcome.bind] at H
    cases hr : runCalls rc.2 rest with
    | returns rs =>
      rw [hr] at H
      simp only [Outcome.returns.injEq, Prod.mk.injEq] at H
      exact ⟨rc.1, rc.2, rs.1, rfl, by rw [← H.2]; exact hr, H.1.symm⟩
    | blocks => rw [hr] at H; simp at H
    | faults => rw [hr] at H; simp at H
    | exits => rw [hr] at H; simp at H
  | blocks => rw [hx] at H; simp [Outcome.bind] at H
  | faults => rw [hx] at H; simp [Outcome.bind] at H
  | exits => rw [hx] at H; simp [Outcome.bind] at H

/-- As long as no `symtabUpdate` returns 0, every coordinator is free between the calls. -/
theorem runCalls_idle (calls : List Call) :
    ∀ {c c' : Control} {results : List Returned}, c.idle →
      runCalls c calls = .returns (results, c') → Returned.int 0 ∉ results → c'.idle := by
  induction calls with
  | nil =>
    intro c c' results hi H _
    simp only [runCalls, Outcome.returns.injEq, Prod.mk.injEq] at H
    rw [← H.2]
    exact hi
  | cons x rest ih =>
    intro c c' results hi H hno
    obtain ⟨r, c1, rs, hx, hr, rfl⟩ := runCalls_cons H
    have hno' : Returned.int 0 ∉ rs := fun h => hno (List.mem_cons_of_mem _ h)
    have hr0 : r ≠ Returned.int 0 := fun h => hno (h ▸ List.mem_cons_self _ _)
    refine @ih c1 c' rs ?_ hr hno'
    rcases call_returns hx with ⟨symbol, func, r0, _, hu, e⟩ | ⟨symbol, v, _, hl, _⟩
    · have hv := symtabUpdate_value hu
      have h1 : r0 = 1 := by
        rw [hv]
        split_ifs with hc
        · rw [hv, if_pos hc] at e
          exact absurd e hr0
        · rfl
      rw [h1] at hu
      exact idle_of_symtabUpdate_one hi hu
    · obtain ⟨_, _, e, _⟩ := symtabLookup_returns hl
      rw [e]
      exact hi

/-- On every table that calls of which no `symtabUpdate` returned 0 reach from a fresh
table with at least one bucket, a `symtabUpdate` whose callback does not answer NULL
returns 1, and `symtabLookup` of the symbol then returns the value the callback gave. -/
theorem update_then_lookup_without_rejection (raw : Control) (n : Nat) (hn : 0 < n)
    (mode : Int) (calls : List Call) (results : List Returned) (c : Control)
    (symbol : Symbol) (func : Nat → Nat)
    (H : runCalls (symtabCreate raw n mode) calls = .returns (results, c))
    (hno : Returned.int 0 ∉ results) (hf : func (nodeData (lookup symbol c)) ≠ NULL) :
    ∃ c', symtabUpdate c symbol func = .returns (1, c') ∧
      symtabLookup c' symbol = .returns (func (nodeData (lookup symbol c)), c') := by
  obtain ⟨hr, hl⟩ := runCalls_reachable calls (Reachable.create raw n mode) H
  rw [symtabCreate_length] at hl
  have hi := runCalls_idle calls (symtabCreate_idle raw n mode) H hno
  have hwf := WF_of_reachable hr
  obtain ⟨c', hu, h1, h2⟩ := update_then_lookup_of_writeFree c symbol func hr
    (by rw [hl]; exact hn) (hi _) hf
  refine ⟨c', hu, ?_⟩
  cases hlk : lookup symbol c with
  | some node =>
    rw [h1 node (mem_entries_of_lookup hlk) (lookup_symbol hlk)]
    rfl
  | none =>
    rw [h2 (fun node hm e => by
      have := lookup_of_mem_entries hwf hm
      rw [e, hlk] at this
      cases this)]
    rfl

/-- C1, the code at the failing input: on a fresh table under the single lock the rejected
install of orange returns 0 at line 375 without running the release code, so the lock
stays held.  The next `symtabUpdate`, of yellow with the callback of uniqueCount.c, which
does not answer NULL, then waits for the lock for ever instead of returning 1; the same
happens with the thin lock of the group.  Without the rejected install the call returns 1
and `symtabLookup` of yellow returns the value of the callback. -/
theorem C1_update_waits_after_rejected_install :
    rejectAll NULL = NULL ∧ UniqueCount.updateCallback NULL ≠ NULL ∧
    symtabUpdate singleLockTable (cstr "orange") rejectAll =
      .returns (0, { singleLockTable with smu := true }) ∧
    symtabUpdate { singleLockTable with smu := true } (cstr "yellow")
      UniqueCount.updateCallback = .blocks ∧
    runCalls singleLockTable
      [.update (cstr "orange") rejectAll, .update (cstr "yellow") UniqueCount.updateCallback,
        .lookup (cstr "yellow")] = .blocks ∧
    runCalls (symtabCreate rawBlock 4 SYMTAB_USE_THIN_LOCKS)
      [.update (cstr "orange") rejectAll, .update (cstr "yellow") UniqueCount.updateCallback,
        .lookup (cstr "yellow")] = .blocks ∧
    runCalls singleLockTable
      [.update (cstr "yellow") UniqueCount.updateCallback, .lookup (cstr "yellow")] =
      .returns ([.int 1, .pointer (UniqueCount.updateCallback NULL)], singleLockYellow) := by
  decide

/-- C5, the code at the failing input: on the fresh table under the single lock no entry
holds yellow and `symtabLookup` of orange returns NULL.  The rejected install of yellow
returns 0 and adds no entry, but it returns at line 375 without running the release code:
the lock is held afterwards, and the later `symtabLookup` of orange never returns.  The
same happens to the later lookup of a symbol of the same group under the mutexes of the
groups and in reader/writer mode; without locking the later lookup returns NULL as
before. -/
theorem C5_rejected_install_blocks_later_lookup :
    cstr "yellow" ∉ singleLockTable.entries.map Node.symbol ∧ rejectAll NULL = NULL ∧
    symtabLookup singleLockTable (cstr "orange") = .returns (NULL, singleLockTable) ∧
    symtabUpdate singleLockTable (cstr "yellow") rejectAll =
      .returns (0, { singleLockTable with smu := true }) ∧
    ({ singleLockTable with smu := true } : Control).backbone = singleLockTable.backbone ∧
    symtabLookup { singleLockTable with smu := true } (cstr "orange") = .blocks ∧
    runCalls singleLockTable [.update (cstr "yellow") rejectAll, .lookup (cstr "orange")] =
      .blocks ∧
    runCalls (symtabCreate rawBlock 4 SYMTAB_LOCK_BUCKET_GROUPS)
      [.update (cstr "yellow") rejectAll, .lookup (cstr "orange")] = .blocks ∧
    runCalls (symtabCreate rawBlock 4 SYMTAB_ALLOW_CONCURRENT_READS)
      [.update (cstr "yellow") rejectAll, .lookup (cstr "orange")] = .blocks ∧
    runCalls (symtabCreate rawBlock 4 SYMTAB_NO_LOCKING)
      [.update (cstr "yellow") rejectAll, .lookup (cstr "orange")] =
      .returns ([.int 0, .pointer NULL], symtabCreate rawBlock 4 SYMTAB_NO_LOCKING) := by
  decide

/-! ## C4, C15: a table created with no bucket -/

/-- C4 as stated fails on a table created with no bucket: `symtabCreate(0, mode)` returns a
table, and the first `symtabUpdate` on it computes `hash(symbol) % 0`, as does a
`symtabLookup`. -/
theorem C4_counterexample :
    symtabCreateMalloc (allGranted rawBlock) 0 SYMTAB_NO_LOCKING =
      .returns (some (symtabCreate rawBlock 0 SYMTAB_NO_LOCKING)) ∧
    (symtabCreate rawBlock 0 SYMTAB_NO_LOCKING).length = 0 ∧
    symtabUpdate (symtabCreate rawBlock 0 SYMTAB_NO_LOCKING) (cstr "yellow")
      MostUsed.updateCallback = .faults ∧
    MostUsed.processFile (symtabCreate rawBlock 0 SYMTAB_NO_LOCKING) colours = .faults ∧
    symtabLookup (symtabCreate rawBlock 0 SYMTAB_NO_LOCKING) (cstr "yellow") = .faults := by
  decide

/-- C15 as stated fails on a table created with no bucket: `symtabCreate(0, mode)` returns
a table, and the first `symtabLookup` of `processFile` computes `hash(symbol) % 0`.  The
counter of the counting loop is an `int`: at 2147483647 the next entry makes
`count += 1` overflow. -/
theorem C15_counterexample :
    colours ≠ [] ∧
    symtabCreateMalloc (allGranted rawBlock) 0 SYMTAB_NO_LOCKING =
      .returns (some (symtabCreate rawBlock 0 SYMTAB_NO_LOCKING)) ∧
    symtabLookup (symtabCreate rawBlock 0 SYMTAB_NO_LOCKING) (cstr "yellow") = .faults ∧
    UniqueCount.processFile (symtabCreate rawBlock 0 SYMTAB_NO_LOCKING) colours = .faults ∧
    UniqueCount.countLoop 2 (symtabCreateIterator coloursTable) 0 2147483647 = .faults := by
  decide

end ConSymTab
